import Mathlib

/-! SSD1306 display driver: frame buffer and rendering engine.

A shallow embedding of `SSD1306.c` / `SSD1306.h` / `SSD1306_fonts.h`.

Conventions of the embedding.

* Machine integers are natural numbers (integers where the C variable is
  signed).  Where the C code stores into a narrower type the truncation is
  written out (`% 256` for `uint8_t`, `% 65536` for `uint16_t`, `toInt16`
  for `int16_t`).  The fields and arguments themselves are unbounded
  numbers; a theorem that needs the range of a `uint8_t` field says so.
* The device handle `SSD1306_t` is passed explicitly; every driver function
  returns the new handle.
* Memory is modelled by lists.  An access outside the list (a read or a write
  past the end of an array) is undefined behaviour in C; the embedding
  returns `none` there, so `some _` always means a defined execution.
* The loops of `SSD1306_DrawLine` and `SSD1306_DrawCircle` take a `fuel`
  argument and return `none` when it is used up.
* The bus transport (`SSD1306_WriteCommand`, `SSD1306_WriteData`) is
  modelled by the trace of calls made.
-/

/-! ## Data model (`SSD1306.h`, `SSD1306_fonts.h`) -/

/-- The enumeration `SSD1306_Color_t`: `SSD1306_COLOR_BLACK = 0x00`,
`SSD1306_COLOR_WHITE = 0x01`. -/
inductive SSD1306_Color_t where
  | SSD1306_COLOR_BLACK
  | SSD1306_COLOR_WHITE
deriving DecidableEq, Repr

open SSD1306_Color_t

/-- The C expression `(SSD1306_Color_t) !color`: `!0 = 1` and `!1 = 0`. -/
def SSD1306_Color_t.not : SSD1306_Color_t → SSD1306_Color_t
  | SSD1306_COLOR_BLACK => SSD1306_COLOR_WHITE
  | SSD1306_COLOR_WHITE => SSD1306_COLOR_BLACK

/-- The struct `SSD1306_t` (the I2C handle is part of the transport and is
left out).  `buffer` is the heap block `dev->buffer`. -/
structure SSD1306_t where
  address : Nat
  width : Nat
  height : Nat
  offset_x : Nat
  should_mirrror_vertical : Nat
  should_mirrror_horizontal : Nat
  should_inverse_color : Nat
  cur_x : Nat
  cur_y : Nat
  buffer_size : Nat
  buffer : List Nat
  is_dirty : Nat
  is_initialized : Nat
deriving DecidableEq, Repr

/-- A call made on the transport: `SSD1306_WriteCommand (dev, byte)` or
`SSD1306_WriteData (dev, bytes, length)`. -/
inductive Transport where
  | command (byte : Nat)
  | data (bytes : List Nat)
deriving DecidableEq, Repr

/-- The struct `SSD1306_Vertex_t`. -/
structure SSD1306_Vertex_t where
  x : Nat
  y : Nat
deriving DecidableEq, Repr

/-- The struct `SSD1306_Bitmap_t`. -/
structure SSD1306_Bitmap_t where
  width : Nat
  height : Nat
  data : List Nat
deriving DecidableEq, Repr

/-- The struct `SSD1306_Font_t` as `SSD1306.c` uses it.  The header under
`src/` declares `char_width`, `char_height` and `data`; the fields `s_data`
and `s_data_amount` of the special bank are used by `SSD1306_DrawChar` and
`SSD1606Font_AddSpecialChar` but their declaration is not part of the
sources at hand. -/
structure SSD1306_Font_t where
  char_width : Nat
  char_height : Nat
  data : List Nat
  s_data : List Nat
  s_data_amount : Nat
deriving DecidableEq, Repr

/-! ## Loops -/

/-- The loop `for (i = start; i < start + count; i++) body`, threaded through
a state; it stops with `none` as soon as the body does. -/
def forLoop {σ : Type} (body : Nat → σ → Option σ) : Nat → Nat → σ → Option σ
  | 0, _, s => some s
  | count + 1, i, s =>
    match body i s with
    | none => none
    | some s1 => forLoop body count (i + 1) s1

/-! ## Pixel buffer (`SSD1306.c`, lines 121-173) -/

/-- The function `SSD1306_DrawPixel`.  The byte `buffer[x + (y / 8) * width]`
is updated with `|= 1 << (y % 8)` or `&= ~(1 << (y % 8))`; the result is
stored as `uint8_t`. -/
def SSD1306_DrawPixel (dev : SSD1306_t) (x y : Nat) (color : SSD1306_Color_t) :
    Option SSD1306_t :=
  if x ≥ dev.width ∨ y ≥ dev.height then
    some dev
  else
    match dev.buffer[x + (y / 8) * dev.width]? with
    | none => none
    | some b =>
      let b1 :=
        if color = SSD1306_COLOR_WHITE then (b ||| (1 <<< (y % 8))) % 256
        else b &&& (0xFF ^^^ (1 <<< (y % 8)))
      some { dev with buffer := dev.buffer.set (x + (y / 8) * dev.width) b1, is_dirty := 1 }

/-- Reading pixel `(x, y)` back from the frame buffer: bit `y % 8` of the
byte at index `x + (y / 8) * width`.  The driver has no read function; this
is the read of the data model, used to state what the drawing functions
leave in the buffer. -/
def pixelAt (dev : SSD1306_t) (x y : Nat) : Option SSD1306_Color_t :=
  (dev.buffer[x + (y / 8) * dev.width]?).map
    (fun b => if b.testBit (y % 8) then SSD1306_COLOR_WHITE else SSD1306_COLOR_BLACK)

/-- Bit `k` of buffer byte `i`, when the byte exists. -/
def bufferBit (buffer : List Nat) (i k : Nat) : Option Bool :=
  (buffer[i]?).map (fun b => b.testBit k)

/-- The function `SSD1306_FillBuffer`: `memcpy (dev->buffer, buf, len)` when
`len <= dev->buffer_size`.  `buf` is the caller's array; copying `len` bytes
reads `buf[0 .. len)` and writes `buffer[0 .. len)`. -/
def SSD1306_FillBuffer (dev : SSD1306_t) (buf : List Nat) (len : Nat) : Option SSD1306_t :=
  if len ≤ dev.buffer_size then
    if len ≤ buf.length ∧ len ≤ dev.buffer.length then
      some { dev with buffer := buf.take len ++ dev.buffer.drop len, is_dirty := 1 }
    else
      none
  else
    some dev

/-- The function `SSD1306_Fill`: `for (uint16_t i = 0; i < dev->buffer_size; i++)`
stores `0x00` or `0xFF` in `buffer[i]`. -/
def SSD1306_Fill (dev : SSD1306_t) (color : SSD1306_Color_t) : Option SSD1306_t :=
  match forLoop (fun i (d : SSD1306_t) =>
      if i < d.buffer.length then
        some { d with buffer := d.buffer.set i (if color = SSD1306_COLOR_BLACK then 0x00 else 0xFF) }
      else
        none) dev.buffer_size 0 dev with
  | none => none
  | some d => some { d with is_dirty := 1 }

/-- The function `SSD1306_UpdateScreen`, with the transport calls it makes.
Page `i` sends three commands and then the `width` bytes that start at
`&buffer[width * i]`. -/
def SSD1306_UpdateScreen (dev : SSD1306_t) : Option (SSD1306_t × List Transport) :=
  if dev.is_dirty = 0 then
    some (dev, [])
  else
    match forLoop (fun i (trace : List Transport) =>
        if dev.width * i + dev.width ≤ dev.buffer.length then
          some (trace ++ [Transport.command ((0xB0 + i) % 256), Transport.command 0x00,
            Transport.command 0x10,
            Transport.data ((dev.buffer.drop (dev.width * i)).take dev.width)])
        else
          none) (dev.height / 8) 0 [] with
    | none => none
    | some trace => some ({ dev with is_dirty := 0 }, trace)

/-! ## Text engine (`SSD1306.c`, lines 175-269) -/

/-- Lines 182-198 of `SSD1306_DrawChar`: the pointer `char_start` as a pair
(array, offset), or `none` where the function returns 0.  The parameter
`START` is the constant `SSD1606_FONT_START_SPECIAL_CHARS`, whose definition
is not part of the sources at hand.  Character codes are `0 .. 255` (`char`
is unsigned on the ARM targets of the driver; a negative code of a signed
`char` takes the same `return 0` branches). -/
def char_start (START : Nat) (ch : Nat) (font : SSD1306_Font_t) : Option (List Nat × Nat) :=
  if ch > 126 then
    none
  else if ch < 32 then
    if ch < START ∨ ch ≥ font.s_data_amount + START then
      none
    else
      some (font.s_data, (ch - START) * font.char_height)
  else
    some (font.data, (ch - 32) * font.char_height)

/-- Lines 202-212 of `SSD1306_DrawChar`: the two nested loops that paint the
glyph whose rows start at `bank[off]`.  Row `i` is loaded as `uint16_t b`;
column `j` tests `(b << j) & 0x8000`. -/
def DrawChar_paint (dev : SSD1306_t) (bank : List Nat) (off : Nat) (font : SSD1306_Font_t)
    (color : SSD1306_Color_t) : Option SSD1306_t :=
  forLoop (fun i (d1 : SSD1306_t) =>
    match bank[off + i]? with
    | none => none
    | some b =>
      forLoop (fun j (d2 : SSD1306_t) =>
        if ((b % 65536) <<< j) &&& 0x8000 ≠ 0 then
          SSD1306_DrawPixel d2 ((d2.cur_x + j) % 256) ((d2.cur_y + i) % 256) color
        else
          SSD1306_DrawPixel d2 ((d2.cur_x + j) % 256) ((d2.cur_y + i) % 256) color.not)
        font.char_width 0 d1) font.char_height 0 dev

/-- The function `SSD1306_DrawChar`; the result is the new handle and the
returned `char`. -/
def SSD1306_DrawChar (START : Nat) (dev : SSD1306_t) (ch : Nat) (font : SSD1306_Font_t)
    (color : SSD1306_Color_t) : Option (SSD1306_t × Nat) :=
  if dev.width < dev.cur_x + font.char_width ∨ dev.height < dev.cur_y + font.char_height then
    some (dev, 0)
  else
    match char_start START ch font with
    | none => some (dev, 0)
    | some (bank, off) =>
      match DrawChar_paint dev bank off font color with
      | none => none
      | some d => some ({ d with cur_x := (d.cur_x + font.char_width) % 256 }, ch)

/-- The function `SSD1306_DrawString`.  The list holds the characters at
`str`, `str + 1`, ...; the end of the list stands for the terminating NUL. -/
def SSD1306_DrawString (START : Nat) (font : SSD1306_Font_t) (color : SSD1306_Color_t) :
    SSD1306_t → List Nat → Option (SSD1306_t × Nat)
  | dev, [] => some (dev, 0)
  | dev, c :: str =>
    if c = 0 then
      some (dev, 0)
    else
      match SSD1306_DrawChar START dev c font color with
      | none => none
      | some (d, r) =>
        if r ≠ c then some (d, c) else SSD1306_DrawString START font color d str

/-- The function `SSD1306_DrawBitmap`.  The loop state carries the local
`uint8_t byte` next to the handle. -/
def SSD1306_DrawBitmap (dev : SSD1306_t) (bitmap : SSD1306_Bitmap_t) (color : SSD1306_Color_t) :
    Option SSD1306_t :=
  if dev.width < dev.cur_x + bitmap.width ∨ dev.height < dev.cur_y + bitmap.height then
    some dev
  else
    let bytes_per_row := ((bitmap.width + 7) / 8) % 256
    match forLoop (fun j (s1 : SSD1306_t × Nat) =>
        forLoop (fun i (s2 : SSD1306_t × Nat) =>
          match (if i &&& 7 ≠ 0 then some ((s2.2 <<< 1) % 256)
                 else (bitmap.data[j * bytes_per_row + i / 8]?).map (fun v => v % 256)) with
          | none => none
          | some byte =>
            match SSD1306_DrawPixel s2.1 ((s2.1.cur_x + i) % 256) ((s2.1.cur_y + j) % 256)
                (if byte &&& 0x80 ≠ 0 then color else color.not) with
            | none => none
            | some d => some (d, byte)) bitmap.width 0 s1) bitmap.height 0 (dev, 0) with
    | none => none
    | some (d, _) => some { d with cur_x := (d.cur_x + bitmap.width) % 256 }

/-- The function `SSD1306_SetCursor`. -/
def SSD1306_SetCursor (dev : SSD1306_t) (x y : Nat) : SSD1306_t :=
  { dev with cur_x := x, cur_y := y }

/-! ## Rasterizer (`SSD1306.c`, lines 271-351) -/

/-- Conversion of an `int` to `uint8_t`. -/
def toUint8 (v : Int) : Nat := (v % 256).toNat

/-- Conversion of an `int` to `int16_t` (two's complement wrap). -/
def toInt16 (v : Int) : Int := (v + 32768) % 65536 - 32768

/-- The `while` loop of `SSD1306_DrawLine`.  `fuel` bounds the number of
times the loop condition may be found true; `none` is returned when it is
used up (or when a pixel write leaves the buffer). -/
def SSD1306_DrawLine_loop (x2 y2 delta_x delta_y : Nat) (sign_x sign_y : Int)
    (color : SSD1306_Color_t) : Nat → SSD1306_t → Nat → Nat → Int → Option SSD1306_t
  | 0, dev, x1, y1, _ => if x1 ≠ x2 ∨ y1 ≠ y2 then none else some dev
  | fuel + 1, dev, x1, y1, error_1 =>
    if x1 ≠ x2 ∨ y1 ≠ y2 then
      match SSD1306_DrawPixel dev x1 y1 color with
      | none => none
      | some d =>
        let error_2 := toInt16 (error_1 * 2)
        let error_1a := if error_2 > -(delta_y : Int) then toInt16 (error_1 - delta_y) else error_1
        let x1a := if error_2 > -(delta_y : Int) then toUint8 (x1 + sign_x) else x1
        let error_1b := if error_2 < (delta_x : Int) then toInt16 (error_1a + delta_x) else error_1a
        let y1a := if error_2 < (delta_x : Int) then toUint8 (y1 + sign_y) else y1
        SSD1306_DrawLine_loop x2 y2 delta_x delta_y sign_x sign_y color fuel d x1a y1a error_1b
    else
      some dev

/-- The function `SSD1306_DrawLine`, with the fuel of its loop. -/
def SSD1306_DrawLine (fuel : Nat) (dev : SSD1306_t) (x1 y1 x2 y2 : Nat)
    (color : SSD1306_Color_t) : Option SSD1306_t :=
  let delta_x := toUint8 (Int.natAbs ((x2 : Int) - x1))
  let delta_y := toUint8 (Int.natAbs ((y2 : Int) - y1))
  let sign_x : Int := if x1 < x2 then 1 else -1
  let sign_y : Int := if y1 < y2 then 1 else -1
  let error_1 := toInt16 ((delta_x : Int) - delta_y)
  match SSD1306_DrawPixel dev x2 y2 color with
  | none => none
  | some d => SSD1306_DrawLine_loop x2 y2 delta_x delta_y sign_x sign_y color fuel d x1 y1 error_1

/-- The function `SSD1306_DrawPolyline`; `par_vertex = none` is the null
pointer.  `for (uint16_t i = 1; i < par_size; i++)` reads `par_vertex[i - 1]`
and `par_vertex[i]`. -/
def SSD1306_DrawPolyline (fuel : Nat) (dev : SSD1306_t) (par_vertex : Option (List SSD1306_Vertex_t))
    (par_size : Nat) (color : SSD1306_Color_t) : Option SSD1306_t :=
  match par_vertex with
  | none => some dev
  | some vs =>
    forLoop (fun i (d : SSD1306_t) =>
      match vs[i - 1]?, vs[i]? with
      | some a, some b => SSD1306_DrawLine fuel d a.x a.y b.x b.y color
      | _, _ => none) (par_size - 1) 1 dev

/-- The `do ... while (delta_x <= 0)` loop of `SSD1306_DrawCircle`; `fuel`
bounds the number of times the body runs.  The coordinates are `int`
expressions converted to the `uint8_t` parameters of `SSD1306_DrawPixel`. -/
def SSD1306_DrawCircle_loop (x y : Nat) (color : SSD1306_Color_t) :
    Nat → SSD1306_t → Int → Int → Int → Option SSD1306_t
  | 0, _, _, _, _ => none
  | fuel + 1, dev, delta_x, delta_y, error_1 =>
    match SSD1306_DrawPixel dev (toUint8 (x - delta_x)) (toUint8 (y + delta_y)) color with
    | none => none
    | some d1 =>
    match SSD1306_DrawPixel d1 (toUint8 (x + delta_x)) (toUint8 (y + delta_y)) color with
    | none => none
    | some d2 =>
    match SSD1306_DrawPixel d2 (toUint8 (x + delta_x)) (toUint8 (y - delta_y)) color with
    | none => none
    | some d3 =>
    match SSD1306_DrawPixel d3 (toUint8 (x - delta_x)) (toUint8 (y - delta_y)) color with
    | none => none
    | some d4 =>
      let error_2 := error_1
      let delta_y1 := if error_2 ≤ delta_y then toInt16 (delta_y + 1) else delta_y
      let error_1a := if error_2 ≤ delta_y then toInt16 (error_1 + (delta_y1 * 2 + 1)) else error_1
      let error_2a :=
        if error_2 ≤ delta_y then
          (if -delta_x = delta_y1 ∧ error_2 ≤ delta_x then 0 else error_2)
        else error_2
      let delta_x1 := if error_2a > delta_x then toInt16 (delta_x + 1) else delta_x
      let error_1b := if error_2a > delta_x then toInt16 (error_1a + (delta_x1 * 2 + 1)) else error_1a
      if delta_x1 ≤ 0 then
        SSD1306_DrawCircle_loop x y color fuel d4 delta_x1 delta_y1 error_1b
      else
        some d4

/-- The function `SSD1306_DrawCircle`, with the fuel of its loop. -/
def SSD1306_DrawCircle (fuel : Nat) (dev : SSD1306_t) (x y radius : Nat)
    (color : SSD1306_Color_t) : Option SSD1306_t :=
  if x ≥ dev.width ∨ y ≥ dev.height then
    some dev
  else
    SSD1306_DrawCircle_loop x y color fuel dev (toInt16 (-(radius : Int))) 0
      (toInt16 (2 - 2 * (radius : Int)))

/-- The function `SSD1306_DrawRectangle`: four `SSD1306_DrawLine` calls. -/
def SSD1306_DrawRectangle (fuel : Nat) (dev : SSD1306_t) (x1 y1 x2 y2 : Nat)
    (color : SSD1306_Color_t) : Option SSD1306_t :=
  match SSD1306_DrawLine fuel dev x1 y1 x2 y1 color with
  | none => none
  | some d1 =>
  match SSD1306_DrawLine fuel d1 x2 y1 x2 y2 color with
  | none => none
  | some d2 =>
  match SSD1306_DrawLine fuel d2 x2 y2 x1 y2 color with
  | none => none
  | some d3 => SSD1306_DrawLine fuel d3 x1 y2 x1 y1 color

/-! ## Device bring-up (`SSD1306.c`, lines 3-119) -/

/-- The function `SSD1306_SetContrast`, as the transport calls it makes. -/
def SSD1306_SetContrast (value : Nat) : List Transport :=
  [Transport.command 0x81, Transport.command value]

/-- The function `SSD1306_SetDisplayOn`, as the transport calls it makes. -/
def SSD1306_SetDisplayOn (on_ : Nat) : List Transport :=
  if on_ ≠ 0 then [Transport.command 0xAF] else [Transport.command 0xAE]

/-- Lines 4-16 of `SSD1306_Initialize`: the fields assigned from the
arguments and the buffer block.  The block returned by `malloc` has
`buffer_size` bytes; its contents are overwritten by `SSD1306_Fill` before
they are read.  `cur_x`, `cur_y`, `is_dirty` and `is_initialized` are
assigned further down, before they are read. -/
def SSD1306_Initialize_fields (address width height offset_x should_mirrror_vertical
    should_mirrror_horizontal should_inverse_color : Nat) : SSD1306_t :=
  { address := (address * 2) % 65536
    width := width
    height := height
    offset_x := offset_x
    should_mirrror_vertical := should_mirrror_vertical
    should_mirrror_horizontal := should_mirrror_horizontal
    should_inverse_color := should_inverse_color
    cur_x := 0
    cur_y := 0
    buffer_size := (width * height / 8) % 65536
    buffer := List.replicate ((width * height / 8) % 65536) 0
    is_dirty := 0
    is_initialized := 0 }

/-- Lines 19-93 of `SSD1306_Initialize`: the bring-up commands. -/
def SSD1306_Initialize_script (height should_mirrror_vertical should_mirrror_horizontal
    should_inverse_color : Nat) : List Transport :=
  SSD1306_SetDisplayOn 0 ++
  [Transport.command 0x20, Transport.command 0x00, Transport.command 0xB0] ++
  [Transport.command (if should_mirrror_vertical ≠ 0 then 0xC0 else 0xC8)] ++
  [Transport.command 0x00, Transport.command 0x10, Transport.command 0x40] ++
  SSD1306_SetContrast 0xFF ++
  [Transport.command (if should_mirrror_horizontal ≠ 0 then 0xA0 else 0xA1)] ++
  [Transport.command (if should_inverse_color ≠ 0 then 0xA7 else 0xA6)] ++
  [Transport.command (if height = 128 then 0xFF else 0xA8)] ++
  [Transport.command (if height = 32 then 0x1F else if height = 64 then 0x3F else 0x3F)] ++
  [Transport.command 0xA4, Transport.command 0xD3, Transport.command 0x00,
   Transport.command 0xD5, Transport.command 0xF0, Transport.command 0xD9,
   Transport.command 0x22, Transport.command 0xDA] ++
  [Transport.command (if height = 32 then 0x02 else if height = 64 then 0x12 else 0x12)] ++
  [Transport.command 0xDB, Transport.command 0x20, Transport.command 0x8D,
   Transport.command 0x14] ++
  SSD1306_SetDisplayOn 1

/-- The function `SSD1306_Initialize`, with the transport calls it makes:
the field assignments, the bring-up commands, `SSD1306_Fill (BLACK)`,
`SSD1306_UpdateScreen`, and the last three assignments.  Every field of the
handle is assigned, so the result does not depend on the handle passed
in. -/
def SSD1306_Initialize (address width height offset_x should_mirrror_vertical
    should_mirrror_horizontal should_inverse_color : Nat) :
    Option (SSD1306_t × List Transport) :=
  match SSD1306_Fill (SSD1306_Initialize_fields address width height offset_x
      should_mirrror_vertical should_mirrror_horizontal should_inverse_color)
      SSD1306_COLOR_BLACK with
  | none => none
  | some d1 =>
    match SSD1306_UpdateScreen d1 with
    | none => none
    | some (d2, trace) =>
      some ({ d2 with cur_x := 0, cur_y := 0, is_initialized := 1 },
        SSD1306_Initialize_script height should_mirrror_vertical should_mirrror_horizontal
          should_inverse_color ++ trace)

/-- The data bytes of a transport trace, in the order sent. -/
def payload : List Transport → List Nat
  | [] => []
  | Transport.command _ :: rest => payload rest
  | Transport.data bytes :: rest => bytes ++ payload rest

/-! ## The public operations as a transition system -/

/-- A call of one of the public drawing operations, with its arguments.  The
`fuel` of the rasterizer calls bounds their loops. -/
inductive Op where
  | DrawPixel (x y : Nat) (color : SSD1306_Color_t)
  | Fill (color : SSD1306_Color_t)
  | FillBuffer (buf : List Nat) (len : Nat)
  | DrawChar (START : Nat) (ch : Nat) (font : SSD1306_Font_t) (color : SSD1306_Color_t)
  | DrawString (START : Nat) (str : List Nat) (font : SSD1306_Font_t) (color : SSD1306_Color_t)
  | DrawBitmap (bitmap : SSD1306_Bitmap_t) (color : SSD1306_Color_t)
  | SetCursor (x y : Nat)
  | DrawLine (fuel : Nat) (x1 y1 x2 y2 : Nat) (color : SSD1306_Color_t)
  | DrawPolyline (fuel : Nat) (par_vertex : Option (List SSD1306_Vertex_t)) (par_size : Nat)
      (color : SSD1306_Color_t)
  | DrawCircle (fuel : Nat) (x y radius : Nat) (color : SSD1306_Color_t)
  | DrawRectangle (fuel : Nat) (x1 y1 x2 y2 : Nat) (color : SSD1306_Color_t)
  | UpdateScreen

/-- The operations other than `SSD1306_UpdateScreen`: they make no transport
call and return the new handle. -/
def Op.draw (dev : SSD1306_t) : Op → Option SSD1306_t
  | Op.DrawPixel x y color => SSD1306_DrawPixel dev x y color
  | Op.Fill color => SSD1306_Fill dev color
  | Op.FillBuffer buf len => SSD1306_FillBuffer dev buf len
  | Op.DrawChar START ch font color => (SSD1306_DrawChar START dev ch font color).map Prod.fst
  | Op.DrawString START str font color =>
    (SSD1306_DrawString START font color dev str).map Prod.fst
  | Op.DrawBitmap bitmap color => SSD1306_DrawBitmap dev bitmap color
  | Op.SetCursor x y => some (SSD1306_SetCursor dev x y)
  | Op.DrawLine fuel x1 y1 x2 y2 color => SSD1306_DrawLine fuel dev x1 y1 x2 y2 color
  | Op.DrawPolyline fuel par_vertex par_size color =>
    SSD1306_DrawPolyline fuel dev par_vertex par_size color
  | Op.DrawCircle fuel x y radius color => SSD1306_DrawCircle fuel dev x y radius color
  | Op.DrawRectangle fuel x1 y1 x2 y2 color => SSD1306_DrawRectangle fuel dev x1 y1 x2 y2 color
  | Op.UpdateScreen => (SSD1306_UpdateScreen dev).map Prod.fst

/-- The driver together with the device it talks to: the handle and `shown`,
the data bytes most recently transmitted by `SSD1306_UpdateScreen`. -/
structure System where
  dev : SSD1306_t
  shown : List Nat
deriving DecidableEq, Repr

/-- One public operation on the system.  `SSD1306_UpdateScreen` on a dirty
handle transmits, and what it sends replaces `shown`; no other operation
calls the transport. -/
def System.step (s : System) : Op → Option System
  | Op.UpdateScreen =>
    match SSD1306_UpdateScreen s.dev with
    | none => none
    | some (d, trace) =>
      some { dev := d, shown := if s.dev.is_dirty = 0 then s.shown else payload trace }
  | op =>
    match op.draw s.dev with
    | none => none
    | some d => some { dev := d, shown := s.shown }

/-- A sequence of public operations, run in order. -/
def System.run : System → List Op → Option System
  | s, [] => some s
  | s, op :: ops =>
    match s.step op with
    | none => none
    | some s1 => s1.run ops

/-- The system right after `SSD1306_Initialize`: the new handle and what the
flush at the end of the bring-up has sent. -/
def System.init (address width height offset_x should_mirrror_vertical
    should_mirrror_horizontal should_inverse_color : Nat) : Option System :=
  match SSD1306_Initialize address width height offset_x should_mirrror_vertical
      should_mirrror_horizontal should_inverse_color with
  | none => none
  | some (d, trace) => some { dev := d, shown := payload trace }

/-- The byte that `SSD1306_DrawPixel` stores, as a function of the old byte. -/
def pixelByte (b y : Nat) (color : SSD1306_Color_t) : Nat :=
  if color = SSD1306_COLOR_WHITE then (b ||| (1 <<< (y % 8))) % 256
  else b &&& (0xFF ^^^ (1 <<< (y % 8)))

/-- The page sequence of a flush as the specification words it: for
`i = 0 .. height / 8 - 1` in increasing order the transport calls
`command (0xB0 + i)`, `command 0x00`, `command 0x10` and
`data (buffer[i * width .. i * width + width))`. -/
def pageSequence (dev : SSD1306_t) : List Transport :=
  (List.range (dev.height / 8)).flatMap (fun i =>
    [Transport.command (0xB0 + i), Transport.command 0x00, Transport.command 0x10,
     Transport.data ((dev.buffer.drop (i * dev.width)).take dev.width)])

/-- A small handle used to instantiate the theorems: 4 x 16 pixels, two
pages, cursor at the origin. -/
def sampleDev : SSD1306_t :=
  { address := 120, width := 4, height := 16, offset_x := 0, should_mirrror_vertical := 0,
    should_mirrror_horizontal := 0, should_inverse_color := 0, cur_x := 0, cur_y := 0,
    buffer_size := 8, buffer := [1, 2, 3, 4, 5, 6, 7, 8], is_dirty := 1, is_initialized := 1 }

/-- A small font used to instantiate the theorems: 3 x 2 glyphs, a fixed
bank that holds the glyphs of the codes 32 and 33 (rows `000`, `000` and
`101`, `010`), one special glyph registered. -/
def sampleFont : SSD1306_Font_t :=
  { char_width := 3, char_height := 2,
    data := [0, 0, 0xA000, 0x4000],
    s_data := [0xE000, 0x2000], s_data_amount := 1 }

/-- The glyph lookup as the specification words it: a code is found when it
is in `32 .. 126`, or when it is below the special-start offset and within
the current special-bank size. -/
def specLookupFound (START : Nat) (font : SSD1306_Font_t) (c : Nat) : Bool :=
  (decide (32 ≤ c) && decide (c ≤ 126)) || (decide (c < START) && decide (c < font.s_data_amount))

/-- The frame of an operation that only writes the buffer: the geometry and
the buffer length are kept, and the handle is marked dirty unless buffer and
flag are both as before. -/
structure Mutates (d d1 : SSD1306_t) : Prop where
  width : d1.width = d.width
  height : d1.height = d.height
  buffer_size : d1.buffer_size = d.buffer_size
  length : d1.buffer.length = d.buffer.length
  dirty : d1.is_dirty = 1 ∨ (d1.buffer = d.buffer ∧ d1.is_dirty = d.is_dirty)

/-- The frame of the pixel loops: `Mutates`, and the cursor is kept. -/
structure Paints (d d1 : SSD1306_t) : Prop where
  mutates : Mutates d d1
  cur_x : d1.cur_x = d.cur_x
  cur_y : d1.cur_y = d.cur_y

/-- The colour `SSD1306_DrawChar` paints in column `j` of a glyph row `b`:
the requested colour where bit `15 - j` of the row is set, its inverse
elsewhere. -/
def glyphColor (b j : Nat) (color : SSD1306_Color_t) : SSD1306_Color_t :=
  if b.testBit (15 - j) then color else color.not

/-- The system right after `SSD1306_Initialize (0x3C, 4, 16, 0, 0, 0, 0)`. -/
def sampleInit : System :=
  { dev := { sampleDev with buffer := [0, 0, 0, 0, 0, 0, 0, 0], is_dirty := 0 },
    shown := [0, 0, 0, 0, 0, 0, 0, 0] }

/-- The system `sampleInit` after a pixel write, a fill, a flush and a cursor
move. -/
def sampleFinal : System :=
  { dev := { sampleDev with buffer := [255, 255, 255, 255, 255, 255, 255, 255], is_dirty := 0,
                            cur_x := 1, cur_y := 1 },
    shown := [255, 255, 255, 255, 255, 255, 255, 255] }

/-! ## Special glyphs (`SSD1306.c`, lines 355-370) -/

/-- The function `SSD1606Font_AddSpecialChar`; the result is the new font
and the returned `uint8_t`.  The parameters `START` and `MAX` are the
constants `SSD1606_FONT_START_SPECIAL_CHARS` and
`SSD1606_FONT_MAX_SPECIAL_CHARS`, whose definitions are not part of the
sources at hand, as is the declaration of `s_data_amount`: the count is an
unbounded number here.  `s_char` is the caller's array of rows; the loop
reads `s_char[i]` and writes `s_data[offset + i]` with the `uint16_t`
`offset = s_data_amount * char_height`. -/
def SSD1606Font_AddSpecialChar (START MAX : Nat) (font : SSD1306_Font_t) (s_char : List Nat) :
    Option (SSD1306_Font_t × Nat) :=
  if font.s_data_amount ≥ MAX then
    some (font, 0)
  else
    match forLoop (fun i (s_data : List Nat) =>
        match s_char[i]? with
        | none => none
        | some row =>
          if (font.s_data_amount * font.char_height) % 65536 + i < s_data.length then
            some (s_data.set ((font.s_data_amount * font.char_height) % 65536 + i) row)
          else
            none) font.char_height 0 font.s_data with
    | none => none
    | some s_data =>
      some ({ font with s_data := s_data, s_data_amount := font.s_data_amount + 1 },
        (font.s_data_amount + 1 - 1 + START) % 256)

/-- A sequence of `SSD1606Font_AddSpecialChar` calls on the same font, one
per glyph of the list; the result is the final font and the codes returned,
in order. -/
def AddSpecialChar_each (START MAX : Nat) :
    SSD1306_Font_t → List (List Nat) → Option (SSD1306_Font_t × List Nat)
  | font, [] => some (font, [])
  | font, s_char :: rest =>
    match SSD1606Font_AddSpecialChar START MAX font s_char with
    | none => none
    | some (font1, code) =>
      match AddSpecialChar_each START MAX font1 rest with
      | none => none
      | some (font2, codes) => some (font2, code :: codes)

/-- A font like `sampleFont` whose special bank has room for three glyphs,
one of them registered. -/
def sampleBank : SSD1306_Font_t :=
  { char_width := 3, char_height := 2, data := [0, 0, 0xA000, 0x4000],
    s_data := [0xE000, 0x2000, 0, 0, 0, 0], s_data_amount := 1 }

/-- Successive `SSD1306_DrawChar` calls, one per character of the list, each
on the handle the call before it returned; the returned characters are
dropped. -/
def DrawChar_each (START : Nat) (font : SSD1306_Font_t) (color : SSD1306_Color_t) :
    SSD1306_t → List Nat → Option SSD1306_t
  | dev, [] => some dev
  | dev, c :: cs =>
    match SSD1306_DrawChar START dev c font color with
    | none => none
    | some (d, _) => DrawChar_each START font color d cs

/-- A 6 x 8 font used to instantiate the theorems: the fixed bank holds 95
glyphs of 8 rows, every row `100001`. -/
def sampleFont6x8 : SSD1306_Font_t :=
  { char_width := 6, char_height := 8, data := List.replicate 760 0x8400,
    s_data := [], s_data_amount := 0 }

/-- A 12 x 8 handle with an all-zero buffer and the cursor at the origin. -/
def sampleDev12x8 : SSD1306_t :=
  { address := 120, width := 12, height := 8, offset_x := 0, should_mirrror_vertical := 0,
    should_mirrror_horizontal := 0, should_inverse_color := 0, cur_x := 0, cur_y := 0,
    buffer_size := 12, buffer := [0, 0, 0, 0, 0, 0, 0, 0, 0, 0, 0, 0], is_dirty := 0,
    is_initialized := 1 }

/-- Calls of `SSD1306_DrawPixel` in one colour at the coordinates of a list,
in order, each on the handle the call before it returned. -/
def plotAll (color : SSD1306_Color_t) : SSD1306_t → List (Nat × Nat) → Option SSD1306_t
  | dev, [] => some dev
  | dev, p :: ps =>
    match SSD1306_DrawPixel dev p.1 p.2 color with
    | none => none
    | some d => plotAll color d ps

/-- The locals `delta_x`, `delta_y` of `SSD1306_DrawLine`: `abs (q - p)`
stored as `uint8_t`. -/
def DrawLine_delta (p q : Nat) : Nat := toUint8 (Int.natAbs ((q : Int) - p))

/-- The locals `sign_x`, `sign_y` of `SSD1306_DrawLine`: `(p < q) ? 1 : -1`. -/
def DrawLine_sign (p q : Nat) : Int := if p < q then 1 else -1

/-- One pass through the body of the `while` loop of `SSD1306_DrawLine`
after the pixel write: the new values of `x1`, `y1` and `error_1`. -/
def DrawLine_next (delta_x delta_y : Nat) (sign_x sign_y : Int) (x1 y1 : Nat) (error_1 : Int) :
    Nat × Nat × Int :=
  let error_2 := toInt16 (error_1 * 2)
  let error_1a := if error_2 > -(delta_y : Int) then toInt16 (error_1 - delta_y) else error_1
  let x1a := if error_2 > -(delta_y : Int) then toUint8 (x1 + sign_x) else x1
  let error_1b := if error_2 < (delta_x : Int) then toInt16 (error_1a + delta_x) else error_1a
  let y1a := if error_2 < (delta_x : Int) then toUint8 (y1 + sign_y) else y1
  (x1a, y1a, error_1b)

/-- The `while` loop of `SSD1306_DrawLine` without the handle: the values
`(x1, y1, error_1)` with which the loop body runs, one per iteration, in
order.  `none` when the fuel is used up. -/
def DrawLine_states (x2 y2 delta_x delta_y : Nat) (sign_x sign_y : Int) :
    Nat → Nat → Nat → Int → Option (List (Nat × Nat × Int))
  | 0, x1, y1, _ => if x1 ≠ x2 ∨ y1 ≠ y2 then none else some []
  | fuel + 1, x1, y1, error_1 =>
    if x1 ≠ x2 ∨ y1 ≠ y2 then
      match DrawLine_states x2 y2 delta_x delta_y sign_x sign_y fuel
          (DrawLine_next delta_x delta_y sign_x sign_y x1 y1 error_1).1
          (DrawLine_next delta_x delta_y sign_x sign_y x1 y1 error_1).2.1
          (DrawLine_next delta_x delta_y sign_x sign_y x1 y1 error_1).2.2 with
      | none => none
      | some states => some ((x1, y1, error_1) :: states)
    else
      some []

/-- The coordinates at which `SSD1306_DrawLine` calls `SSD1306_DrawPixel`,
in order: the end point `(x2, y2)` first, then the point of every loop
iteration. -/
def DrawLine_points (fuel x1 y1 x2 y2 : Nat) : Option (List (Nat × Nat)) :=
  match DrawLine_states x2 y2 (DrawLine_delta x1 x2) (DrawLine_delta y1 y2)
      (DrawLine_sign x1 x2) (DrawLine_sign y1 y2) fuel x1 y1
      (toInt16 ((DrawLine_delta x1 x2 : Int) - DrawLine_delta y1 y2)) with
  | none => none
  | some states => some ((x2, y2) :: states.map (fun s => (s.1, s.2.1)))

/-- What the arithmetic of `SSD1306_DrawLine` has reached after `k`
iterations of the loop, without any wrap of the `uint8_t` coordinates or
of the `int16_t` error term: `a <= delta_x` steps along x and
`b <= delta_y` steps along y from `(X1, Y1)`, the larger of the two being
`k`, and `error_1 = delta_x - delta_y - a * delta_y + b * delta_x` as an
integer. -/
def LineState (X1 Y1 delta_x delta_y : Nat) (sign_x sign_y : Int) (k : Nat)
    (s : Nat × Nat × Int) : Prop :=
  ∃ a b : Nat, a ≤ delta_x ∧ b ≤ delta_y ∧ max a b = k ∧
    (s.1 : Int) = X1 + sign_x * a ∧ (s.2.1 : Int) = Y1 + sign_y * b ∧
    s.2.2 = (delta_x : Int) - delta_y - a * delta_y + b * delta_x

/-- An 8 x 8 handle with an all-zero buffer and the cursor at the origin. -/
def sampleDev8x8 : SSD1306_t :=
  { address := 120, width := 8, height := 8, offset_x := 0, should_mirrror_vertical := 0,
    should_mirrror_horizontal := 0, should_inverse_color := 0, cur_x := 0, cur_y := 0,
    buffer_size := 8, buffer := [0, 0, 0, 0, 0, 0, 0, 0], is_dirty := 0, is_initialized := 1 }

/-- The update part of the body of the `do ... while` loop of
`SSD1306_DrawCircle`, after the four pixel writes: the new values of
`delta_x`, `delta_y` and `error_1`. -/
def DrawCircle_next (delta_x delta_y error_1 : Int) : Int × Int × Int :=
  let error_2 := error_1
  let delta_y1 := if error_2 ≤ delta_y then toInt16 (delta_y + 1) else delta_y
  let error_1a := if error_2 ≤ delta_y then toInt16 (error_1 + (delta_y1 * 2 + 1)) else error_1
  let error_2a :=
    if error_2 ≤ delta_y then
      (if -delta_x = delta_y1 ∧ error_2 ≤ delta_x then 0 else error_2)
    else error_2
  let delta_x1 := if error_2a > delta_x then toInt16 (delta_x + 1) else delta_x
  let error_1b := if error_2a > delta_x then toInt16 (error_1a + (delta_x1 * 2 + 1)) else error_1a
  (delta_x1, delta_y1, error_1b)

/-- The loop of `SSD1306_DrawCircle` without the handle: the values
`(delta_x, delta_y)` with which the loop body runs, one per iteration, in
order.  `none` when the fuel is used up. -/
def DrawCircle_states : Nat → Int → Int → Int → Option (List (Int × Int))
  | 0, _, _, _ => none
  | fuel + 1, delta_x, delta_y, error_1 =>
    if (DrawCircle_next delta_x delta_y error_1).1 ≤ 0 then
      match DrawCircle_states fuel (DrawCircle_next delta_x delta_y error_1).1
          (DrawCircle_next delta_x delta_y error_1).2.1
          (DrawCircle_next delta_x delta_y error_1).2.2 with
      | none => none
      | some states => some ((delta_x, delta_y) :: states)
    else
      some [(delta_x, delta_y)]

/-- The four coordinates that one iteration of the loop of
`SSD1306_DrawCircle` passes to `SSD1306_DrawPixel`, in order: the `int`
expressions converted to the `uint8_t` parameters. -/
def DrawCircle_four (x y : Nat) (s : Int × Int) : List (Nat × Nat) :=
  [(toUint8 (x - s.1), toUint8 (y + s.2)), (toUint8 (x + s.1), toUint8 (y + s.2)),
   (toUint8 (x + s.1), toUint8 (y - s.2)), (toUint8 (x - s.1), toUint8 (y - s.2))]

/-- The four points of one iteration as the integers they are computed as,
before the conversion to `uint8_t`. -/
def DrawCircle_four_int (x y : Nat) (s : Int × Int) : List (Int × Int) :=
  [((x : Int) - s.1, (y : Int) + s.2), ((x : Int) + s.1, (y : Int) + s.2),
   ((x : Int) + s.1, (y : Int) - s.2), ((x : Int) - s.1, (y : Int) - s.2)]

/-- A pixel given by integer coordinates is on: the coordinates are inside
the buffer and the pixel reads WHITE. -/
def pixelOn (dev : SSD1306_t) (X Y : Int) : Prop :=
  0 ≤ X ∧ X < dev.width ∧ 0 ≤ Y ∧ Y < dev.height ∧
    pixelAt dev X.toNat Y.toNat = some SSD1306_COLOR_WHITE

/-- The loop invariant of `SSD1306_DrawCircle` for radius `R`: the offsets stay
in the first quadrant box, `error_1` is the value of
`(delta_x + 1)² + (delta_y + 1)² - R²`, and `error_1` stays within a few
multiples of the offsets. -/
def CircleInv (R delta_x delta_y error_1 : Int) : Prop :=
  -R ≤ delta_x ∧ delta_x ≤ 1 ∧ 0 ≤ delta_y ∧ delta_y ≤ R ∧
    error_1 = (delta_x + 1) * (delta_x + 1) + (delta_y + 1) * (delta_y + 1) - R * R ∧
    3 * delta_x + 1 ≤ error_1 ∧ (delta_x ≤ -1 → error_1 ≤ 3 * delta_y + 3) ∧
    (delta_x = 0 → error_1 ≤ 3 * delta_y + 4) ∧ error_1 ≤ 3 * delta_y + 7

/-- A 128 x 64 display with every pixel off, the panel the driver is written
for. -/
def sampleDev128x64 : SSD1306_t :=
  { address := 120, width := 128, height := 64, offset_x := 0, should_mirrror_vertical := 0,
    should_mirrror_horizontal := 0, should_inverse_color := 0, cur_x := 0, cur_y := 0,
    buffer_size := 1024, buffer := List.replicate 1024 0, is_dirty := 0, is_initialized := 1 }

/-- A 24 x 24 display with every pixel off. -/
def sampleDev24x24 : SSD1306_t :=
  { address := 120, width := 24, height := 24, offset_x := 0, should_mirrror_vertical := 0,
    should_mirrror_horizontal := 0, should_inverse_color := 0, cur_x := 0, cur_y := 0,
    buffer_size := 72, buffer := List.replicate 72 0, is_dirty := 0, is_initialized := 1 }

/-- The colour a bitmap asks for at row `r`, column `c`, by direct bit
extraction: the requested colour where bit `7 - c % 8` of byte
`r * bytes_per_row + c / 8` of the data is set, its inverse elsewhere
(a byte outside the data counts as 0). -/
def bitmapColor (data : List Nat) (bytes_per_row r c : Nat) (color : SSD1306_Color_t) :
    SSD1306_Color_t :=
  if ((data[r * bytes_per_row + c / 8]?).getD 0).testBit (7 - c % 8) then color else color.not

/-- A 10 x 2 bitmap, two bytes per row: rows `1010010110` and `0000111101`. -/
def sampleBitmap : SSD1306_Bitmap_t :=
  { width := 10, height := 2, data := [0xA5, 0x80, 0x0F, 0x40] }

/-- What the caller of a public operation owes besides the handle: the
arrays passed in hold the elements the operation reads, the arguments are in
the range of their `uint8_t` parameters, and the fuel covers the loop of the
rasterizer.  Nothing here concerns the frame buffer. -/
def Op.callerOk : Op → Prop
  | Op.DrawPixel _ _ _ => True
  | Op.Fill _ => True
  | Op.FillBuffer buf len => len ≤ buf.length
  | Op.DrawChar START ch font _ =>
    ∀ bank off, char_start START ch font = some (bank, off) →
      off + font.char_height ≤ bank.length
  | Op.DrawString START str font _ =>
    ∀ c ∈ str, ∀ bank off, char_start START c font = some (bank, off) →
      off + font.char_height ≤ bank.length
  | Op.DrawBitmap bitmap _ =>
    bitmap.width < 256 ∧ bitmap.height * ((bitmap.width + 7) / 8) ≤ bitmap.data.length
  | Op.SetCursor _ _ => True
  | Op.DrawLine fuel x1 y1 x2 y2 _ =>
    x1 < 256 ∧ y1 < 256 ∧ x2 < 256 ∧ y2 < 256 ∧ 255 ≤ fuel
  | Op.DrawPolyline fuel par_vertex par_size _ =>
    ∀ vs, par_vertex = some vs →
      par_size ≤ vs.length ∧ (∀ v ∈ vs, v.x < 256 ∧ v.y < 256) ∧ 255 ≤ fuel
  | Op.DrawCircle fuel _ _ radius _ => radius < 256 ∧ 2 * radius + 1 ≤ fuel
  | Op.DrawRectangle fuel x1 y1 x2 y2 _ =>
    x1 < 256 ∧ y1 < 256 ∧ x2 < 256 ∧ y2 < 256 ∧ 255 ≤ fuel
  | Op.UpdateScreen => True

/-! ## Bit-level lemmas -/

theorem setBit_testBit (b k j : Nat) (hj : j < 8) :
    ((b ||| (1 <<< k)) % 256).testBit j = (decide (j = k) || b.testBit j) := by
  have h256 : (256 : Nat) = 2 ^ 8 := by norm_num
  rw [h256, Nat.testBit_mod_two_pow, Nat.testBit_or, Nat.one_shiftLeft, Nat.testBit_two_pow]
  simp [hj, Bool.or_comm, eq_comm]

theorem clearBit_testBit (b k j : Nat) (hj : j < 8) :
    (b &&& (0xFF ^^^ (1 <<< k))).testBit j = (!decide (j = k) && b.testBit j) := by
  have h255 : (0xFF : Nat) = 2 ^ 8 - 1 := by norm_num
  rw [Nat.testBit_and, Nat.testBit_xor, h255, Nat.testBit_two_pow_sub_one, Nat.one_shiftLeft,
    Nat.testBit_two_pow]
  simp [hj, Bool.and_comm, eq_comm]

theorem pixelByte_testBit (b y j : Nat) (color : SSD1306_Color_t) (hj : j < 8) :
    (pixelByte b y color).testBit j =
      if j = y % 8 then decide (color = SSD1306_COLOR_WHITE) else b.testBit j := by
  unfold pixelByte
  cases color
  · rw [if_neg (by decide), clearBit_testBit b (y % 8) j hj]
    by_cases h : j = y % 8 <;> simp [h]
  · rw [if_pos rfl, setBit_testBit b (y % 8) j hj]
    by_cases h : j = y % 8 <;> simp [h]

/-- With `height` a multiple of 8, the byte index of an in-bounds pixel lies
below `width * height / 8`. -/
theorem index_lt (w h x y : Nat) (hh : h % 8 = 0) (hx : x < w) (hy : y < h) :
    x + (y / 8) * w < w * h / 8 := by
  obtain ⟨m, rfl⟩ : ∃ m, h = 8 * m := ⟨h / 8, by omega⟩
  have h1 : w * (8 * m) / 8 = w * m := by
    rw [show w * (8 * m) = 8 * (w * m) by ring]
    exact Nat.mul_div_cancel_left _ (by norm_num)
  rw [h1]
  have h2 : y / 8 + 1 ≤ m := by omega
  calc x + (y / 8) * w < w + (y / 8) * w := by omega
    _ = (y / 8 + 1) * w := by ring
    _ ≤ m * w := Nat.mul_le_mul_right w h2
    _ = w * m := by ring

/-- An in-bounds `SSD1306_DrawPixel` whose byte exists stores `pixelByte`. -/
theorem DrawPixel_eq_set (dev : SSD1306_t) (x y b : Nat) (color : SSD1306_Color_t)
    (hx : x < dev.width) (hy : y < dev.height)
    (hb : dev.buffer[x + (y / 8) * dev.width]? = some b) :
    SSD1306_DrawPixel dev x y color =
      some { dev with
        buffer := dev.buffer.set (x + (y / 8) * dev.width) (pixelByte b y color),
        is_dirty := 1 } := by
  unfold SSD1306_DrawPixel
  rw [if_neg (by omega), hb]
  rfl

/-! ## Pixel writes -/

/-- Out of bounds, `SSD1306_DrawPixel` returns the handle it was given. -/
theorem DrawPixel_skip (dev : SSD1306_t) (x y : Nat) (c : SSD1306_Color_t)
    (h : x ≥ dev.width ∨ y ≥ dev.height) : SSD1306_DrawPixel dev x y c = some dev := by
  unfold SSD1306_DrawPixel
  rw [if_pos h]

/-- C1: on a handle whose height is a multiple of 8 and whose buffer has
`width * height / 8` bytes, `SSD1306_DrawPixel` at an in-bounds `(x, y)`
returns; bit `y % 8` of byte `x + (y / 8) * width` is then 1 for WHITE and 0
for BLACK, so the pixel reads back as the colour written; every other byte
and every other bit of that byte is as before; `is_dirty = 1`. -/
theorem C1_DrawPixel_in_bounds (dev : SSD1306_t) (x y : Nat) (c : SSD1306_Color_t)
    (hh : dev.height % 8 = 0) (hlen : dev.buffer.length = dev.width * dev.height / 8)
    (hx : x < dev.width) (hy : y < dev.height) :
    ∃ d b, SSD1306_DrawPixel dev x y c = some d ∧
      d.buffer[x + (y / 8) * dev.width]? = some b ∧
      b.testBit (y % 8) = decide (c = SSD1306_COLOR_WHITE) ∧
      pixelAt d x y = some c ∧
      (∀ i k, k < 8 → (i ≠ x + (y / 8) * dev.width ∨ k ≠ y % 8) →
        bufferBit d.buffer i k = bufferBit dev.buffer i k) ∧
      (∀ i, i ≠ x + (y / 8) * dev.width → d.buffer[i]? = dev.buffer[i]?) ∧
      d.buffer.length = dev.buffer.length ∧
      d.width = dev.width ∧ d.height = dev.height ∧
      d.is_dirty = 1 := by
  have hidx : x + (y / 8) * dev.width < dev.buffer.length := by
    rw [hlen]; exact index_lt _ _ _ _ hh hx hy
  have hb : dev.buffer[x + (y / 8) * dev.width]? = some (dev.buffer[x + (y / 8) * dev.width]) :=
    List.getElem?_eq_getElem hidx
  have hbit := pixelByte_testBit (dev.buffer[x + (y / 8) * dev.width]) y (y % 8) c
    (Nat.mod_lt _ (by norm_num))
  rw [if_pos rfl] at hbit
  refine ⟨_, pixelByte (dev.buffer[x + (y / 8) * dev.width]) y c,
    DrawPixel_eq_set dev x y _ c hx hy hb, ?_, hbit, ?_, ?_, ?_, ?_, rfl, rfl, rfl⟩
  · simp [List.getElem?_set, hidx]
  · simp only [pixelAt, List.getElem?_set, hidx, if_true, Option.map_some', hbit]
    cases c <;> simp
  · intro i k hk hne
    unfold bufferBit
    by_cases hi : i = x + (y / 8) * dev.width
    · subst hi
      have hk2 : k ≠ y % 8 := by
        rcases hne with h | h
        · exact absurd rfl h
        · exact h
      simp only [List.getElem?_set, hidx, if_true, hb, Option.map_some']
      rw [pixelByte_testBit _ _ _ _ hk, if_neg hk2]
    · simp [List.getElem?_set, Ne.symm hi]
  · intro i hi
    simp [List.getElem?_set, Ne.symm hi]
  · simp

/-- C1 at pixel `(1, 9)` of a 4 x 16 handle with an all-zero buffer. -/
theorem C1_DrawPixel_in_bounds_witness :
    ∃ d b, SSD1306_DrawPixel
        { address := 120, width := 4, height := 16, offset_x := 0, should_mirrror_vertical := 0,
          should_mirrror_horizontal := 0, should_inverse_color := 0, cur_x := 0, cur_y := 0,
          buffer_size := 8, buffer := [0, 0, 0, 0, 0, 0, 0, 0], is_dirty := 0,
          is_initialized := 1 } 1 9 SSD1306_COLOR_WHITE = some d ∧
      d.buffer[1 + (9 / 8) * 4]? = some b ∧
      b.testBit (9 % 8) = decide (SSD1306_COLOR_WHITE = SSD1306_COLOR_WHITE) ∧
      pixelAt d 1 9 = some SSD1306_COLOR_WHITE ∧
      (∀ i k, k < 8 → (i ≠ 1 + (9 / 8) * 4 ∨ k ≠ 9 % 8) →
        bufferBit d.buffer i k = bufferBit [0, 0, 0, 0, 0, 0, 0, 0] i k) ∧
      (∀ i, i ≠ 1 + (9 / 8) * 4 → d.buffer[i]? = [0, 0, 0, 0, 0, 0, 0, 0][i]?) ∧
      d.buffer.length = 8 ∧ d.width = 4 ∧ d.height = 16 ∧ d.is_dirty = 1 :=
  C1_DrawPixel_in_bounds
    { address := 120, width := 4, height := 16, offset_x := 0, should_mirrror_vertical := 0,
      should_mirrror_horizontal := 0, should_inverse_color := 0, cur_x := 0, cur_y := 0,
      buffer_size := 8, buffer := [0, 0, 0, 0, 0, 0, 0, 0], is_dirty := 0,
      is_initialized := 1 } 1 9 SSD1306_COLOR_WHITE (by decide) (by decide) (by decide)
    (by decide)

/-- C2: `SSD1306_DrawPixel` at a coordinate with `x >= width` or
`y >= height` returns the handle it was given: buffer, `is_dirty`, cursor
and every other field are unchanged. -/
theorem C2_DrawPixel_out_of_bounds (dev : SSD1306_t) (x y : Nat) (c : SSD1306_Color_t)
    (h : x ≥ dev.width ∨ y ≥ dev.height) :
    SSD1306_DrawPixel dev x y c = some dev ∧
    ∀ d, SSD1306_DrawPixel dev x y c = some d →
      d.buffer = dev.buffer ∧ d.is_dirty = dev.is_dirty ∧ d.cur_x = dev.cur_x ∧
        d.cur_y = dev.cur_y := by
  have hskip := DrawPixel_skip dev x y c h
  refine ⟨hskip, ?_⟩
  intro d hd
  rw [hskip] at hd
  rw [← Option.some.inj hd]
  exact ⟨rfl, rfl, rfl, rfl⟩

/-- C2 at the coordinate `(4, 9)` of a 4 x 16 handle. -/
theorem C2_DrawPixel_out_of_bounds_witness :
    SSD1306_DrawPixel
      { address := 120, width := 4, height := 16, offset_x := 0, should_mirrror_vertical := 0,
        should_mirrror_horizontal := 0, should_inverse_color := 0, cur_x := 2, cur_y := 3,
        buffer_size := 8, buffer := [1, 2, 3, 4, 5, 6, 7, 8], is_dirty := 0,
        is_initialized := 1 } 4 9 SSD1306_COLOR_WHITE =
    some
      { address := 120, width := 4, height := 16, offset_x := 0, should_mirrror_vertical := 0,
        should_mirrror_horizontal := 0, should_inverse_color := 0, cur_x := 2, cur_y := 3,
        buffer_size := 8, buffer := [1, 2, 3, 4, 5, 6, 7, 8], is_dirty := 0,
        is_initialized := 1 } :=
  (C2_DrawPixel_out_of_bounds _ 4 9 SSD1306_COLOR_WHITE (by decide)).1

/-! ## Flush protocol -/

theorem payload_append (a b : List Transport) : payload (a ++ b) = payload a ++ payload b := by
  induction a with
  | nil => rfl
  | cons e rest ih =>
    cases e with
    | command byte => simpa [payload] using ih
    | data bytes => simp [payload, ih]

/-- The page loop of `SSD1306_UpdateScreen`, started at page `i` with `count`
pages to go, appends the pages `i .. i + count - 1` to the trace. -/
theorem UpdateScreen_loop (dev : SSD1306_t) (count i : Nat) (acc : List Transport)
    (hlen : dev.width * (i + count) ≤ dev.buffer.length) (hpage : i + count ≤ 80) :
    forLoop (fun i (trace : List Transport) =>
        if dev.width * i + dev.width ≤ dev.buffer.length then
          some (trace ++ [Transport.command ((0xB0 + i) % 256), Transport.command 0x00,
            Transport.command 0x10,
            Transport.data ((dev.buffer.drop (dev.width * i)).take dev.width)])
        else
          none) count i acc =
      some (acc ++ (List.range' i count).flatMap (fun i =>
        [Transport.command (0xB0 + i), Transport.command 0x00, Transport.command 0x10,
         Transport.data ((dev.buffer.drop (i * dev.width)).take dev.width)])) := by
  induction count generalizing i acc with
  | zero => simp [forLoop]
  | succ n ih =>
    have h1 : dev.width * i + dev.width ≤ dev.buffer.length := by
      have : dev.width * i + dev.width ≤ dev.width * (i + (n + 1)) := by
        rw [show dev.width * (i + (n + 1)) = dev.width * i + dev.width + dev.width * n by ring]
        exact Nat.le_add_right _ _
      omega
    have h2 : (0xB0 + i) % 256 = 0xB0 + i := Nat.mod_eq_of_lt (by omega)
    simp only [forLoop, h1, if_true, h2]
    rw [ih (i + 1) _ (by rw [show i + 1 + n = i + (n + 1) by omega]; exact hlen) (by omega)]
    simp [List.range'_succ, Nat.mul_comm]

/-- The data bytes of the pages `0 .. m - 1` are the first `m * width` bytes
of the buffer. -/
theorem payload_pages (buffer : List Nat) (w m : Nat) :
    payload ((List.range m).flatMap (fun i =>
      [Transport.command (0xB0 + i), Transport.command 0x00, Transport.command 0x10,
       Transport.data ((buffer.drop (i * w)).take w)])) = buffer.take (m * w) := by
  induction m with
  | zero => simp [payload]
  | succ n ih =>
    rw [List.range_succ, List.flatMap_append, payload_append, ih]
    simp [payload, Nat.succ_mul, List.take_add]

/-- A flush of a clean handle returns it at once, with no transport call. -/
theorem UpdateScreen_clean (d : SSD1306_t) (hd : d.is_dirty = 0) :
    SSD1306_UpdateScreen d = some (d, []) := by
  unfold SSD1306_UpdateScreen
  rw [if_pos hd]

/-- A flush of a dirty handle whose buffer holds the `height / 8` pages sends
the page sequence and clears the flag. -/
theorem UpdateScreen_dirty (dev : SSD1306_t) (hd : dev.is_dirty ≠ 0)
    (hlen : dev.width * (dev.height / 8) ≤ dev.buffer.length) (hu8 : dev.height < 256) :
    SSD1306_UpdateScreen dev = some ({ dev with is_dirty := 0 }, pageSequence dev) := by
  unfold SSD1306_UpdateScreen
  rw [if_neg hd, UpdateScreen_loop dev (dev.height / 8) 0 [] (by simpa using hlen) (by omega)]
  simp [pageSequence, List.range_eq_range']

/-- With `height` a multiple of 8, `width * height / 8` is `height / 8` pages
of `width` bytes. -/
theorem pages_exact (w h : Nat) (hh : h % 8 = 0) : w * h / 8 = w * (h / 8) :=
  Nat.mul_div_assoc w (Nat.dvd_of_mod_eq_zero hh)

/-- On a well sized handle the data of the page sequence is the whole
buffer. -/
theorem payload_pageSequence (dev : SSD1306_t) (hh : dev.height % 8 = 0)
    (hlen : dev.buffer.length = dev.width * dev.height / 8) :
    payload (pageSequence dev) = dev.buffer := by
  unfold pageSequence
  rw [payload_pages, Nat.mul_comm, ← pages_exact _ _ hh, ← hlen, List.take_length]

/-- C3: `SSD1306_UpdateScreen` on a clean handle makes no transport call and
returns the handle itself; after any flush that returns, the handle is clean
and a second flush sends nothing and changes nothing.  A flush returns as
soon as the buffer holds the `height / 8` pages it reads. -/
theorem C3_UpdateScreen_twice (dev : SSD1306_t) :
    (dev.is_dirty = 0 → SSD1306_UpdateScreen dev = some (dev, [])) ∧
    (∀ d1 t1, SSD1306_UpdateScreen dev = some (d1, t1) →
      d1.is_dirty = 0 ∧ SSD1306_UpdateScreen d1 = some (d1, [])) ∧
    (dev.width * (dev.height / 8) ≤ dev.buffer.length → dev.height < 256 →
      ∃ d1 t1, SSD1306_UpdateScreen dev = some (d1, t1)) := by
  refine ⟨UpdateScreen_clean dev, ?_, ?_⟩
  · intro d1 t1 h
    have hd1 : d1.is_dirty = 0 := by
      unfold SSD1306_UpdateScreen at h
      split at h
      · next hd => simp only [Option.some.injEq, Prod.mk.injEq] at h; rw [← h.1]; exact hd
      · split at h
        · exact absurd h (by simp)
        · simp only [Option.some.injEq, Prod.mk.injEq] at h; rw [← h.1]
    exact ⟨hd1, UpdateScreen_clean d1 hd1⟩
  · intro hlen hh
    by_cases hd : dev.is_dirty = 0
    · exact ⟨dev, [], UpdateScreen_clean dev hd⟩
    · exact ⟨_, _, UpdateScreen_dirty dev hd hlen hh⟩

/-- C3 on `sampleDev`: the flush returns and a second one sends nothing. -/
theorem C3_UpdateScreen_twice_witness :
    ∃ d1 t1, SSD1306_UpdateScreen sampleDev = some (d1, t1) ∧
      d1.is_dirty = 0 ∧ SSD1306_UpdateScreen d1 = some (d1, []) := by
  obtain ⟨d1, t1, h⟩ := (C3_UpdateScreen_twice sampleDev).2.2 (by decide) (by decide)
  exact ⟨d1, t1, h, (C3_UpdateScreen_twice sampleDev).2.1 d1 t1 h⟩

/-- C4: on a dirty handle whose height is a multiple of 8 and whose buffer
has `width * height / 8` bytes, `SSD1306_UpdateScreen` emits exactly the
page sequence (`command (0xB0 + i)`, `command 0x00`, `command 0x10`,
`data (buffer[i * width .. i * width + width))` for `i = 0 .. height / 8 - 1`);
the data sent, concatenated, is the whole buffer; the buffer is unchanged
and `is_dirty` becomes 0.  (`height < 256` is the range of the `uint8_t`
field.) -/
theorem C4_UpdateScreen_pages (dev : SSD1306_t) (hd : dev.is_dirty ≠ 0)
    (hh : dev.height % 8 = 0) (hlen : dev.buffer.length = dev.width * dev.height / 8)
    (hu8 : dev.height < 256) :
    SSD1306_UpdateScreen dev = some ({ dev with is_dirty := 0 }, pageSequence dev) ∧
    payload (pageSequence dev) = dev.buffer := by
  have hpages : dev.width * (dev.height / 8) ≤ dev.buffer.length := by
    rw [hlen, pages_exact _ _ hh]
  exact ⟨UpdateScreen_dirty dev hd hpages hu8, payload_pageSequence dev hh hlen⟩

/-- C4 on `sampleDev`: two pages of four bytes each. -/
theorem C4_UpdateScreen_pages_witness :
    SSD1306_UpdateScreen sampleDev = some ({ sampleDev with is_dirty := 0 },
      [Transport.command 0xB0, Transport.command 0x00, Transport.command 0x10,
       Transport.data [1, 2, 3, 4],
       Transport.command 0xB1, Transport.command 0x00, Transport.command 0x10,
       Transport.data [5, 6, 7, 8]]) ∧
    payload (pageSequence sampleDev) = [1, 2, 3, 4, 5, 6, 7, 8] :=
  C4_UpdateScreen_pages sampleDev (by decide) (by decide) (by decide) (by decide)

/-! ## Bulk writes -/

/-- The loop of `SSD1306_Fill`, started at `i` with `count` bytes to go on a
buffer that holds them: bytes `i .. i + count - 1` become `v`, the others
stay, no other field changes. -/
theorem Fill_loop (v count i : Nat) (d : SSD1306_t) (hlen : i + count ≤ d.buffer.length) :
    ∃ buffer, forLoop (fun i (d : SSD1306_t) =>
        if i < d.buffer.length then some { d with buffer := d.buffer.set i v } else none)
        count i d = some { d with buffer := buffer } ∧
      buffer.length = d.buffer.length ∧
      ∀ k, buffer[k]? = if i ≤ k ∧ k < i + count then some v else d.buffer[k]? := by
  induction count generalizing i d with
  | zero =>
    refine ⟨d.buffer, rfl, rfl, ?_⟩
    intro k
    rw [if_neg (by omega)]
  | succ n ih =>
    have hi : i < d.buffer.length := by omega
    obtain ⟨buffer, h1, h2, h3⟩ := ih (i + 1) { d with buffer := d.buffer.set i v }
      (by simp only [List.length_set]; omega)
    refine ⟨buffer, ?_, ?_, ?_⟩
    · simp only [forLoop, hi, if_true]
      exact h1
    · simpa using h2
    · intro k
      rw [h3 k]
      by_cases hk : k = i
      · subst hk
        simp [hi]
      · by_cases hk2 : i + 1 ≤ k ∧ k < i + 1 + n
        · rw [if_pos hk2, if_pos (by omega)]
        · rw [if_neg hk2, if_neg (by omega)]
          simp [List.getElem?_set, Ne.symm hk]

/-- On a handle whose buffer holds its `buffer_size` bytes, `SSD1306_Fill`
returns with every byte set and the handle marked dirty. -/
theorem Fill_eq (d : SSD1306_t) (c : SSD1306_Color_t) (hd : d.buffer.length = d.buffer_size) :
    SSD1306_Fill d c = some { d with
      buffer := List.replicate d.buffer_size (if c = SSD1306_COLOR_BLACK then 0x00 else 0xFF),
      is_dirty := 1 } := by
  obtain ⟨buffer, h1, h2, h3⟩ :=
    Fill_loop (if c = SSD1306_COLOR_BLACK then 0x00 else 0xFF) d.buffer_size 0 d (by omega)
  have hb : buffer =
      List.replicate d.buffer_size (if c = SSD1306_COLOR_BLACK then 0x00 else 0xFF) := by
    apply List.ext_getElem?
    intro k
    rw [h3 k]
    by_cases hk : k < d.buffer_size
    · rw [if_pos (by omega)]
      simp [List.getElem?_replicate, hk]
    · rw [if_neg (by omega)]
      simp [List.getElem?_replicate, hk]
      omega
  unfold SSD1306_Fill
  rw [h1, hb]

/-- C7: on a handle whose buffer holds its `buffer_size` bytes,
`SSD1306_Fill` returns with every buffer byte `0x00` for BLACK and `0xFF` for
WHITE and with `is_dirty = 1`, nothing else changed; so `Fill (BLACK)`
followed by `Fill (WHITE)` gives an all-zero and then an all-`0xFF` buffer. -/
theorem C7_Fill (dev : SSD1306_t) (c : SSD1306_Color_t)
    (hlen : dev.buffer.length = dev.buffer_size) :
    SSD1306_Fill dev c = some { dev with
      buffer := List.replicate dev.buffer_size (if c = SSD1306_COLOR_BLACK then 0x00 else 0xFF),
      is_dirty := 1 } ∧
    ∃ d1 d2, SSD1306_Fill dev SSD1306_COLOR_BLACK = some d1 ∧
      d1.buffer = List.replicate dev.buffer_size 0x00 ∧ d1.is_dirty = 1 ∧
      SSD1306_Fill d1 SSD1306_COLOR_WHITE = some d2 ∧
      d2.buffer = List.replicate dev.buffer_size 0xFF ∧ d2.is_dirty = 1 := by
  refine ⟨Fill_eq dev c hlen, _, _, Fill_eq dev SSD1306_COLOR_BLACK hlen, rfl, rfl,
    Fill_eq _ SSD1306_COLOR_WHITE ?_, rfl, rfl⟩
  simp

/-- C7 on `sampleDev`, filled WHITE. -/
theorem C7_Fill_witness :
    SSD1306_Fill sampleDev SSD1306_COLOR_WHITE = some { sampleDev with
      buffer := [0xFF, 0xFF, 0xFF, 0xFF, 0xFF, 0xFF, 0xFF, 0xFF], is_dirty := 1 } :=
  (C7_Fill sampleDev SSD1306_COLOR_WHITE (by decide)).1

/-- C6: `SSD1306_FillBuffer (buf, len)`, called with an array `buf` of at
least `len` bytes on a handle whose buffer holds its `buffer_size` bytes.
When `len <= buffer_size` the first `len` buffer bytes become `buf[0 .. len)`,
the others stay and `is_dirty = 1`; for `len = buffer_size` the buffer is
`buf[0 .. len)`, which is `buf` when `buf` has exactly `len` bytes.  When
`len > buffer_size` the handle is returned as it was. -/
theorem C6_FillBuffer (dev : SSD1306_t) (buf : List Nat) (len : Nat)
    (hlen : dev.buffer.length = dev.buffer_size) (hbuf : len ≤ buf.length) :
    (len ≤ dev.buffer_size →
      ∃ d, SSD1306_FillBuffer dev buf len = some d ∧
        d.buffer.take len = buf.take len ∧
        d.buffer.drop len = dev.buffer.drop len ∧
        d.buffer.length = dev.buffer.length ∧
        d.is_dirty = 1 ∧
        (len = dev.buffer_size → d.buffer = buf.take len) ∧
        (len = dev.buffer_size → buf.length = len → d.buffer = buf)) ∧
    (dev.buffer_size < len → SSD1306_FillBuffer dev buf len = some dev) := by
  constructor
  · intro h
    have hl : (List.take len buf).length = len := by simp [hbuf]
    have htake : List.take len (List.take len buf ++ List.drop len dev.buffer) =
        List.take len buf := by
      rw [List.take_append_of_le_length (by omega)]
      simp
    have hdrop : List.drop len (List.take len buf ++ List.drop len dev.buffer) =
        List.drop len dev.buffer := List.drop_left' hl
    refine ⟨{ dev with buffer := buf.take len ++ dev.buffer.drop len, is_dirty := 1 }, ?_,
      htake, hdrop, ?_, rfl, ?_, ?_⟩
    · unfold SSD1306_FillBuffer
      rw [if_pos h, if_pos ⟨hbuf, by omega⟩]
    · simp only [List.length_append, List.length_take, List.length_drop]
      omega
    · intro heq
      have : List.drop len dev.buffer = [] := List.drop_eq_nil_of_le (by omega)
      simp [this]
    · intro heq hb
      have h1 : List.drop len dev.buffer = [] := List.drop_eq_nil_of_le (by omega)
      have h2 : List.take len buf = buf := List.take_of_length_le (by omega)
      simp [h1, h2]
  · intro h
    unfold SSD1306_FillBuffer
    rw [if_neg (by omega)]

/-- C6 on `sampleDev`, loaded with eight bytes. -/
theorem C6_FillBuffer_witness :
    ∃ d, SSD1306_FillBuffer sampleDev [9, 9, 9, 9, 8, 8, 8, 8] 8 = some d ∧
      d.buffer = [9, 9, 9, 9, 8, 8, 8, 8] ∧ d.is_dirty = 1 := by
  obtain ⟨d, h1, _, _, _, h5, _, h7⟩ :=
    (C6_FillBuffer sampleDev [9, 9, 9, 9, 8, 8, 8, 8] 8 (by decide) (by decide)).1 (by decide)
  exact ⟨d, h1, h7 (by decide) (by decide), h5⟩

/-! ## Glyph lookup and failing character draws -/

/-- C8: `SSD1306_DrawChar` returns 0 and the handle it was given (buffer,
cursor and `is_dirty` unchanged) when the glyph does not fit at the cursor,
when `ch > 126`, or when `ch < 32` is not the code of a registered special
glyph; and whenever it returns a value different from `ch`, the handle is
the one it was given. -/
theorem C8_DrawChar_fails_atomically (START : Nat) (dev : SSD1306_t) (ch : Nat)
    (font : SSD1306_Font_t) (c : SSD1306_Color_t) :
    (dev.width < dev.cur_x + font.char_width ∨ dev.height < dev.cur_y + font.char_height ∨
        ch > 126 ∨ (ch < 32 ∧ ¬ (START ≤ ch ∧ ch < START + font.s_data_amount)) →
      SSD1306_DrawChar START dev ch font c = some (dev, 0)) ∧
    (∀ d r, SSD1306_DrawChar START dev ch font c = some (d, r) → r ≠ ch → d = dev ∧ r = 0) := by
  constructor
  · intro h
    unfold SSD1306_DrawChar
    by_cases hfit : dev.width < dev.cur_x + font.char_width ∨
        dev.height < dev.cur_y + font.char_height
    · rw [if_pos hfit]
    · rw [if_neg hfit]
      have hnone : char_start START ch font = none := by
        unfold char_start
        rcases h with h | h | h | ⟨h1, h2⟩
        · exact absurd (Or.inl h) hfit
        · exact absurd (Or.inr h) hfit
        · rw [if_pos h]
        · rw [if_neg (by omega), if_pos h1, if_pos (by omega)]
      rw [hnone]
  · intro d r h hr
    unfold SSD1306_DrawChar at h
    split at h
    · simp only [Option.some.injEq, Prod.mk.injEq] at h
      exact ⟨h.1.symm, h.2.symm⟩
    · split at h
      · simp only [Option.some.injEq, Prod.mk.injEq] at h
        exact ⟨h.1.symm, h.2.symm⟩
      · split at h
        · exact absurd h (by simp)
        · simp only [Option.some.injEq, Prod.mk.injEq] at h
          exact absurd h.2.symm hr

/-- C8 on `sampleDev`: a code above 126, an unregistered low code, and a
glyph that does not fit. -/
theorem C8_DrawChar_fails_atomically_witness :
    SSD1306_DrawChar 1 sampleDev 127 sampleFont SSD1306_COLOR_WHITE = some (sampleDev, 0) ∧
    SSD1306_DrawChar 1 sampleDev 0 sampleFont SSD1306_COLOR_WHITE = some (sampleDev, 0) ∧
    SSD1306_DrawChar 1 { sampleDev with cur_x := 2 } 65 sampleFont SSD1306_COLOR_WHITE =
      some ({ sampleDev with cur_x := 2 }, 0) :=
  ⟨(C8_DrawChar_fails_atomically 1 sampleDev 127 sampleFont SSD1306_COLOR_WHITE).1
      (Or.inr (Or.inr (Or.inl (by decide)))),
    (C8_DrawChar_fails_atomically 1 sampleDev 0 sampleFont SSD1306_COLOR_WHITE).1
      (Or.inr (Or.inr (Or.inr (by decide)))),
    (C8_DrawChar_fails_atomically 1 { sampleDev with cur_x := 2 } 65 sampleFont
      SSD1306_COLOR_WHITE).1 (Or.inl (by decide))⟩

/-- Whatever the value of the special-start offset, the lookup of the code
and the lookup the specification words disagree on code 0 of a font with one
registered special glyph. -/
theorem lookup_disagrees (START : Nat) :
    (char_start START 0 sampleFont).isSome ≠ specLookupFound START sampleFont 0 := by
  cases START with
  | zero => decide
  | succ n =>
    have h1 : char_start (n + 1) 0 sampleFont = none := by
      unfold char_start
      rw [if_neg (by omega), if_pos (by omega), if_pos (Or.inl (by omega))]
    have h2 : specLookupFound (n + 1) sampleFont 0 = true := by
      simp [specLookupFound, sampleFont]
    rw [h1, h2]
    decide

/-- C10, as stated, fails: with the special-start offset 1 and one registered
special glyph, code 0 is below the offset and within the bank size, yet the
lookup of `SSD1306_DrawChar` finds nothing and the call returns 0; code 1,
not below the offset, is the code that resolves to the special glyph.  And
there is no value of the special-start offset for which the lookup of the
code is the lookup the specification words. -/
theorem C10_lookup_counterexample :
    (specLookupFound 1 sampleFont 0 = true ∧
      char_start 1 0 sampleFont = none ∧
      SSD1306_DrawChar 1 sampleDev 0 sampleFont SSD1306_COLOR_WHITE = some (sampleDev, 0) ∧
      specLookupFound 1 sampleFont 1 = false ∧
      char_start 1 1 sampleFont = some (sampleFont.s_data, 0)) ∧
    ¬ ∃ START, ∀ font c, (char_start START c font).isSome = specLookupFound START font c := by
  refine ⟨⟨by decide, by decide, ?_, by decide, by decide⟩, ?_⟩
  · unfold SSD1306_DrawChar
    rw [if_neg (by decide), show char_start 1 0 sampleFont = none by decide]
  · rintro ⟨START, h⟩
    exact lookup_disagrees START (h sampleFont 0)

/-- C10, amended: in the lookup of `SSD1306_DrawChar`, codes `32 .. 126`
resolve to the fixed-bank glyph of index `c - 32`; codes `c < 32` with
`START <= c < START + s_data_amount` (at or above the special-start offset)
resolve to the special glyph of index `c - START`; every other code,
including every code above 126, is not found.  With room at the cursor
`SSD1306_DrawChar` returns 0 and the unchanged handle exactly when the code
is not found, and otherwise paints the glyph the lookup resolved. -/
theorem C10_lookup_amended (START : Nat) (font : SSD1306_Font_t) (c : Nat) :
    (32 ≤ c → c ≤ 126 → char_start START c font = some (font.data, (c - 32) * font.char_height)) ∧
    (c < 32 → START ≤ c → c < START + font.s_data_amount →
      char_start START c font = some (font.s_data, (c - START) * font.char_height)) ∧
    (¬ (32 ≤ c ∧ c ≤ 126) → ¬ (c < 32 ∧ START ≤ c ∧ c < START + font.s_data_amount) →
      char_start START c font = none) ∧
    (∀ (dev : SSD1306_t) (color : SSD1306_Color_t),
      ¬ (dev.width < dev.cur_x + font.char_width ∨ dev.height < dev.cur_y + font.char_height) →
      (char_start START c font = none →
        SSD1306_DrawChar START dev c font color = some (dev, 0)) ∧
      (∀ bank off, char_start START c font = some (bank, off) →
        SSD1306_DrawChar START dev c font color =
          (DrawChar_paint dev bank off font color).map
            (fun d => ({ d with cur_x := (d.cur_x + font.char_width) % 256 }, c)))) := by
  refine ⟨?_, ?_, ?_, ?_⟩
  · intro h1 h2
    unfold char_start
    rw [if_neg (by omega), if_neg (by omega)]
  · intro h1 h2 h3
    unfold char_start
    rw [if_neg (by omega), if_pos h1, if_neg (by omega)]
  · intro h1 h2
    unfold char_start
    by_cases h3 : c > 126
    · rw [if_pos h3]
    · rw [if_neg h3, if_pos (by omega), if_pos (by omega)]
  · intro dev color hfit
    constructor
    · intro hnone
      unfold SSD1306_DrawChar
      rw [if_neg hfit, hnone]
    · intro bank off hsome
      unfold SSD1306_DrawChar
      rw [if_neg hfit, hsome]
      dsimp only
      split <;> simp [*]

/-- C10, amended, on `sampleFont` with the special-start offset 1. -/
theorem C10_lookup_amended_witness :
    char_start 1 33 sampleFont = some (sampleFont.data, (33 - 32) * sampleFont.char_height) ∧
    char_start 1 1 sampleFont = some (sampleFont.s_data, (1 - 1) * sampleFont.char_height) ∧
    char_start 1 2 sampleFont = none :=
  ⟨(C10_lookup_amended 1 sampleFont 33).1 (by decide) (by decide),
    (C10_lookup_amended 1 sampleFont 1).2.1 (by decide) (by decide) (by decide),
    (C10_lookup_amended 1 sampleFont 2).2.2.1 (by decide) (by decide)⟩

/-! ## Loop rules and the frame of pixel writes -/

/-- Invariant rule for `forLoop`: what holds before the loop and is kept by
every iteration that returns holds after a loop that returns. -/
theorem forLoop_invariant {σ : Type} (body : Nat → σ → Option σ) (P : Nat → σ → Prop)
    (count start : Nat) (s s1 : σ) (h0 : P start s)
    (hstep : ∀ i t t1, start ≤ i → i < start + count → P i t → body i t = some t1 →
      P (i + 1) t1)
    (h : forLoop body count start s = some s1) : P (start + count) s1 := by
  induction count generalizing start s with
  | zero =>
    simp only [forLoop, Option.some.injEq] at h
    subst h
    exact h0
  | succ n ih =>
    simp only [forLoop] at h
    split at h
    · exact absurd h (by simp)
    · next t1 hb =>
      have h1 := hstep start s t1 (Nat.le_refl _) (by omega) h0 hb
      have := ih (start + 1) t1 h1
        (fun i t t2 hi1 hi2 hp hbody => hstep i t t2 (by omega) (by omega) hp hbody) h
      rw [show start + (n + 1) = start + 1 + n by omega]
      exact this

/-- Totality rule for `forLoop`: when every iteration returns and keeps the
invariant, the loop returns. -/
theorem forLoop_total {σ : Type} (body : Nat → σ → Option σ) (P : Nat → σ → Prop)
    (count start : Nat) (s : σ) (h0 : P start s)
    (hstep : ∀ i t, start ≤ i → i < start + count → P i t →
      ∃ t1, body i t = some t1 ∧ P (i + 1) t1) :
    ∃ s1, forLoop body count start s = some s1 ∧ P (start + count) s1 := by
  induction count generalizing start s with
  | zero => exact ⟨s, rfl, h0⟩
  | succ n ih =>
    obtain ⟨t1, hb, h1⟩ := hstep start s (Nat.le_refl _) (by omega) h0
    obtain ⟨s1, hs1, hp⟩ := ih (start + 1) t1 h1
      (fun i t hi1 hi2 hp => hstep i t (by omega) (by omega) hp)
    refine ⟨s1, ?_, ?_⟩
    · simp only [forLoop, hb]
      exact hs1
    · rw [show start + (n + 1) = start + 1 + n by omega]
      exact hp

theorem Mutates.same (d : SSD1306_t) : Mutates d d :=
  ⟨rfl, rfl, rfl, rfl, Or.inr ⟨rfl, rfl⟩⟩

theorem Mutates.followedBy {d d1 d2 : SSD1306_t} (h1 : Mutates d d1) (h2 : Mutates d1 d2) :
    Mutates d d2 := by
  refine ⟨h2.width.trans h1.width, h2.height.trans h1.height,
    h2.buffer_size.trans h1.buffer_size, h2.length.trans h1.length, ?_⟩
  rcases h2.dirty with h | ⟨hb, hd⟩
  · exact Or.inl h
  · rcases h1.dirty with h | ⟨hb1, hd1⟩
    · exact Or.inl (hd.trans h)
    · exact Or.inr ⟨hb.trans hb1, hd.trans hd1⟩

theorem Paints.unchanged (d : SSD1306_t) : Paints d d := ⟨Mutates.same d, rfl, rfl⟩

theorem Paints.andThen {d d1 d2 : SSD1306_t} (h1 : Paints d d1) (h2 : Paints d1 d2) :
    Paints d d2 :=
  ⟨h1.mutates.followedBy h2.mutates, h2.cur_x.trans h1.cur_x, h2.cur_y.trans h1.cur_y⟩

/-- Every `SSD1306_DrawPixel` call that returns only paints. -/
theorem DrawPixel_paints (d d1 : SSD1306_t) (x y : Nat) (c : SSD1306_Color_t)
    (h : SSD1306_DrawPixel d x y c = some d1) : Paints d d1 := by
  unfold SSD1306_DrawPixel at h
  split at h
  · simp only [Option.some.injEq] at h
    subst h
    exact Paints.unchanged d
  · split at h
    · exact absurd h (by simp)
    · simp only [Option.some.injEq] at h
      subst h
      exact ⟨⟨rfl, rfl, rfl, by simp, Or.inl rfl⟩, rfl, rfl⟩

/-- Two in-bounds pixels share their byte index only when they are in the
same column and the same page. -/
theorem index_inj (w x y x1 y1 : Nat) (hx : x < w) (hx1 : x1 < w)
    (h : x1 + (y1 / 8) * w = x + (y / 8) * w) : x1 = x ∧ y1 / 8 = y / 8 := by
  have h1 : (x1 + (y1 / 8) * w) % w = (x + (y / 8) * w) % w := by rw [h]
  rw [Nat.add_mul_mod_self_right, Nat.add_mul_mod_self_right, Nat.mod_eq_of_lt hx,
    Nat.mod_eq_of_lt hx1] at h1
  subst h1
  have h2 : (y1 / 8) * w = (y / 8) * w := by omega
  exact ⟨rfl, Nat.eq_of_mul_eq_mul_right (by omega) h2⟩

/-- What a returning `SSD1306_DrawPixel` leaves in the pixels: the pixel
written reads as the colour written, every other one as before. -/
theorem DrawPixel_pixelAt (d d1 : SSD1306_t) (x y : Nat) (c : SSD1306_Color_t)
    (h : SSD1306_DrawPixel d x y c = some d1) (x1 y1 : Nat) (hx1 : x1 < d.width)
    (hy1 : y1 < d.height) :
    pixelAt d1 x1 y1 = if x1 = x ∧ y1 = y then some c else pixelAt d x1 y1 := by
  unfold SSD1306_DrawPixel at h
  split at h
  · next hout =>
    simp only [Option.some.injEq] at h
    subst h
    rw [if_neg]
    rintro ⟨rfl, rfl⟩
    omega
  · next hin =>
    have hx : x < d.width := by omega
    split at h
    · exact absurd h (by simp)
    · next b hb =>
      simp only [Option.some.injEq] at h
      subst h
      have hidx : x + (y / 8) * d.width < d.buffer.length := by
        by_contra hcon
        rw [List.getElem?_eq_none (by omega)] at hb
        exact absurd hb (by simp)
      by_cases hsame : x1 + (y1 / 8) * d.width = x + (y / 8) * d.width
      · obtain ⟨hxx, hyy⟩ := index_inj d.width x y x1 y1 hx hx1 hsame
        subst hxx
        have hbit := pixelByte_testBit b y (y1 % 8) c (Nat.mod_lt _ (by norm_num))
        simp only [pixelAt, hsame, List.getElem?_set, hidx, if_true, Option.map_some', hb]
        unfold pixelByte at hbit
        rw [hbit]
        by_cases hy : y1 = y
        · subst hy
          cases c <;> simp
        · have hm : y1 % 8 ≠ y % 8 := by omega
          simp [hm, hy]
      · have hne : ¬ (x1 = x ∧ y1 = y) := by
          rintro ⟨rfl, rfl⟩
          exact hsame rfl
        simp only [pixelAt, hne, if_false]
        rw [List.getElem?_set_ne (Ne.symm hsame)]

/-! ## Painting a glyph -/

/-- The test `(b << j) & 0x8000` on a row loaded as `uint16_t` reads bit
`15 - j` of the row, for the columns `j <= 15`. -/
theorem glyph_test (b j : Nat) (hj : j ≤ 15) :
    (((b % 65536) <<< j) &&& 0x8000 ≠ 0) ↔ b.testBit (15 - j) = true := by
  have h1 : (0x8000 : Nat) = 2 ^ 15 := by norm_num
  have h2 : (65536 : Nat) = 2 ^ 16 := by norm_num
  rw [h1, h2, Nat.and_two_pow, Nat.testBit_shiftLeft, Nat.testBit_mod_two_pow]
  have h3 : 15 - j < 16 := by omega
  simp [hj, h3]

/-- One column of `SSD1306_DrawChar`: a `SSD1306_DrawPixel` call in the
colour `glyphColor`. -/
theorem DrawChar_column (d : SSD1306_t) (b i j : Nat) (color : SSD1306_Color_t) (hj : j ≤ 15) :
    (if ((b % 65536) <<< j) &&& 0x8000 ≠ 0 then
        SSD1306_DrawPixel d ((d.cur_x + j) % 256) ((d.cur_y + i) % 256) color
      else
        SSD1306_DrawPixel d ((d.cur_x + j) % 256) ((d.cur_y + i) % 256) color.not) =
      SSD1306_DrawPixel d ((d.cur_x + j) % 256) ((d.cur_y + i) % 256) (glyphColor b j color) := by
  unfold glyphColor
  by_cases h : ((b % 65536) <<< j) &&& 0x8000 ≠ 0
  · rw [if_pos h, if_pos ((glyph_test b j hj).1 h)]
  · rw [if_neg h, if_neg (fun h1 => h ((glyph_test b j hj).2 h1))]

/-- The column loop of `SSD1306_DrawChar` on row `i`, when it returns: it
only paints, and the pixels of row `cur_y + i` in the columns
`cur_x .. cur_x + W - 1` read as `glyphColor`, all others as before. -/
theorem DrawChar_row (d0 d1 : SSD1306_t) (b i W : Nat) (color : SSD1306_Color_t)
    (hW : W ≤ 16) (hfx : d0.cur_x + W ≤ d0.width) (hfy : d0.cur_y + i < d0.height)
    (hw : d0.width ≤ 256) (hh : d0.height ≤ 256)
    (h : forLoop (fun j (d2 : SSD1306_t) =>
        if ((b % 65536) <<< j) &&& 0x8000 ≠ 0 then
          SSD1306_DrawPixel d2 ((d2.cur_x + j) % 256) ((d2.cur_y + i) % 256) color
        else
          SSD1306_DrawPixel d2 ((d2.cur_x + j) % 256) ((d2.cur_y + i) % 256) color.not)
        W 0 d0 = some d1) :
    Paints d0 d1 ∧ ∀ x1 y1, x1 < d0.width → y1 < d0.height →
      pixelAt d1 x1 y1 =
        if y1 = d0.cur_y + i ∧ d0.cur_x ≤ x1 ∧ x1 < d0.cur_x + W then
          some (glyphColor b (x1 - d0.cur_x) color)
        else pixelAt d0 x1 y1 := by
  have key := forLoop_invariant _
    (fun j (d2 : SSD1306_t) => Paints d0 d2 ∧ ∀ x1 y1, x1 < d0.width → y1 < d0.height →
      pixelAt d2 x1 y1 =
        if y1 = d0.cur_y + i ∧ d0.cur_x ≤ x1 ∧ x1 < d0.cur_x + j then
          some (glyphColor b (x1 - d0.cur_x) color)
        else pixelAt d0 x1 y1) W 0 d0 d1 ?_ ?_ h
  · simpa using key
  · refine ⟨Paints.unchanged d0, ?_⟩
    intro x1 y1 _ _
    rw [if_neg (by omega)]
  · intro j t t1 _ hj hP hbody
    obtain ⟨hp, hpix⟩ := hP
    rw [DrawChar_column t b i j color (by omega), hp.cur_x, hp.cur_y,
      Nat.mod_eq_of_lt (by omega), Nat.mod_eq_of_lt (by omega)] at hbody
    refine ⟨hp.andThen (DrawPixel_paints _ _ _ _ _ hbody), ?_⟩
    intro x1 y1 hx1 hy1
    rw [DrawPixel_pixelAt t t1 _ _ _ hbody x1 y1 (by rw [hp.mutates.width]; exact hx1)
      (by rw [hp.mutates.height]; exact hy1), hpix x1 y1 hx1 hy1]
    by_cases hnew : x1 = d0.cur_x + j ∧ y1 = d0.cur_y + i
    · obtain ⟨rfl, rfl⟩ := hnew
      rw [if_pos ⟨rfl, rfl⟩, if_pos ⟨rfl, by omega, by omega⟩]
      simp
    · rw [if_neg hnew]
      by_cases hold : y1 = d0.cur_y + i ∧ d0.cur_x ≤ x1 ∧ x1 < d0.cur_x + j
      · rw [if_pos hold, if_pos ⟨hold.1, hold.2.1, by omega⟩]
      · rw [if_neg hold, if_neg]
        rintro ⟨h1, h2, h3⟩
        have : x1 ≠ d0.cur_x + j := fun hx => hnew ⟨hx, h1⟩
        exact hold ⟨h1, h2, by omega⟩

/-- The two loops of `SSD1306_DrawChar`, when they return: they only paint,
every glyph row was read inside its array, and the pixels of the
`char_width x char_height` rectangle at the cursor read as `glyphColor` of
their glyph row, all others as before. -/
theorem DrawChar_paint_spec (d0 d1 : SSD1306_t) (bank : List Nat) (off : Nat)
    (font : SSD1306_Font_t) (color : SSD1306_Color_t)
    (hW : font.char_width ≤ 16) (hfx : d0.cur_x + font.char_width ≤ d0.width)
    (hfy : d0.cur_y + font.char_height ≤ d0.height)
    (hw : d0.width ≤ 256) (hh : d0.height ≤ 256)
    (h : DrawChar_paint d0 bank off font color = some d1) :
    Paints d0 d1 ∧
    (∀ k, k < font.char_height → ∃ b, bank[off + k]? = some b) ∧
    ∀ x1 y1, x1 < d0.width → y1 < d0.height →
      pixelAt d1 x1 y1 =
        if d0.cur_y ≤ y1 ∧ y1 < d0.cur_y + font.char_height ∧
            d0.cur_x ≤ x1 ∧ x1 < d0.cur_x + font.char_width then
          (bank[off + (y1 - d0.cur_y)]?).map (fun b => glyphColor b (x1 - d0.cur_x) color)
        else pixelAt d0 x1 y1 := by
  unfold DrawChar_paint at h
  have key := forLoop_invariant _
    (fun i (d2 : SSD1306_t) => Paints d0 d2 ∧
      (∀ k, k < i → ∃ b, bank[off + k]? = some b) ∧
      ∀ x1 y1, x1 < d0.width → y1 < d0.height →
        pixelAt d2 x1 y1 =
          if d0.cur_y ≤ y1 ∧ y1 < d0.cur_y + i ∧
              d0.cur_x ≤ x1 ∧ x1 < d0.cur_x + font.char_width then
            (bank[off + (y1 - d0.cur_y)]?).map (fun b => glyphColor b (x1 - d0.cur_x) color)
          else pixelAt d0 x1 y1) font.char_height 0 d0 d1 ?_ ?_ h
  · simpa using key
  · refine ⟨Paints.unchanged d0, fun k hk => absurd hk (by omega), ?_⟩
    intro x1 y1 _ _
    rw [if_neg (by omega)]
  · intro i t t1 _ hi hP hbody
    obtain ⟨hp, hrows, hpix⟩ := hP
    simp only [Nat.zero_add] at hi
    split at hbody
    · exact absurd hbody (by simp)
    · next b hb =>
      obtain ⟨hp1, hpix1⟩ := DrawChar_row t t1 b i font.char_width color hW
        (by rw [hp.cur_x, hp.mutates.width]; exact hfx)
        (by rw [hp.cur_y, hp.mutates.height]; omega)
        (by rw [hp.mutates.width]; exact hw) (by rw [hp.mutates.height]; exact hh) hbody
      refine ⟨hp.andThen hp1, ?_, ?_⟩
      · intro k hk
        by_cases hki : k = i
        · subst hki
          exact ⟨b, hb⟩
        · exact hrows k (by omega)
      · intro x1 y1 hx1 hy1
        rw [hpix1 x1 y1 (by rw [hp.mutates.width]; exact hx1)
          (by rw [hp.mutates.height]; exact hy1), hpix x1 y1 hx1 hy1, hp.cur_x, hp.cur_y]
        by_cases hnew : y1 = d0.cur_y + i ∧ d0.cur_x ≤ x1 ∧ x1 < d0.cur_x + font.char_width
        · obtain ⟨rfl, h2, h3⟩ := hnew
          rw [if_pos ⟨rfl, h2, h3⟩, if_pos ⟨by omega, by omega, h2, h3⟩]
          simp [hb]
        · rw [if_neg hnew]
          by_cases hold : d0.cur_y ≤ y1 ∧ y1 < d0.cur_y + i ∧
              d0.cur_x ≤ x1 ∧ x1 < d0.cur_x + font.char_width
          · rw [if_pos hold, if_pos ⟨hold.1, by omega, hold.2.2⟩]
          · rw [if_neg hold, if_neg]
            rintro ⟨h1, h2, h3, h4⟩
            have : y1 ≠ d0.cur_y + i := fun hy => hnew ⟨hy, h3, h4⟩
            exact hold ⟨h1, by omega, h3, h4⟩

/-- On a handle whose height is a multiple of 8 and whose buffer has
`width * height / 8` bytes, `SSD1306_DrawPixel` returns for every
coordinate. -/
theorem DrawPixel_total (d : SSD1306_t) (x y : Nat) (c : SSD1306_Color_t)
    (hh : d.height % 8 = 0) (hlen : d.buffer.length = d.width * d.height / 8) :
    ∃ d1, SSD1306_DrawPixel d x y c = some d1 := by
  by_cases hout : x ≥ d.width ∨ y ≥ d.height
  · exact ⟨d, DrawPixel_skip d x y c hout⟩
  · have hidx : x + (y / 8) * d.width < d.buffer.length := by
      rw [hlen]; exact index_lt _ _ _ _ hh (by omega) (by omega)
    exact ⟨_, DrawPixel_eq_set d x y _ c (by omega) (by omega) (List.getElem?_eq_getElem hidx)⟩

/-- The column loop of `SSD1306_DrawChar` returns on a well sized handle. -/
theorem DrawChar_row_total (d0 t : SSD1306_t) (b i W : Nat) (color : SSD1306_Color_t)
    (hh : d0.height % 8 = 0) (hlen : d0.buffer.length = d0.width * d0.height / 8)
    (hp : Paints d0 t) :
    ∃ t1, forLoop (fun j (d2 : SSD1306_t) =>
        if ((b % 65536) <<< j) &&& 0x8000 ≠ 0 then
          SSD1306_DrawPixel d2 ((d2.cur_x + j) % 256) ((d2.cur_y + i) % 256) color
        else
          SSD1306_DrawPixel d2 ((d2.cur_x + j) % 256) ((d2.cur_y + i) % 256) color.not)
        W 0 t = some t1 ∧ Paints d0 t1 := by
  have hstep : ∀ j (u : SSD1306_t), 0 ≤ j → j < 0 + W → Paints d0 u →
      ∃ u1, (if ((b % 65536) <<< j) &&& 0x8000 ≠ 0 then
          SSD1306_DrawPixel u ((u.cur_x + j) % 256) ((u.cur_y + i) % 256) color
        else
          SSD1306_DrawPixel u ((u.cur_x + j) % 256) ((u.cur_y + i) % 256) color.not) = some u1 ∧
        Paints d0 u1 := by
    intro j u _ _ hu
    have hh1 : u.height % 8 = 0 := by rw [hu.mutates.height]; exact hh
    have hlen1 : u.buffer.length = u.width * u.height / 8 := by
      rw [hu.mutates.length, hu.mutates.width, hu.mutates.height]; exact hlen
    split
    · obtain ⟨u1, hu1⟩ := DrawPixel_total u ((u.cur_x + j) % 256) ((u.cur_y + i) % 256)
        color hh1 hlen1
      exact ⟨u1, hu1, hu.andThen (DrawPixel_paints _ _ _ _ _ hu1)⟩
    · obtain ⟨u1, hu1⟩ := DrawPixel_total u ((u.cur_x + j) % 256) ((u.cur_y + i) % 256)
        color.not hh1 hlen1
      exact ⟨u1, hu1, hu.andThen (DrawPixel_paints _ _ _ _ _ hu1)⟩
  obtain ⟨t1, h1, hp1⟩ := forLoop_total _ (fun _ (d2 : SSD1306_t) => Paints d0 d2) W 0 t hp hstep
  exact ⟨t1, h1, hp1⟩

/-- The two loops of `SSD1306_DrawChar` return when the handle is well sized
and the glyph rows lie inside their array. -/
theorem DrawChar_paint_total (d0 : SSD1306_t) (bank : List Nat) (off : Nat)
    (font : SSD1306_Font_t) (color : SSD1306_Color_t)
    (hh : d0.height % 8 = 0) (hlen : d0.buffer.length = d0.width * d0.height / 8)
    (hrows : off + font.char_height ≤ bank.length) :
    ∃ d1, DrawChar_paint d0 bank off font color = some d1 := by
  unfold DrawChar_paint
  have hstep : ∀ i (t : SSD1306_t), 0 ≤ i → i < 0 + font.char_height → Paints d0 t →
      ∃ t1, (match bank[off + i]? with
        | none => none
        | some b =>
          forLoop (fun j (d2 : SSD1306_t) =>
            if ((b % 65536) <<< j) &&& 0x8000 ≠ 0 then
              SSD1306_DrawPixel d2 ((d2.cur_x + j) % 256) ((d2.cur_y + i) % 256) color
            else
              SSD1306_DrawPixel d2 ((d2.cur_x + j) % 256) ((d2.cur_y + i) % 256) color.not)
            font.char_width 0 t) = some t1 ∧ Paints d0 t1 := by
    intro i t _ hi hp
    obtain ⟨b, hb⟩ : ∃ b, bank[off + i]? = some b :=
      ⟨_, List.getElem?_eq_getElem (show off + i < bank.length by omega)⟩
    rw [hb]
    exact DrawChar_row_total d0 t b i font.char_width color hh hlen hp
  obtain ⟨d1, h, _⟩ := forLoop_total _ (fun _ (d2 : SSD1306_t) => Paints d0 d2)
    font.char_height 0 d0 (Paints.unchanged d0) hstep
  exact ⟨d1, h⟩

/-- C9: for a font with `char_width <= 16`, a code `32 <= ch <= 126` and a
glyph that fits at the cursor (`width`, `height` in their `uint8_t` range),
every returning `SSD1306_DrawChar` call returns `ch`, advances `cur_x` by
exactly `char_width` and keeps `cur_y`; for every row `i` and column `j` of
the glyph, pixel `(cur_x + j, cur_y + i)` reads as the requested colour when
bit `15 - j` of `data[(ch - 32) * char_height + i]` is set and as the inverse
colour otherwise; every pixel outside the rectangle reads as before.  The
call returns when the handle is well sized (height a multiple of 8, buffer
of `width * height / 8` bytes) and the glyph rows lie inside `data`. -/
theorem C9_DrawChar_paints_glyph (START : Nat) (dev : SSD1306_t) (ch : Nat)
    (font : SSD1306_Font_t) (c : SSD1306_Color_t)
    (hW : font.char_width ≤ 16) (hch1 : 32 ≤ ch) (hch2 : ch ≤ 126)
    (hfx : dev.cur_x + font.char_width ≤ dev.width)
    (hfy : dev.cur_y + font.char_height ≤ dev.height)
    (hw : dev.width < 256) (hh : dev.height < 256) :
    (∀ d r, SSD1306_DrawChar START dev ch font c = some (d, r) →
      r = ch ∧ d.cur_x = dev.cur_x + font.char_width ∧ d.cur_y = dev.cur_y ∧
      d.width = dev.width ∧ d.height = dev.height ∧
      (∀ i j, i < font.char_height → j < font.char_width →
        ∃ b, font.data[(ch - 32) * font.char_height + i]? = some b ∧
          pixelAt d (dev.cur_x + j) (dev.cur_y + i) =
            some (if b.testBit (15 - j) then c else c.not)) ∧
      (∀ x y, x < dev.width → y < dev.height →
        ¬ (dev.cur_x ≤ x ∧ x < dev.cur_x + font.char_width ∧
            dev.cur_y ≤ y ∧ y < dev.cur_y + font.char_height) →
        pixelAt d x y = pixelAt dev x y)) ∧
    (dev.height % 8 = 0 → dev.buffer.length = dev.width * dev.height / 8 →
      (ch - 32) * font.char_height + font.char_height ≤ font.data.length →
      ∃ d, SSD1306_DrawChar START dev ch font c = some (d, ch)) := by
  have hfit : ¬ (dev.width < dev.cur_x + font.char_width ∨
      dev.height < dev.cur_y + font.char_height) := by omega
  have hstart : char_start START ch font = some (font.data, (ch - 32) * font.char_height) := by
    unfold char_start
    rw [if_neg (by omega), if_neg (by omega)]
  constructor
  · intro d r h
    unfold SSD1306_DrawChar at h
    rw [if_neg hfit, hstart] at h
    dsimp only at h
    split at h
    · exact absurd h (by simp)
    · next d1 hpaint =>
      simp only [Option.some.injEq, Prod.mk.injEq] at h
      obtain ⟨hd, hr⟩ := h
      subst hd
      obtain ⟨hp, hrows, hpix⟩ := DrawChar_paint_spec dev d1 font.data _ font c hW hfx hfy
        (by omega) (by omega) hpaint
      refine ⟨hr.symm, ?_, hp.cur_y, hp.mutates.width, hp.mutates.height, ?_, ?_⟩
      · show (d1.cur_x + font.char_width) % 256 = dev.cur_x + font.char_width
        rw [hp.cur_x]
        exact Nat.mod_eq_of_lt (by omega)
      · intro i j hi hj
        obtain ⟨b, hb⟩ := hrows i hi
        refine ⟨b, hb, ?_⟩
        have := hpix (dev.cur_x + j) (dev.cur_y + i) (by omega) (by omega)
        rw [if_pos ⟨by omega, by omega, by omega, by omega⟩,
          show dev.cur_y + i - dev.cur_y = i by omega,
          show dev.cur_x + j - dev.cur_x = j by omega, hb] at this
        simpa [pixelAt, glyphColor] using this
      · intro x y hx hy hout
        have := hpix x y hx hy
        rw [if_neg (by intro hc; exact hout ⟨hc.2.2.1, hc.2.2.2, hc.1, hc.2.1⟩)] at this
        simpa [pixelAt] using this
  · intro h8 hlen hrows
    obtain ⟨d1, hpaint⟩ := DrawChar_paint_total dev font.data _ font c h8 hlen hrows
    refine ⟨{ d1 with cur_x := (d1.cur_x + font.char_width) % 256 }, ?_⟩
    unfold SSD1306_DrawChar
    rw [if_neg hfit, hstart]
    dsimp only
    rw [hpaint]

/-- C9 on `sampleDev` and `sampleFont`: the glyph of code 33 (rows `101`,
`010`) drawn WHITE at the origin. -/
theorem C9_DrawChar_paints_glyph_witness :
    ∃ d, SSD1306_DrawChar 1 sampleDev 33 sampleFont SSD1306_COLOR_WHITE = some (d, 33) ∧
      d.cur_x = 3 ∧ d.cur_y = 0 ∧
      pixelAt d 0 0 = some SSD1306_COLOR_WHITE ∧ pixelAt d 1 0 = some SSD1306_COLOR_BLACK ∧
      pixelAt d 2 0 = some SSD1306_COLOR_WHITE ∧ pixelAt d 0 1 = some SSD1306_COLOR_BLACK ∧
      pixelAt d 1 1 = some SSD1306_COLOR_WHITE ∧ pixelAt d 2 1 = some SSD1306_COLOR_BLACK ∧
      pixelAt d 3 0 = pixelAt sampleDev 3 0 ∧ pixelAt d 0 2 = pixelAt sampleDev 0 2 := by
  have hthm := C9_DrawChar_paints_glyph 1 sampleDev 33 sampleFont SSD1306_COLOR_WHITE
    (by decide) (by decide) (by decide) (by decide) (by decide) (by decide) (by decide)
  obtain ⟨d, hd⟩ := hthm.2 (by decide) (by decide) (by decide)
  obtain ⟨_, hx, hy, _, _, hin, hout⟩ := hthm.1 d 33 hd
  have glyph : ∀ i j, i < 2 → j < 3 → ∀ v, sampleFont.data[(33 - 32) * 2 + i]? = some v →
      pixelAt d (0 + j) (0 + i) =
        some (if v.testBit (15 - j) then SSD1306_COLOR_WHITE else SSD1306_COLOR_BLACK) := by
    intro i j hi hj v hv
    obtain ⟨b, hb, hpx⟩ := hin i j hi hj
    have hbv : b = v := Option.some.inj (hb.symm.trans hv)
    rw [← hbv]
    exact hpx
  refine ⟨d, hd, hx, hy, ?_, ?_, ?_, ?_, ?_, ?_, hout 3 0 (by decide) (by decide) (by decide),
    hout 0 2 (by decide) (by decide) (by decide)⟩
  · exact glyph 0 0 (by decide) (by decide) 0xA000 rfl
  · exact glyph 0 1 (by decide) (by decide) 0xA000 rfl
  · exact glyph 0 2 (by decide) (by decide) 0xA000 rfl
  · exact glyph 1 0 (by decide) (by decide) 0x4000 rfl
  · exact glyph 1 1 (by decide) (by decide) 0x4000 rfl
  · exact glyph 1 2 (by decide) (by decide) 0x4000 rfl

/-! ## Every drawing operation only paints -/

/-- A loop whose iterations only paint only paints. -/
theorem forLoop_paints (body : Nat → SSD1306_t → Option SSD1306_t)
    (hbody : ∀ i t t1, body i t = some t1 → Paints t t1) (count start : Nat)
    (d d1 : SSD1306_t) (h : forLoop body count start d = some d1) : Paints d d1 :=
  forLoop_invariant body (fun _ t => Paints d t) count start d d1 (Paints.unchanged d)
    (fun i t t1 _ _ hp hb => hp.andThen (hbody i t t1 hb)) h

theorem DrawChar_paint_paints (d0 d1 : SSD1306_t) (bank : List Nat) (off : Nat)
    (font : SSD1306_Font_t) (color : SSD1306_Color_t)
    (h : DrawChar_paint d0 bank off font color = some d1) : Paints d0 d1 := by
  unfold DrawChar_paint at h
  refine forLoop_paints _ ?_ _ _ _ _ h
  intro i t t1 hb
  split at hb
  · exact absurd hb (by simp)
  · refine forLoop_paints _ ?_ _ _ _ _ hb
    intro j u u1 hu
    split at hu
    · exact DrawPixel_paints _ _ _ _ _ hu
    · exact DrawPixel_paints _ _ _ _ _ hu

theorem DrawChar_mutates (START : Nat) (d d1 : SSD1306_t) (ch r : Nat) (font : SSD1306_Font_t)
    (color : SSD1306_Color_t) (h : SSD1306_DrawChar START d ch font color = some (d1, r)) :
    Mutates d d1 := by
  unfold SSD1306_DrawChar at h
  split at h
  · simp only [Option.some.injEq, Prod.mk.injEq] at h
    rw [← h.1]
    exact Mutates.same d
  · split at h
    · simp only [Option.some.injEq, Prod.mk.injEq] at h
      rw [← h.1]
      exact Mutates.same d
    · split at h
      · exact absurd h (by simp)
      · next t ht =>
        simp only [Option.some.injEq, Prod.mk.injEq] at h
        rw [← h.1]
        have hp := (DrawChar_paint_paints _ _ _ _ _ _ ht).mutates
        exact ⟨hp.width, hp.height, hp.buffer_size, hp.length, hp.dirty⟩

theorem DrawString_mutates (START : Nat) (font : SSD1306_Font_t) (color : SSD1306_Color_t)
    (str : List Nat) (d d1 : SSD1306_t) (r : Nat)
    (h : SSD1306_DrawString START font color d str = some (d1, r)) : Mutates d d1 := by
  induction str generalizing d with
  | nil =>
    simp only [SSD1306_DrawString, Option.some.injEq, Prod.mk.injEq] at h
    rw [← h.1]
    exact Mutates.same d
  | cons c rest ih =>
    simp only [SSD1306_DrawString] at h
    split at h
    · simp only [Option.some.injEq, Prod.mk.injEq] at h
      rw [← h.1]
      exact Mutates.same d
    · split at h
      · exact absurd h (by simp)
      · next t r1 ht =>
        have hm := DrawChar_mutates _ _ _ _ _ _ _ ht
        split at h
        · simp only [Option.some.injEq, Prod.mk.injEq] at h
          rw [← h.1]
          exact hm
        · exact hm.followedBy (ih t h)

theorem Fill_mutates (d d1 : SSD1306_t) (color : SSD1306_Color_t)
    (h : SSD1306_Fill d color = some d1) : Mutates d d1 := by
  unfold SSD1306_Fill at h
  split at h
  · exact absurd h (by simp)
  · next t ht =>
    simp only [Option.some.injEq] at h
    subst h
    have key := forLoop_invariant _
      (fun _ (t : SSD1306_t) => t.width = d.width ∧ t.height = d.height ∧
        t.buffer_size = d.buffer_size ∧ t.buffer.length = d.buffer.length)
      d.buffer_size 0 d t ⟨rfl, rfl, rfl, rfl⟩ ?_ ht
    · exact ⟨key.1, key.2.1, key.2.2.1, key.2.2.2, Or.inl rfl⟩
    · intro i u u1 _ _ hu hb
      split at hb
      · simp only [Option.some.injEq] at hb
        subst hb
        exact ⟨hu.1, hu.2.1, hu.2.2.1, by simpa using hu.2.2.2⟩
      · exact absurd hb (by simp)

theorem FillBuffer_mutates (d d1 : SSD1306_t) (buf : List Nat) (len : Nat)
    (h : SSD1306_FillBuffer d buf len = some d1) : Mutates d d1 := by
  unfold SSD1306_FillBuffer at h
  split at h
  · split at h
    · next hok =>
      simp only [Option.some.injEq] at h
      subst h
      refine ⟨rfl, rfl, rfl, ?_, Or.inl rfl⟩
      simp only [List.length_append, List.length_take, List.length_drop]
      omega
    · exact absurd h (by simp)
  · simp only [Option.some.injEq] at h
    subst h
    exact Mutates.same d

theorem DrawBitmap_mutates (d d1 : SSD1306_t) (bitmap : SSD1306_Bitmap_t)
    (color : SSD1306_Color_t) (h : SSD1306_DrawBitmap d bitmap color = some d1) :
    Mutates d d1 := by
  unfold SSD1306_DrawBitmap at h
  split at h
  · simp only [Option.some.injEq] at h
    subst h
    exact Mutates.same d
  · dsimp only at h
    split at h
    · exact absurd h (by simp)
    · next t byte ht =>
      simp only [Option.some.injEq] at h
      subst h
      have key := forLoop_invariant _ (fun _ (s : SSD1306_t × Nat) => Paints d s.1)
        bitmap.height 0 (d, 0) (t, byte) (Paints.unchanged d) ?_ ht
      · have hp := key.mutates
        exact ⟨hp.width, hp.height, hp.buffer_size, hp.length, hp.dirty⟩
      · intro j s1 s2 _ _ hs1 hrow
        refine forLoop_invariant _ (fun _ (s : SSD1306_t × Nat) => Paints d s.1)
          bitmap.width 0 s1 s2 hs1 ?_ hrow
        intro i u u1 _ _ hu hb
        split at hb
        · exact absurd hb (by simp)
        · split at hb
          · exact absurd hb (by simp)
          · next v hv =>
            simp only [Option.some.injEq] at hb
            subst hb
            exact hu.andThen (DrawPixel_paints _ _ _ _ _ hv)

theorem DrawLine_loop_paints (x2 y2 delta_x delta_y : Nat) (sign_x sign_y : Int)
    (color : SSD1306_Color_t) (fuel : Nat) (d d1 : SSD1306_t) (x1 y1 : Nat) (error_1 : Int)
    (h : SSD1306_DrawLine_loop x2 y2 delta_x delta_y sign_x sign_y color fuel d x1 y1 error_1 =
      some d1) : Paints d d1 := by
  induction fuel generalizing d x1 y1 error_1 with
  | zero =>
    simp only [SSD1306_DrawLine_loop] at h
    split at h
    · exact absurd h (by simp)
    · simp only [Option.some.injEq] at h
      subst h
      exact Paints.unchanged d
  | succ n ih =>
    simp only [SSD1306_DrawLine_loop] at h
    split at h
    · split at h
      · exact absurd h (by simp)
      · next t ht => exact (DrawPixel_paints _ _ _ _ _ ht).andThen (ih _ _ _ _ h)
    · simp only [Option.some.injEq] at h
      subst h
      exact Paints.unchanged d

theorem DrawLine_paints (fuel : Nat) (d d1 : SSD1306_t) (x1 y1 x2 y2 : Nat)
    (color : SSD1306_Color_t) (h : SSD1306_DrawLine fuel d x1 y1 x2 y2 color = some d1) :
    Paints d d1 := by
  unfold SSD1306_DrawLine at h
  dsimp only at h
  split at h
  · exact absurd h (by simp)
  · next t ht =>
    exact (DrawPixel_paints _ _ _ _ _ ht).andThen (DrawLine_loop_paints _ _ _ _ _ _ _ _ _ _ _ _ _ h)

theorem DrawPolyline_paints (fuel : Nat) (d d1 : SSD1306_t)
    (par_vertex : Option (List SSD1306_Vertex_t)) (par_size : Nat) (color : SSD1306_Color_t)
    (h : SSD1306_DrawPolyline fuel d par_vertex par_size color = some d1) : Paints d d1 := by
  unfold SSD1306_DrawPolyline at h
  split at h
  · simp only [Option.some.injEq] at h
    subst h
    exact Paints.unchanged d
  · refine forLoop_paints _ ?_ _ _ _ _ h
    intro i t t1 hb
    split at hb
    · exact DrawLine_paints _ _ _ _ _ _ _ _ hb
    · exact absurd hb (by simp)

theorem ite_some_or {α : Type} (c : Prop) [Decidable c] (a : Option α) (t d : α)
    (h : (if c then a else some t) = some d) : a = some d ∨ t = d := by
  split at h
  · exact Or.inl h
  · exact Or.inr (Option.some.inj h)

theorem DrawCircle_loop_paints (x y : Nat) (color : SSD1306_Color_t) (fuel : Nat)
    (d d1 : SSD1306_t) (delta_x delta_y error_1 : Int)
    (h : SSD1306_DrawCircle_loop x y color fuel d delta_x delta_y error_1 = some d1) :
    Paints d d1 := by
  induction fuel generalizing d delta_x delta_y error_1 with
  | zero => simp [SSD1306_DrawCircle_loop] at h
  | succ n ih =>
    simp only [SSD1306_DrawCircle_loop] at h
    split at h
    · exact absurd h (by simp)
    · next t1 h1 =>
      split at h
      · exact absurd h (by simp)
      · next t2 h2 =>
        split at h
        · exact absurd h (by simp)
        · next t3 h3 =>
          split at h
          · exact absurd h (by simp)
          · next t4 h4 =>
            have hp : Paints d t4 :=
              (((DrawPixel_paints _ _ _ _ _ h1).andThen (DrawPixel_paints _ _ _ _ _ h2)).andThen
                (DrawPixel_paints _ _ _ _ _ h3)).andThen (DrawPixel_paints _ _ _ _ _ h4)
            rcases ite_some_or _ _ _ _ h with h5 | h5
            · exact hp.andThen (ih _ _ _ _ h5)
            · rw [← h5]
              exact hp

theorem DrawCircle_paints (fuel : Nat) (d d1 : SSD1306_t) (x y radius : Nat)
    (color : SSD1306_Color_t) (h : SSD1306_DrawCircle fuel d x y radius color = some d1) :
    Paints d d1 := by
  unfold SSD1306_DrawCircle at h
  split at h
  · simp only [Option.some.injEq] at h
    subst h
    exact Paints.unchanged d
  · exact DrawCircle_loop_paints _ _ _ _ _ _ _ _ _ h

theorem DrawRectangle_paints (fuel : Nat) (d d1 : SSD1306_t) (x1 y1 x2 y2 : Nat)
    (color : SSD1306_Color_t) (h : SSD1306_DrawRectangle fuel d x1 y1 x2 y2 color = some d1) :
    Paints d d1 := by
  unfold SSD1306_DrawRectangle at h
  split at h
  · exact absurd h (by simp)
  · next t1 h1 =>
    split at h
    · exact absurd h (by simp)
    · next t2 h2 =>
      split at h
      · exact absurd h (by simp)
      · next t3 h3 =>
        exact (((DrawLine_paints _ _ _ _ _ _ _ _ h1).andThen (DrawLine_paints _ _ _ _ _ _ _ _ h2)).andThen
          (DrawLine_paints _ _ _ _ _ _ _ _ h3)).andThen (DrawLine_paints _ _ _ _ _ _ _ _ h)

/-! ## Dirty tracking over sequences of operations -/

/-- Every public operation other than `SSD1306_UpdateScreen` keeps the
geometry and the buffer length, and leaves the handle dirty unless buffer
and flag are both as before. -/
theorem Op_draw_mutates (op : Op) (d d1 : SSD1306_t) (hop : op ≠ Op.UpdateScreen)
    (h : op.draw d = some d1) : Mutates d d1 := by
  cases op with
  | DrawPixel x y color => exact (DrawPixel_paints _ _ _ _ _ h).mutates
  | Fill color => exact Fill_mutates _ _ _ h
  | FillBuffer buf len => exact FillBuffer_mutates _ _ _ _ h
  | DrawChar START ch font color =>
    simp only [Op.draw, Option.map_eq_some', Prod.exists, exists_and_right, exists_eq_right] at h
    obtain ⟨r, hr⟩ := h
    exact DrawChar_mutates _ _ _ _ _ _ _ hr
  | DrawString START str font color =>
    simp only [Op.draw, Option.map_eq_some', Prod.exists, exists_and_right, exists_eq_right] at h
    obtain ⟨r, hr⟩ := h
    exact DrawString_mutates _ _ _ _ _ _ _ hr
  | DrawBitmap bitmap color => exact DrawBitmap_mutates _ _ _ _ h
  | SetCursor x y =>
    simp only [Op.draw, Option.some.injEq] at h
    subst h
    exact ⟨rfl, rfl, rfl, rfl, Or.inr ⟨rfl, rfl⟩⟩
  | DrawLine fuel x1 y1 x2 y2 color => exact (DrawLine_paints _ _ _ _ _ _ _ _ h).mutates
  | DrawPolyline fuel par_vertex par_size color =>
    exact (DrawPolyline_paints _ _ _ _ _ _ h).mutates
  | DrawCircle fuel x y radius color => exact (DrawCircle_paints _ _ _ _ _ _ _ h).mutates
  | DrawRectangle fuel x1 y1 x2 y2 color =>
    exact (DrawRectangle_paints _ _ _ _ _ _ _ _ h).mutates
  | UpdateScreen => exact absurd rfl hop

/-- One operation keeps: a well sized handle, and on a clean handle a buffer
equal to what was last transmitted. -/
theorem System_step_invariant (s s1 : System) (op : Op) (hstep : s.step op = some s1)
    (h8 : s.dev.height % 8 = 0) (hlen : s.dev.buffer.length = s.dev.width * s.dev.height / 8)
    (hu8 : s.dev.height < 256) (hinv : s.dev.is_dirty = 0 → s.dev.buffer = s.shown) :
    s1.dev.height % 8 = 0 ∧ s1.dev.buffer.length = s1.dev.width * s1.dev.height / 8 ∧
    s1.dev.height < 256 ∧ (s1.dev.is_dirty = 0 → s1.dev.buffer = s1.shown) := by
  by_cases hop : op = Op.UpdateScreen
  · subst hop
    simp only [System.step] at hstep
    by_cases hd : s.dev.is_dirty = 0
    · rw [UpdateScreen_clean s.dev hd] at hstep
      simp only [hd, if_true, Option.some.injEq] at hstep
      subst hstep
      exact ⟨h8, hlen, hu8, hinv⟩
    · have hpay := payload_pageSequence s.dev h8 hlen
      rw [UpdateScreen_dirty s.dev hd (by rw [hlen, pages_exact _ _ h8]) hu8] at hstep
      simp only [hd, if_false, Option.some.injEq] at hstep
      subst hstep
      exact ⟨h8, hlen, hu8, fun _ => hpay.symm⟩
  · have hdraw : ∃ d, op.draw s.dev = some d ∧ s1 = { dev := d, shown := s.shown } := by
      cases op <;> first
        | exact absurd rfl hop
        | (simp only [System.step] at hstep
           split at hstep
           · exact absurd hstep (by simp)
           · next d hd => exact ⟨d, hd, (Option.some.inj hstep).symm⟩)
    obtain ⟨d, hd, rfl⟩ := hdraw
    have hm := Op_draw_mutates op s.dev d hop hd
    refine ⟨by rw [hm.height]; exact h8, by rw [hm.length, hm.width, hm.height]; exact hlen,
      by rw [hm.height]; exact hu8, ?_⟩
    intro hclean
    rcases hm.dirty with h1 | ⟨hb, hdirty⟩
    · exact absurd (hclean.symm.trans h1) (by decide)
    · exact hb.trans (hinv (hdirty.symm.trans hclean))

/-- C5, as stated, fails: after `SSD1306_Initialize` with width 8 and height
12 (one page of 8 rows, buffer of 12 bytes), `SSD1306_DrawPixel (0, 8, WHITE)`
followed by `SSD1306_UpdateScreen` leaves `is_dirty = 0` while the buffer
holds the new pixel in byte 8 and the 8 bytes transmitted do not. -/
theorem C5_counterexample :
    ∃ s0 s, System.init 0x3C 8 12 0 0 0 0 = some s0 ∧
      s0.run [Op.DrawPixel 0 8 SSD1306_COLOR_WHITE, Op.UpdateScreen] = some s ∧
      s.dev.is_dirty = 0 ∧
      s.dev.buffer = [0, 0, 0, 0, 0, 0, 0, 0, 1, 0, 0, 0] ∧
      s.shown = [0, 0, 0, 0, 0, 0, 0, 0] ∧
      s.dev.buffer ≠ s.shown :=
  ⟨_, _, rfl, rfl, rfl, rfl, rfl, by decide⟩

/-- A run of operations keeps the invariant of `System_step_invariant`. -/
theorem System_run_invariant (ops : List Op) (s s1 : System) (hrun : s.run ops = some s1)
    (h8 : s.dev.height % 8 = 0) (hlen : s.dev.buffer.length = s.dev.width * s.dev.height / 8)
    (hu8 : s.dev.height < 256) (hinv : s.dev.is_dirty = 0 → s.dev.buffer = s.shown) :
    s1.dev.is_dirty = 0 → s1.dev.buffer = s1.shown := by
  induction ops generalizing s with
  | nil =>
    simp only [System.run, Option.some.injEq] at hrun
    subst hrun
    exact hinv
  | cons op rest ih =>
    simp only [System.run] at hrun
    split at hrun
    · exact absurd hrun (by simp)
    · next t ht =>
      obtain ⟨a, b, c, d⟩ := System_step_invariant s t op ht h8 hlen hu8 hinv
      exact ih t hrun a b c d

/-- With `uint8_t` arguments and a height that is a multiple of 8,
`SSD1306_Initialize` returns a clean, well sized handle whose buffer is what
the flush at the end of the bring-up has sent. -/
theorem System_init_spec (address width height offset_x should_mirrror_vertical
    should_mirrror_horizontal should_inverse_color : Nat)
    (hw : width < 256) (hh : height < 256) (h8 : height % 8 = 0) :
    ∃ s0, System.init address width height offset_x should_mirrror_vertical
        should_mirrror_horizontal should_inverse_color = some s0 ∧
      s0.dev.height % 8 = 0 ∧ s0.dev.buffer.length = s0.dev.width * s0.dev.height / 8 ∧
      s0.dev.height < 256 ∧ s0.dev.is_dirty = 0 ∧ s0.dev.buffer = s0.shown := by
  have hsize : width * height / 8 % 65536 = width * height / 8 := by
    apply Nat.mod_eq_of_lt
    have : width * height ≤ 255 * 255 := Nat.mul_le_mul (by omega) (by omega)
    omega
  have hlen0 : (SSD1306_Initialize_fields address width height offset_x should_mirrror_vertical
      should_mirrror_horizontal should_inverse_color).buffer.length = width * height / 8 := by
    simp [SSD1306_Initialize_fields, hsize]
  have hfill := Fill_eq (SSD1306_Initialize_fields address width height offset_x
    should_mirrror_vertical should_mirrror_horizontal should_inverse_color) SSD1306_COLOR_BLACK
    (by simp [SSD1306_Initialize_fields])
  obtain ⟨d1, hd1⟩ : ∃ d1 : SSD1306_t, d1 = { SSD1306_Initialize_fields address width height
      offset_x should_mirrror_vertical should_mirrror_horizontal should_inverse_color with
      buffer := List.replicate (width * height / 8) 0, is_dirty := 1 } := ⟨_, rfl⟩
  have hfill1 : SSD1306_Fill (SSD1306_Initialize_fields address width height offset_x
      should_mirrror_vertical should_mirrror_horizontal should_inverse_color)
      SSD1306_COLOR_BLACK = some d1 := by
    rw [hfill, hd1]
    simp [SSD1306_Initialize_fields, hsize]
  have hw1 : d1.width = width := by rw [hd1]; rfl
  have hh1 : d1.height = height := by rw [hd1]; rfl
  have hb1 : d1.buffer.length = d1.width * d1.height / 8 := by
    rw [hw1, hh1, hd1]; simp
  have hdirty1 : d1.is_dirty = 1 := by rw [hd1]
  have hflush := UpdateScreen_dirty d1 (by rw [hdirty1]; decide)
    (by rw [hb1, hh1, pages_exact _ _ h8]) (by rw [hh1]; exact hh)
  have hpay := payload_pageSequence d1 (by rw [hh1]; exact h8) hb1
  have hscript : payload (SSD1306_Initialize_script height should_mirrror_vertical
      should_mirrror_horizontal should_inverse_color) = [] := by
    simp [SSD1306_Initialize_script, payload_append, payload, SSD1306_SetDisplayOn,
      SSD1306_SetContrast]
  have hinit : System.init address width height offset_x should_mirrror_vertical
      should_mirrror_horizontal should_inverse_color =
      some { dev := { d1 with is_dirty := 0, cur_x := 0, cur_y := 0, is_initialized := 1 },
             shown := payload (SSD1306_Initialize_script height should_mirrror_vertical
               should_mirrror_horizontal should_inverse_color ++ pageSequence d1) } := by
    unfold System.init SSD1306_Initialize
    rw [hfill1]
    dsimp only
    rw [hflush]
  rw [payload_append, hscript, hpay, List.nil_append] at hinit
  refine ⟨_, hinit, ?_, ?_, ?_, rfl, rfl⟩
  · show d1.height % 8 = 0
    rw [hh1]; exact h8
  · exact hb1
  · show d1.height < 256
    rw [hh1]; exact hh

/-- C5, amended: after `SSD1306_Initialize` with a height that is a multiple
of 8 (arguments in their `uint8_t` range) and any sequence of public
operations, a handle with `is_dirty = 0` has a buffer byte-for-byte equal to
the data most recently transmitted by `SSD1306_UpdateScreen`.  For every
handle, an operation other than `SSD1306_UpdateScreen` that changes the
buffer leaves `is_dirty = 1`, and none of them clears `is_dirty`. -/
theorem C5_clean_buffer_is_shown (address width height offset_x should_mirrror_vertical
    should_mirrror_horizontal should_inverse_color : Nat)
    (hw : width < 256) (hh : height < 256) (h8 : height % 8 = 0) :
    (∃ s0, System.init address width height offset_x should_mirrror_vertical
        should_mirrror_horizontal should_inverse_color = some s0 ∧
      ∀ ops s, s0.run ops = some s → s.dev.is_dirty = 0 → s.dev.buffer = s.shown) ∧
    (∀ (op : Op) (d d1 : SSD1306_t), op ≠ Op.UpdateScreen → op.draw d = some d1 →
      (d1.buffer ≠ d.buffer → d1.is_dirty = 1) ∧ (d.is_dirty ≠ 0 → d1.is_dirty ≠ 0)) := by
  constructor
  · obtain ⟨s0, hs0, a, b, c, hclean, hshown⟩ := System_init_spec address width height offset_x
      should_mirrror_vertical should_mirrror_horizontal should_inverse_color hw hh h8
    exact ⟨s0, hs0, fun ops s hrun => System_run_invariant ops s0 s hrun a b c (fun _ => hshown)⟩
  · intro op d d1 hop hdraw
    have hm := Op_draw_mutates op d d1 hop hdraw
    constructor
    · intro hne
      rcases hm.dirty with h | ⟨hb, _⟩
      · exact h
      · exact absurd hb hne
    · intro hd
      rcases hm.dirty with h | ⟨_, h⟩
      · rw [h]; decide
      · rw [h]; exact hd

/-- C5, amended, on a 4 x 16 device: bring-up, then a pixel write, a fill, a
flush and a cursor move. -/
theorem C5_clean_buffer_is_shown_witness :
    System.init 0x3C 4 16 0 0 0 0 = some sampleInit ∧
    sampleInit.run [Op.DrawPixel 1 9 SSD1306_COLOR_WHITE, Op.Fill SSD1306_COLOR_WHITE,
      Op.UpdateScreen, Op.SetCursor 1 1] = some sampleFinal ∧
    sampleFinal.dev.is_dirty = 0 ∧ sampleFinal.dev.buffer = sampleFinal.shown := by
  obtain ⟨s0, hs0, hall⟩ :=
    (C5_clean_buffer_is_shown 0x3C 4 16 0 0 0 0 (by decide) (by decide) (by decide)).1
  have hv : System.init 0x3C 4 16 0 0 0 0 = some sampleInit := rfl
  have hs0v : s0 = sampleInit := Option.some.inj (hs0.symm.trans hv)
  subst hs0v
  have hrun : sampleInit.run [Op.DrawPixel 1 9 SSD1306_COLOR_WHITE, Op.Fill SSD1306_COLOR_WHITE,
      Op.UpdateScreen, Op.SetCursor 1 1] = some sampleFinal := rfl
  exact ⟨hv, hrun, rfl, hall _ sampleFinal hrun rfl⟩

/-! ## Special glyph bank -/

/-- A full bank: `SSD1606Font_AddSpecialChar` returns 0 and the font it was
given. -/
theorem AddSpecialChar_full (START MAX : Nat) (font : SSD1306_Font_t) (s_char : List Nat)
    (h : font.s_data_amount ≥ MAX) :
    SSD1606Font_AddSpecialChar START MAX font s_char = some (font, 0) := by
  unfold SSD1606Font_AddSpecialChar
  rw [if_pos h]

/-- A returning `SSD1606Font_AddSpecialChar` leaves a count that is the old
one or the old one plus one, and at most `MAX` when it started at most
`MAX`. -/
theorem AddSpecialChar_count (START MAX : Nat) (font font1 : SSD1306_Font_t)
    (s_char : List Nat) (code : Nat)
    (h : SSD1606Font_AddSpecialChar START MAX font s_char = some (font1, code)) :
    (font.s_data_amount ≥ MAX ∧ font1 = font ∧ code = 0) ∨
    (font.s_data_amount < MAX ∧ font1.s_data_amount = font.s_data_amount + 1) := by
  unfold SSD1606Font_AddSpecialChar at h
  split at h
  · next hfull =>
    simp only [Option.some.injEq, Prod.mk.injEq] at h
    exact Or.inl ⟨hfull, h.1.symm, h.2.symm⟩
  · next hroom =>
    split at h
    · exact absurd h (by simp)
    · simp only [Option.some.injEq, Prod.mk.injEq] at h
      refine Or.inr ⟨by omega, ?_⟩
      rw [← h.1]

/-- C18: with `s_data_amount >= MAX`, `SSD1606Font_AddSpecialChar` returns the
sentinel 0 and the font it was given.  Over any sequence of calls that
starts with `s_data_amount <= MAX` the count stays at most `MAX`; when it
starts at `MAX` the font stays as it is and every call returns 0. -/
theorem C18_AddSpecialChar_capacity (START MAX : Nat) (font : SSD1306_Font_t) :
    (∀ s_char, font.s_data_amount ≥ MAX →
      SSD1606Font_AddSpecialChar START MAX font s_char = some (font, 0)) ∧
    (∀ glyphs font1 codes, font.s_data_amount ≤ MAX →
      AddSpecialChar_each START MAX font glyphs = some (font1, codes) →
      font1.s_data_amount ≤ MAX) ∧
    (∀ glyphs, font.s_data_amount = MAX →
      AddSpecialChar_each START MAX font glyphs =
        some (font, List.replicate glyphs.length 0)) := by
  refine ⟨fun s_char h => AddSpecialChar_full START MAX font s_char h, ?_, ?_⟩
  · intro glyphs
    induction glyphs generalizing font with
    | nil =>
      intro font1 codes hle h
      simp only [AddSpecialChar_each, Option.some.injEq, Prod.mk.injEq] at h
      rw [← h.1]
      exact hle
    | cons g rest ih =>
      intro font1 codes hle h
      simp only [AddSpecialChar_each] at h
      split at h
      · exact absurd h (by simp)
      · next f1 code hf1 =>
        split at h
        · exact absurd h (by simp)
        · next f2 cs hf2 =>
          simp only [Option.some.injEq, Prod.mk.injEq] at h
          rw [← h.1]
          refine ih f1 f2 cs ?_ hf2
          rcases AddSpecialChar_count START MAX font f1 g code hf1 with ⟨_, he, _⟩ | ⟨hlt, he⟩
          · rw [he]; exact hle
          · omega
  · intro glyphs hfull
    induction glyphs with
    | nil => rfl
    | cons g rest ih =>
      simp only [AddSpecialChar_each, AddSpecialChar_full START MAX font g (by omega), ih,
        List.length_cons, List.replicate_succ]

/-- C18 on `sampleFont` with a capacity of one glyph: the bank is full, two
further calls return 0 and leave the font as it is. -/
theorem C18_AddSpecialChar_capacity_witness :
    AddSpecialChar_each 1 1 sampleFont [[1, 2], [3, 4]] = some (sampleFont, [0, 0]) :=
  (C18_AddSpecialChar_capacity 1 1 sampleFont).2.2 [[1, 2], [3, 4]] rfl

/-- The copy loop of `SSD1606Font_AddSpecialChar` on arrays that hold the
rows: it returns, and the `count` entries from `off` on are the rows of
`s_char`, all others as before. -/
theorem AddSpecialChar_loop (s_char s_data : List Nat) (off count : Nat)
    (hrows : count ≤ s_char.length) (hroom : off + count ≤ s_data.length) :
    ∃ s1, forLoop (fun i (s : List Nat) =>
        match s_char[i]? with
        | none => none
        | some row => if off + i < s.length then some (s.set (off + i) row) else none)
        count 0 s_data = some s1 ∧
      s1.length = s_data.length ∧
      ∀ k, s1[k]? = if off ≤ k ∧ k < off + count then s_char[k - off]? else s_data[k]? := by
  have key := forLoop_total
    (fun i (s : List Nat) =>
      match s_char[i]? with
      | none => none
      | some row => if off + i < s.length then some (s.set (off + i) row) else none)
    (fun i (s : List Nat) => s.length = s_data.length ∧
      ∀ k, s[k]? = if off ≤ k ∧ k < off + i then s_char[k - off]? else s_data[k]?)
    count 0 s_data ⟨rfl, fun k => by rw [if_neg (by omega)]⟩ ?_
  · simpa using key
  · intro i s _ hi hP
    obtain ⟨hlen, hget⟩ := hP
    obtain ⟨row, hrow⟩ : ∃ row, s_char[i]? = some row :=
      ⟨_, List.getElem?_eq_getElem (show i < s_char.length by omega)⟩
    refine ⟨s.set (off + i) row, ?_, by simpa using hlen, ?_⟩
    · simp only [hrow]
      rw [if_pos (by omega)]
    · intro k
      by_cases hk : k = off + i
      · subst hk
        rw [if_pos ⟨by omega, by omega⟩, show off + i - off = i by omega, hrow]
        simp [List.getElem?_set, hlen]
        omega
      · rw [List.getElem?_set_ne (Ne.symm hk), hget k]
        by_cases hin : off ≤ k ∧ k < off + i
        · rw [if_pos hin, if_pos ⟨hin.1, by omega⟩]
        · rw [if_neg hin, if_neg (by omega)]

/-- C19: with `s_data_amount = n < MAX`, arrays that hold the rows, and
special codes that lie below the fixed bank (`START + MAX <= 32`),
`SSD1606Font_AddSpecialChar` returns the code `START + n`, sets the count to
`n + 1`, stores the rows of `s_char` at `s_data[n * char_height ..
(n + 1) * char_height)`, and leaves every other row of the special bank,
the fixed bank and the glyph size as they were; the lookup of
`SSD1306_DrawChar` resolves the returned code to the rows just stored. -/
theorem C19_AddSpecialChar_appends (START MAX : Nat) (font : SSD1306_Font_t)
    (s_char : List Nat) (hn : font.s_data_amount < MAX) (hcodes : START + MAX ≤ 32)
    (hrows : font.char_height ≤ s_char.length)
    (hroom : (font.s_data_amount + 1) * font.char_height ≤ font.s_data.length)
    (hoff : font.s_data.length < 65536) :
    ∃ font1, SSD1606Font_AddSpecialChar START MAX font s_char =
        some (font1, START + font.s_data_amount) ∧
      font1.s_data_amount = font.s_data_amount + 1 ∧
      (∀ i, i < font.char_height →
        font1.s_data[font.s_data_amount * font.char_height + i]? = s_char[i]?) ∧
      (∀ k, k < font.s_data_amount * font.char_height → font1.s_data[k]? = font.s_data[k]?) ∧
      (∀ k, (font.s_data_amount + 1) * font.char_height ≤ k →
        font1.s_data[k]? = font.s_data[k]?) ∧
      font1.data = font.data ∧ font1.char_width = font.char_width ∧
      font1.char_height = font.char_height ∧
      char_start START (START + font.s_data_amount) font1 =
        some (font1.s_data, font.s_data_amount * font1.char_height) := by
  have hmul : (font.s_data_amount + 1) * font.char_height =
      font.s_data_amount * font.char_height + font.char_height := by ring
  have hmod : font.s_data_amount * font.char_height % 65536 =
      font.s_data_amount * font.char_height := Nat.mod_eq_of_lt (by omega)
  obtain ⟨s1, hloop, hlen, hget⟩ := AddSpecialChar_loop s_char font.s_data
    (font.s_data_amount * font.char_height) font.char_height hrows (by omega)
  refine ⟨{ font with s_data := s1, s_data_amount := font.s_data_amount + 1 }, ?_, rfl, ?_, ?_,
    ?_, rfl, rfl, rfl, ?_⟩
  · unfold SSD1606Font_AddSpecialChar
    rw [if_neg (by omega), hmod, hloop]
    have hret : (font.s_data_amount + 1 - 1 + START) % 256 = START + font.s_data_amount := by
      rw [Nat.mod_eq_of_lt (by omega)]
      omega
    simp only [hret]
  · intro i hi
    show s1[font.s_data_amount * font.char_height + i]? = s_char[i]?
    rw [hget, if_pos ⟨by omega, by omega⟩]
    congr 1
    omega
  · intro k hk
    show s1[k]? = font.s_data[k]?
    rw [hget, if_neg (by omega)]
  · intro k hk
    show s1[k]? = font.s_data[k]?
    rw [hget, if_neg (by omega)]
  · unfold char_start
    rw [if_neg (by omega), if_pos (by omega), if_neg (by simp only []; omega)]
    simp

/-- C19 on `sampleBank` with the special-start offset 1 and a capacity of
three glyphs: the second glyph gets the code 2. -/
theorem C19_AddSpecialChar_appends_witness :
    ∃ font1, SSD1606Font_AddSpecialChar 1 3 sampleBank [0x4000, 0xE000] = some (font1, 2) ∧
      font1.s_data_amount = 2 ∧
      font1.s_data[2]? = some 0x4000 ∧ font1.s_data[3]? = some 0xE000 ∧
      font1.s_data[0]? = some 0xE000 ∧
      char_start 1 2 font1 = some (font1.s_data, 2) := by
  obtain ⟨font1, h1, h2, h3, h4, _, _, _, h8, h9⟩ :=
    C19_AddSpecialChar_appends 1 3 sampleBank [0x4000, 0xE000] (by decide) (by decide)
      (by decide) (by decide) (by decide)
  refine ⟨font1, h1, h2, h3 0 (by decide), h3 1 (by decide), h4 0 (by decide), ?_⟩
  rw [h8] at h9
  exact h9

/-! ## Strings -/

/-- A character that does not fit at the cursor or has no glyph: the call
returns 0 and the handle it was given. -/
theorem DrawChar_fails (START : Nat) (dev : SSD1306_t) (ch : Nat) (font : SSD1306_Font_t)
    (color : SSD1306_Color_t)
    (h : dev.width < dev.cur_x + font.char_width ∨ dev.height < dev.cur_y + font.char_height ∨
      char_start START ch font = none) :
    SSD1306_DrawChar START dev ch font color = some (dev, 0) := by
  unfold SSD1306_DrawChar
  by_cases hfit : dev.width < dev.cur_x + font.char_width ∨
      dev.height < dev.cur_y + font.char_height
  · rw [if_pos hfit]
  · rw [if_neg hfit]
    rcases h with h | h | h
    · exact absurd (Or.inl h) hfit
    · exact absurd (Or.inr h) hfit
    · rw [h]

/-- A character that fits at the cursor and has a glyph: every returning
call returns the character, advances `cur_x` by `char_width`, keeps `cur_y`
and otherwise only writes the buffer. -/
theorem DrawChar_drawn (START : Nat) (dev d : SSD1306_t) (ch r : Nat) (font : SSD1306_Font_t)
    (color : SSD1306_Color_t)
    (hfx : dev.cur_x + font.char_width ≤ dev.width)
    (hfy : dev.cur_y + font.char_height ≤ dev.height)
    (hglyph : char_start START ch font ≠ none) (hw : dev.width < 256)
    (h : SSD1306_DrawChar START dev ch font color = some (d, r)) :
    r = ch ∧ d.cur_x = dev.cur_x + font.char_width ∧ d.cur_y = dev.cur_y ∧ Mutates dev d := by
  have hm := DrawChar_mutates START dev d ch r font color h
  unfold SSD1306_DrawChar at h
  rw [if_neg (by omega)] at h
  split at h
  · next hnone => exact absurd hnone hglyph
  · split at h
    · exact absurd h (by simp)
    · next t ht =>
      simp only [Option.some.injEq, Prod.mk.injEq] at h
      have hp := DrawChar_paint_paints _ _ _ _ _ _ ht
      refine ⟨h.2.symm, ?_, ?_, hm⟩
      · rw [← h.1]
        show (t.cur_x + font.char_width) % 256 = dev.cur_x + font.char_width
        rw [hp.cur_x]
        exact Nat.mod_eq_of_lt (by omega)
      · rw [← h.1]
        exact hp.cur_y

/-- On a well sized handle, a character that fits at the cursor and whose
glyph rows lie inside their bank is drawn: the call returns. -/
theorem DrawChar_total (START : Nat) (dev : SSD1306_t) (ch : Nat) (font : SSD1306_Font_t)
    (color : SSD1306_Color_t)
    (hh : dev.height % 8 = 0) (hlen : dev.buffer.length = dev.width * dev.height / 8)
    (hrows : ∀ bank off, char_start START ch font = some (bank, off) →
      off + font.char_height ≤ bank.length) :
    ∃ d r, SSD1306_DrawChar START dev ch font color = some (d, r) := by
  unfold SSD1306_DrawChar
  split
  · exact ⟨_, _, rfl⟩
  · split
    · exact ⟨_, _, rfl⟩
    · next bank off hstart =>
      obtain ⟨d1, hd1⟩ := DrawChar_paint_total dev bank off font color hh hlen
        (hrows bank off hstart)
      rw [hd1]
      exact ⟨_, _, rfl⟩

/-- Characters that all have a glyph and fit side by side at the cursor: the
successive `SSD1306_DrawChar` calls, when they return, advance `cur_x` by
`char_width` each and otherwise only write the buffer. -/
theorem DrawChar_each_spec (START : Nat) (font : SSD1306_Font_t) (color : SSD1306_Color_t)
    (str : List Nat) (dev d : SSD1306_t)
    (hglyph : ∀ c ∈ str, char_start START c font ≠ none)
    (hfx : dev.cur_x + str.length * font.char_width ≤ dev.width)
    (hfy : str = [] ∨ dev.cur_y + font.char_height ≤ dev.height) (hw : dev.width < 256)
    (h : DrawChar_each START font color dev str = some d) :
    d.cur_x = dev.cur_x + str.length * font.char_width ∧ d.cur_y = dev.cur_y ∧
      Mutates dev d := by
  induction str generalizing dev with
  | nil =>
    simp only [DrawChar_each, Option.some.injEq] at h
    subst h
    exact ⟨by simp, rfl, Mutates.same dev⟩
  | cons c rest ih =>
    have hfy1 : dev.cur_y + font.char_height ≤ dev.height := by
      rcases hfy with h0 | h0
      · exact absurd h0 (by simp)
      · exact h0
    have hlen1 : (c :: rest).length * font.char_width =
        font.char_width + rest.length * font.char_width := by
      simp only [List.length_cons]; ring
    simp only [DrawChar_each] at h
    split at h
    · exact absurd h (by simp)
    · next t r ht =>
      obtain ⟨_, hx, hy, hm⟩ := DrawChar_drawn START dev t c r font color (by omega) hfy1
        (hglyph c (List.mem_cons_self c rest)) hw ht
      obtain ⟨hx2, hy2, hm2⟩ := ih t (fun x hx => hglyph x (List.mem_cons_of_mem c hx))
        (by rw [hx, hm.width]; omega) (Or.inr (by rw [hy, hm.height]; exact hfy1))
        (by rw [hm.width]; exact hw) h
      exact ⟨by rw [hx2, hx]; omega, hy2.trans hy, hm.followedBy hm2⟩

/-- The successive `SSD1306_DrawChar` calls return on a well sized handle
when every glyph row read lies inside its bank. -/
theorem DrawChar_each_total (START : Nat) (font : SSD1306_Font_t) (color : SSD1306_Color_t)
    (str : List Nat) (dev : SSD1306_t)
    (hh : dev.height % 8 = 0) (hlen : dev.buffer.length = dev.width * dev.height / 8)
    (hrows : ∀ c ∈ str, ∀ bank off, char_start START c font = some (bank, off) →
      off + font.char_height ≤ bank.length) :
    ∃ d, DrawChar_each START font color dev str = some d := by
  induction str generalizing dev with
  | nil => exact ⟨dev, rfl⟩
  | cons c rest ih =>
    obtain ⟨t, r, ht⟩ := DrawChar_total START dev c font color hh hlen
      (hrows c (List.mem_cons_self c rest))
    have hm := DrawChar_mutates START dev t c r font color ht
    obtain ⟨d, hd⟩ := ih t (by rw [hm.height]; exact hh)
      (by rw [hm.length, hm.width, hm.height]; exact hlen)
      (fun x hx => hrows x (List.mem_cons_of_mem c hx))
    exact ⟨d, by simp only [DrawChar_each, ht]; exact hd⟩

/-- A string that starts with characters that are not NUL, have a glyph and
fit side by side at the cursor: `SSD1306_DrawString` draws them one by one
and goes on with the rest of the string. -/
theorem DrawString_prefix (START : Nat) (font : SSD1306_Font_t) (color : SSD1306_Color_t)
    (pre rest : List Nat) (dev : SSD1306_t)
    (hnul : ∀ c ∈ pre, c ≠ 0) (hglyph : ∀ c ∈ pre, char_start START c font ≠ none)
    (hfx : dev.cur_x + pre.length * font.char_width ≤ dev.width)
    (hfy : pre = [] ∨ dev.cur_y + font.char_height ≤ dev.height) (hw : dev.width < 256) :
    SSD1306_DrawString START font color dev (pre ++ rest) =
      (DrawChar_each START font color dev pre).bind
        (fun d => SSD1306_DrawString START font color d rest) := by
  induction pre generalizing dev with
  | nil => rfl
  | cons c cs ih =>
    have hfy1 : dev.cur_y + font.char_height ≤ dev.height := by
      rcases hfy with h0 | h0
      · exact absurd h0 (by simp)
      · exact h0
    have hlen1 : (c :: cs).length * font.char_width =
        font.char_width + cs.length * font.char_width := by
      simp only [List.length_cons]; ring
    have hc0 : c ≠ 0 := hnul c (List.mem_cons_self c cs)
    simp only [List.cons_append, SSD1306_DrawString, DrawChar_each, if_neg hc0]
    cases ht : SSD1306_DrawChar START dev c font color with
    | none => rfl
    | some p =>
      obtain ⟨t, r⟩ := p
      obtain ⟨hr, hx, hy, hm⟩ := DrawChar_drawn START dev t c r font color (by omega) hfy1
        (hglyph c (List.mem_cons_self c cs)) hw ht
      simp only [hr, ne_eq, not_true_eq_false, if_false]
      exact ih t (fun x hx => hnul x (List.mem_cons_of_mem c hx))
        (fun x hx => hglyph x (List.mem_cons_of_mem c hx))
        (by rw [hx, hm.width]; omega) (Or.inr (by rw [hy, hm.height]; exact hfy1))
        (by rw [hm.width]; exact hw)

/-- The lookup of `SSD1306_DrawChar` on the codes `32 .. 126`. -/
theorem char_start_fixed (START : Nat) (font : SSD1306_Font_t) (c : Nat) (h1 : 32 ≤ c)
    (h2 : c ≤ 126) : char_start START c font = some (font.data, (c - 32) * font.char_height) := by
  unfold char_start
  rw [if_neg (by omega), if_neg (by omega)]

/-- C11: for a string of `n` characters, all in `32 .. 126`, with
`cur_x + n * char_width <= width` and `cur_y + char_height <= height`
(`width` in its `uint8_t` range), every returning `SSD1306_DrawString` call
returns 0, advances `cur_x` by exactly `n * char_width`, keeps `cur_y`, and
leaves the handle that `n` successive `SSD1306_DrawChar` calls leave.  The
call returns when the handle is well sized (height a multiple of 8, buffer
of `width * height / 8` bytes) and the fixed bank holds its 95 glyphs. -/
theorem C11_DrawString_all_drawn (START : Nat) (dev : SSD1306_t) (str : List Nat)
    (font : SSD1306_Font_t) (color : SSD1306_Color_t)
    (hchars : ∀ c ∈ str, 32 ≤ c ∧ c ≤ 126)
    (hfx : dev.cur_x + str.length * font.char_width ≤ dev.width)
    (hfy : dev.cur_y + font.char_height ≤ dev.height) (hw : dev.width < 256) :
    (∀ d r, SSD1306_DrawString START font color dev str = some (d, r) →
      r = 0 ∧ d.cur_x = dev.cur_x + str.length * font.char_width ∧ d.cur_y = dev.cur_y ∧
      DrawChar_each START font color dev str = some d) ∧
    (dev.height % 8 = 0 → dev.buffer.length = dev.width * dev.height / 8 →
      95 * font.char_height ≤ font.data.length →
      ∃ d, SSD1306_DrawString START font color dev str = some (d, 0)) := by
  have hnul : ∀ c ∈ str, c ≠ 0 := fun c hc => by have := hchars c hc; omega
  have hglyph : ∀ c ∈ str, char_start START c font ≠ none := fun c hc => by
    rw [char_start_fixed START font c (hchars c hc).1 (hchars c hc).2]
    simp
  have hsplit := DrawString_prefix START font color str [] dev hnul hglyph hfx (Or.inr hfy) hw
  rw [List.append_nil] at hsplit
  constructor
  · intro d r h
    rw [hsplit] at h
    cases hd : DrawChar_each START font color dev str with
    | none => rw [hd] at h; exact absurd h (by simp)
    | some dk =>
      rw [hd] at h
      simp only [Option.some_bind, SSD1306_DrawString, Option.some.injEq, Prod.mk.injEq] at h
      obtain ⟨hx, hy, _⟩ := DrawChar_each_spec START font color str dev dk hglyph hfx
        (Or.inr hfy) hw hd
      rw [← h.1]
      exact ⟨h.2.symm, hx, hy, rfl⟩
  · intro h8 hlen hbank
    obtain ⟨dk, hd⟩ := DrawChar_each_total START font color str dev h8 hlen (by
      intro c hc bank off hstart
      rw [char_start_fixed START font c (hchars c hc).1 (hchars c hc).2] at hstart
      simp only [Option.some.injEq, Prod.mk.injEq] at hstart
      rw [← hstart.1, ← hstart.2]
      have h1 : (c - 32) * font.char_height + font.char_height = (c - 32 + 1) * font.char_height := by
        ring
      have h2 : (c - 32 + 1) * font.char_height ≤ 95 * font.char_height :=
        Nat.mul_le_mul_right _ (by have := hchars c hc; omega)
      omega)
    exact ⟨dk, by rw [hsplit, hd]; rfl⟩

/-- C11 on the string "Hi" with a 6 x 8 font at the origin of a 12 x 8
handle: the call returns 0 and leaves `cur_x = 12`. -/
theorem C11_DrawString_all_drawn_witness :
    ∃ d, SSD1306_DrawString 1 sampleFont6x8 SSD1306_COLOR_WHITE sampleDev12x8 [72, 105] =
        some (d, 0) ∧ d.cur_x = 12 ∧ d.cur_y = 0 := by
  have hthm := C11_DrawString_all_drawn 1 sampleDev12x8 [72, 105] sampleFont6x8
    SSD1306_COLOR_WHITE (by decide) (by decide) (by decide) (by decide)
  obtain ⟨d, hd⟩ := hthm.2 (by decide) (by decide)
    (by show 95 * 8 ≤ (List.replicate 760 0x8400).length; rw [List.length_replicate])
  obtain ⟨_, hx, hy, _⟩ := hthm.1 d 0 hd
  exact ⟨d, hd, hx, hy⟩

/-- C12: a string whose first `k` characters (`pre`) are not NUL, have a
glyph and fit side by side at the cursor, followed by a character `c` that
is not NUL and fails to draw there (it does not fit any more, or it has no
glyph).  Every returning `SSD1306_DrawString` call returns `c`, and the
handle is the one that the `k` successive `SSD1306_DrawChar` calls on `pre`
leave: `cur_x` advanced by `k * char_width`, `cur_y` unchanged, nothing of
`c` or of the characters after it drawn.  The call returns when the handle
is well sized and the glyph rows of `pre` lie inside their banks. -/
theorem C12_DrawString_stops_at_failure (START : Nat) (dev : SSD1306_t)
    (pre : List Nat) (c : Nat) (post : List Nat) (font : SSD1306_Font_t)
    (color : SSD1306_Color_t)
    (hnul : ∀ x ∈ pre, x ≠ 0) (hglyph : ∀ x ∈ pre, char_start START x font ≠ none)
    (hfx : dev.cur_x + pre.length * font.char_width ≤ dev.width)
    (hfy : pre = [] ∨ dev.cur_y + font.char_height ≤ dev.height)
    (hc : c ≠ 0)
    (hfail : dev.width < dev.cur_x + pre.length * font.char_width + font.char_width ∨
      dev.height < dev.cur_y + font.char_height ∨ char_start START c font = none)
    (hw : dev.width < 256) :
    (∀ d r, SSD1306_DrawString START font color dev (pre ++ c :: post) = some (d, r) →
      r = c ∧ d.cur_x = dev.cur_x + pre.length * font.char_width ∧ d.cur_y = dev.cur_y ∧
      DrawChar_each START font color dev pre = some d) ∧
    (dev.height % 8 = 0 → dev.buffer.length = dev.width * dev.height / 8 →
      (∀ x ∈ pre, ∀ bank off, char_start START x font = some (bank, off) →
        off + font.char_height ≤ bank.length) →
      ∃ d, SSD1306_DrawString START font color dev (pre ++ c :: post) = some (d, c)) := by
  have hsplit := DrawString_prefix START font color pre (c :: post) dev hnul hglyph hfx hfy hw
  have hstop : ∀ dk, DrawChar_each START font color dev pre = some dk →
      dk.cur_x = dev.cur_x + pre.length * font.char_width ∧ dk.cur_y = dev.cur_y ∧
      SSD1306_DrawString START font color dk (c :: post) = some (dk, c) := by
    intro dk hd
    obtain ⟨hx, hy, hm⟩ := DrawChar_each_spec START font color pre dev dk hglyph hfx hfy hw hd
    have hfail1 := DrawChar_fails START dk c font color (by
      rw [hx, hy, hm.width, hm.height]; exact hfail)
    refine ⟨hx, hy, ?_⟩
    simp only [SSD1306_DrawString, if_neg hc, hfail1]
    rw [if_pos (Ne.symm hc)]
  constructor
  · intro d r h
    rw [hsplit] at h
    cases hd : DrawChar_each START font color dev pre with
    | none => rw [hd] at h; exact absurd h (by simp)
    | some dk =>
      obtain ⟨hx, hy, hstr⟩ := hstop dk hd
      rw [hd, Option.some_bind, hstr] at h
      simp only [Option.some.injEq, Prod.mk.injEq] at h
      rw [← h.1]
      exact ⟨h.2.symm, hx, hy, rfl⟩
  · intro h8 hlen hrows
    obtain ⟨dk, hd⟩ := DrawChar_each_total START font color pre dev h8 hlen hrows
    exact ⟨dk, by rw [hsplit, hd, Option.some_bind]; exact (hstop dk hd).2.2⟩

/-- C12 on the string "Hi!" with a 6 x 8 font at the origin of a 12 x 8
handle: "H" and "i" are drawn, "!" does not fit, the call returns its code
33 and leaves `cur_x = 12`. -/
theorem C12_DrawString_stops_at_failure_witness :
    ∃ d, SSD1306_DrawString 1 sampleFont6x8 SSD1306_COLOR_WHITE sampleDev12x8 [72, 105, 33] =
        some (d, 33) ∧ d.cur_x = 12 ∧ d.cur_y = 0 ∧
      DrawChar_each 1 sampleFont6x8 SSD1306_COLOR_WHITE sampleDev12x8 [72, 105] = some d := by
  have hthm := C12_DrawString_stops_at_failure 1 sampleDev12x8 [72, 105] 33 [] sampleFont6x8
    SSD1306_COLOR_WHITE (by decide) (by decide) (by decide) (by decide) (by decide)
    (by decide) (by decide)
  obtain ⟨d, hd⟩ := hthm.2 (by decide) (by decide) (by
    intro x hx bank off hstart
    have hx2 : 32 ≤ x ∧ x ≤ 126 := by
      simp only [List.mem_cons, List.mem_singleton, List.not_mem_nil, or_false] at hx
      omega
    rw [char_start_fixed 1 sampleFont6x8 x hx2.1 hx2.2] at hstart
    simp only [Option.some.injEq, Prod.mk.injEq] at hstart
    rw [← hstart.1, ← hstart.2]
    show (x - 32) * 8 + 8 ≤ (List.replicate 760 0x8400).length
    rw [List.length_replicate]
    omega)
  obtain ⟨_, hx, hy, heach⟩ := hthm.1 d 33 hd
  exact ⟨d, hd, hx, hy, heach⟩

/-! ## Sequences of pixel writes in one colour -/

theorem plotAll_paints (color : SSD1306_Color_t) (ps : List (Nat × Nat)) (d d1 : SSD1306_t)
    (h : plotAll color d ps = some d1) : Paints d d1 := by
  induction ps generalizing d with
  | nil =>
    simp only [plotAll, Option.some.injEq] at h
    subst h
    exact Paints.unchanged d
  | cons p rest ih =>
    simp only [plotAll] at h
    split at h
    · exact absurd h (by simp)
    · next t ht => exact (DrawPixel_paints _ _ _ _ _ ht).andThen (ih t h)

/-- After pixel writes in one colour, an in-bounds pixel reads as that colour
when it is one of the coordinates written and as before when it is not. -/
theorem plotAll_pixelAt (color : SSD1306_Color_t) (ps : List (Nat × Nat)) (d d1 : SSD1306_t)
    (h : plotAll color d ps = some d1) (x y : Nat) (hx : x < d.width) (hy : y < d.height) :
    pixelAt d1 x y = if (x, y) ∈ ps then some color else pixelAt d x y := by
  induction ps generalizing d with
  | nil =>
    simp only [plotAll, Option.some.injEq] at h
    subst h
    simp
  | cons p rest ih =>
    simp only [plotAll] at h
    split at h
    · exact absurd h (by simp)
    · next t ht =>
      have hp := (DrawPixel_paints _ _ _ _ _ ht).mutates
      rw [ih t h (by rw [hp.width]; exact hx) (by rw [hp.height]; exact hy),
        DrawPixel_pixelAt d t p.1 p.2 color ht x y hx hy]
      by_cases hrest : (x, y) ∈ rest
      · simp [hrest]
      · by_cases hp1 : (x, y) = p
        · subst hp1
          simp
        · have hne : ¬ (x = p.1 ∧ y = p.2) := fun hc => hp1 (Prod.ext hc.1 hc.2)
          simp [hrest, hp1, hne]

/-- On a well sized handle every sequence of pixel writes returns. -/
theorem plotAll_total (color : SSD1306_Color_t) (ps : List (Nat × Nat)) (d : SSD1306_t)
    (hh : d.height % 8 = 0) (hlen : d.buffer.length = d.width * d.height / 8) :
    ∃ d1, plotAll color d ps = some d1 := by
  induction ps generalizing d with
  | nil => exact ⟨d, rfl⟩
  | cons p rest ih =>
    obtain ⟨t, ht⟩ := DrawPixel_total d p.1 p.2 color hh hlen
    have hp := (DrawPixel_paints _ _ _ _ _ ht).mutates
    obtain ⟨d1, hd1⟩ := ih t (by rw [hp.height]; exact hh)
      (by rw [hp.length, hp.width, hp.height]; exact hlen)
    exact ⟨d1, by simp only [plotAll, ht]; exact hd1⟩

theorem plotAll_append (color : SSD1306_Color_t) (ps qs : List (Nat × Nat)) (d : SSD1306_t) :
    plotAll color d (ps ++ qs) = (plotAll color d ps).bind (fun t => plotAll color t qs) := by
  induction ps generalizing d with
  | nil => rfl
  | cons p rest ih =>
    simp only [List.cons_append, plotAll]
    cases SSD1306_DrawPixel d p.1 p.2 color with
    | none => rfl
    | some t => exact ih t

/-! ## The line loop as a sequence of pixel writes -/

theorem states_bind_some (color : SSD1306_Color_t) (d t : SSD1306_t) (s0 : Nat × Nat × Int)
    (hp : SSD1306_DrawPixel d s0.1 s0.2.1 color = some t) (r : Option (List (Nat × Nat × Int))) :
    (r.bind fun a => plotAll color t (a.map (fun (s : Nat × Nat × Int) => (s.1, s.2.1)))) =
      ((match r with
        | none => none
        | some states => some (s0 :: states)).bind
        fun a => plotAll color d (a.map (fun (s : Nat × Nat × Int) => (s.1, s.2.1)))) := by
  cases r <;> simp [plotAll, hp]

theorem states_bind_none (color : SSD1306_Color_t) (d : SSD1306_t) (s0 : Nat × Nat × Int)
    (hp : SSD1306_DrawPixel d s0.1 s0.2.1 color = none) (r : Option (List (Nat × Nat × Int))) :
    (none : Option SSD1306_t) =
      ((match r with
        | none => none
        | some states => some (s0 :: states)).bind
        fun a => plotAll color d (a.map (fun (s : Nat × Nat × Int) => (s.1, s.2.1)))) := by
  cases r <;> simp [plotAll, hp]

theorem points_bind_some (color : SSD1306_Color_t) (d t : SSD1306_t) (p : Nat × Nat)
    (hp : SSD1306_DrawPixel d p.1 p.2 color = some t) (r : Option (List (Nat × Nat × Int))) :
    (r.bind fun a => plotAll color t (a.map (fun (s : Nat × Nat × Int) => (s.1, s.2.1)))) =
      ((match r with
        | none => none
        | some states => some (p :: states.map (fun (s : Nat × Nat × Int) => (s.1, s.2.1)))).bind
        (plotAll color d)) := by
  cases r <;> simp [plotAll, hp]

theorem points_bind_none (color : SSD1306_Color_t) (d : SSD1306_t) (p : Nat × Nat)
    (hp : SSD1306_DrawPixel d p.1 p.2 color = none) (r : Option (List (Nat × Nat × Int))) :
    (none : Option SSD1306_t) =
      ((match r with
        | none => none
        | some states => some (p :: states.map (fun (s : Nat × Nat × Int) => (s.1, s.2.1)))).bind
        (plotAll color d)) := by
  cases r <;> simp [plotAll, hp]

/-- The `while` loop of `SSD1306_DrawLine` writes the pixels of
`DrawLine_states`, in order. -/
theorem DrawLine_loop_eq (x2 y2 delta_x delta_y : Nat) (sign_x sign_y : Int)
    (color : SSD1306_Color_t) (fuel : Nat) (d : SSD1306_t) (x1 y1 : Nat) (error_1 : Int) :
    SSD1306_DrawLine_loop x2 y2 delta_x delta_y sign_x sign_y color fuel d x1 y1 error_1 =
      (DrawLine_states x2 y2 delta_x delta_y sign_x sign_y fuel x1 y1 error_1).bind
        (fun states => plotAll color d (states.map (fun s => (s.1, s.2.1)))) := by
  induction fuel generalizing d x1 y1 error_1 with
  | zero =>
    simp only [SSD1306_DrawLine_loop, DrawLine_states]
    split <;> rfl
  | succ n ih =>
    simp only [SSD1306_DrawLine_loop, DrawLine_states, DrawLine_next]
    by_cases hc : x1 ≠ x2 ∨ y1 ≠ y2
    · rw [if_pos hc, if_pos hc]
      cases hp : SSD1306_DrawPixel d x1 y1 color with
      | none => exact states_bind_none color d (x1, y1, error_1) hp _
      | some t =>
        simp only []
        rw [ih]
        exact states_bind_some color d t (x1, y1, error_1) hp _
    · rw [if_neg hc, if_neg hc]
      rfl

/-- `SSD1306_DrawLine` writes the pixels of `DrawLine_points`, in order. -/
theorem DrawLine_eq_plotAll (fuel : Nat) (dev : SSD1306_t) (x1 y1 x2 y2 : Nat)
    (color : SSD1306_Color_t) :
    SSD1306_DrawLine fuel dev x1 y1 x2 y2 color =
      (DrawLine_points fuel x1 y1 x2 y2).bind (plotAll color dev) := by
  unfold SSD1306_DrawLine DrawLine_points
  simp only [DrawLine_delta, DrawLine_sign]
  cases hp : SSD1306_DrawPixel dev x2 y2 color with
  | none => exact points_bind_none color dev (x2, y2) hp _
  | some t =>
    simp only []
    rw [DrawLine_loop_eq]
    exact points_bind_some color dev t (x2, y2) hp _
/-! ## The line loop: arithmetic -/

theorem toInt16_of_range (v : Int) (h1 : -32768 ≤ v) (h2 : v < 32768) : toInt16 v = v := by
  unfold toInt16
  omega

theorem toUint8_of_range (v : Int) (h1 : 0 ≤ v) (h2 : v < 256) : ((toUint8 v : Nat) : Int) = v := by
  unfold toUint8
  omega

/-- For `uint8_t` arguments, `delta` is the distance and `sign` points from
the first to the second. -/
theorem DrawLine_delta_sign (p q : Nat) (hp : p < 256) (hq : q < 256) :
    DrawLine_delta p q = (p - q) + (q - p) ∧
    (DrawLine_sign p q = 1 ∨ DrawLine_sign p q = -1) ∧
    (q : Int) = p + DrawLine_sign p q * (DrawLine_delta p q : Nat) := by
  have hd : DrawLine_delta p q = (p - q) + (q - p) := by
    unfold DrawLine_delta toUint8
    omega
  refine ⟨hd, ?_, ?_⟩
  · unfold DrawLine_sign
    split
    · exact Or.inl rfl
    · exact Or.inr rfl
  · rw [hd]
    unfold DrawLine_sign
    split
    · omega
    · omega

/-- One iteration when `delta_y <= delta_x`: the loop always steps along x;
the invariant `-delta_x <= 2 * D < delta_x` on
`D = b * delta_x - a * delta_y` is kept. -/
theorem DrawLine_next_xmajor (X1 Y1 dx dy : Nat) (sx sy : Int) (x y a b : Nat) (e D : Int)
    (hsx : sx = 1 ∨ sx = -1) (hsy : sy = 1 ∨ sy = -1)
    (hX2a : 0 ≤ (X1 : Int) + sx * dx) (hX2b : (X1 : Int) + sx * dx < 256)
    (hY2a : 0 ≤ (Y1 : Int) + sy * dy) (hY2b : (Y1 : Int) + sy * dy < 256)
    (hX1 : X1 < 256) (hY1 : Y1 < 256) (hdx : dx < 256) (hdy : dy < 256)
    (hx : (x : Int) = X1 + sx * a) (hy : (y : Int) = Y1 + sy * b)
    (hD : D = (b : Int) * dx - (a : Int) * dy) (he : e = (dx : Int) - dy + D)
    (ha : a < dx) (hb : b ≤ dy) (hmaj : dy ≤ dx)
    (hD1 : -(dx : Int) ≤ 2 * D) (hD2 : 2 * D < dx) (hdiag : dx = dy → D = 0) :
    ∃ b1 : Nat, ∃ D1 : Int, b ≤ b1 ∧ b1 ≤ b + 1 ∧ b1 ≤ dy ∧
      D1 = (b1 : Int) * dx - ((a : Int) + 1) * dy ∧
      -(dx : Int) ≤ 2 * D1 ∧ 2 * D1 < dx ∧ (dx = dy → D1 = 0) ∧
      ((DrawLine_next dx dy sx sy x y e).1 : Int) = X1 + sx * ((a : Int) + 1) ∧
      ((DrawLine_next dx dy sx sy x y e).2.1 : Int) = Y1 + sy * (b1 : Int) ∧
      (DrawLine_next dx dy sx sy x y e).2.2 = (dx : Int) - dy + D1 := by
  have e2 : toInt16 (e * 2) = e * 2 := toInt16_of_range _ (by omega) (by omega)
  have c1 : e * 2 > -(dy : Int) := by
    rcases Nat.lt_or_eq_of_le hmaj with h | h
    · omega
    · have := hdiag h.symm
      omega
  have e1a : toInt16 (e - dy) = e - dy := toInt16_of_range _ (by omega) (by omega)
  have hxn : ((toUint8 ((x : Int) + sx) : Nat) : Int) = X1 + sx * ((a : Int) + 1) := by
    rw [toUint8_of_range]
    · rw [hx]; ring
    · rcases hsx with rfl | rfl <;> omega
    · rcases hsx with rfl | rfl <;> omega
  unfold DrawLine_next
  simp only [e2, c1, if_true, e1a]
  by_cases c2 : e * 2 < dx
  · have hblt : b < dy := by
      by_contra hcon
      have hbeq : b = dy := by omega
      subst hbeq
      have h1 : (0 : Int) ≤ ((dx : Int) - a - 1) * b :=
        Int.mul_nonneg (by omega) (by omega)
      have h2 : ((dx : Int) - a - 1) * b = (b : Int) * dx - a * b - b := by ring
      omega
    have e1b : toInt16 (e - dy + dx) = e - dy + dx := toInt16_of_range _ (by omega) (by omega)
    have hyn : ((toUint8 ((y : Int) + sy) : Nat) : Int) = Y1 + sy * (((b + 1 : Nat) : Nat) : Int) := by
      rw [toUint8_of_range]
      · rw [hy]; push_cast; ring
      · rcases hsy with rfl | rfl <;> omega
      · rcases hsy with rfl | rfl <;> omega
    simp only [c2, if_true, e1b]
    refine ⟨b + 1, D - dy + dx, by omega, by omega, by omega, ?_, by omega, by omega,
      fun h => by have := hdiag h; omega, hxn, hyn, by omega⟩
    rw [hD]; push_cast; ring
  · simp only [c2, if_false]
    refine ⟨b, D - dy, by omega, by omega, hb, ?_, by omega, by omega,
      fun h => by have := hdiag h; omega, hxn, hy, by omega⟩
    rw [hD]; ring

/-- One iteration when `delta_x < delta_y`: the loop always steps along y;
the invariant `-delta_y < 2 * D <= delta_y` is kept. -/
theorem DrawLine_next_ymajor (X1 Y1 dx dy : Nat) (sx sy : Int) (x y a b : Nat) (e D : Int)
    (hsx : sx = 1 ∨ sx = -1) (hsy : sy = 1 ∨ sy = -1)
    (hX2a : 0 ≤ (X1 : Int) + sx * dx) (hX2b : (X1 : Int) + sx * dx < 256)
    (hY2a : 0 ≤ (Y1 : Int) + sy * dy) (hY2b : (Y1 : Int) + sy * dy < 256)
    (hX1 : X1 < 256) (hY1 : Y1 < 256) (hdx : dx < 256) (hdy : dy < 256)
    (hx : (x : Int) = X1 + sx * a) (hy : (y : Int) = Y1 + sy * b)
    (hD : D = (b : Int) * dx - (a : Int) * dy) (he : e = (dx : Int) - dy + D)
    (ha : a ≤ dx) (hb : b < dy) (hmaj : dx < dy)
    (hD1 : -(dy : Int) < 2 * D) (hD2 : 2 * D ≤ dy) :
    ∃ a1 : Nat, ∃ D1 : Int, a ≤ a1 ∧ a1 ≤ a + 1 ∧ a1 ≤ dx ∧
      D1 = ((b : Int) + 1) * dx - (a1 : Int) * dy ∧
      -(dy : Int) < 2 * D1 ∧ 2 * D1 ≤ dy ∧
      ((DrawLine_next dx dy sx sy x y e).1 : Int) = X1 + sx * (a1 : Int) ∧
      ((DrawLine_next dx dy sx sy x y e).2.1 : Int) = Y1 + sy * ((b : Int) + 1) ∧
      (DrawLine_next dx dy sx sy x y e).2.2 = (dx : Int) - dy + D1 := by
  have e2 : toInt16 (e * 2) = e * 2 := toInt16_of_range _ (by omega) (by omega)
  have c2 : e * 2 < dx := by omega
  have hyn : ((toUint8 ((y : Int) + sy) : Nat) : Int) = Y1 + sy * ((b : Int) + 1) := by
    rw [toUint8_of_range]
    · rw [hy]; ring
    · rcases hsy with rfl | rfl <;> omega
    · rcases hsy with rfl | rfl <;> omega
  unfold DrawLine_next
  simp only [e2, c2, if_true]
  by_cases c1 : e * 2 > -(dy : Int)
  · have halt : a < dx := by
      by_contra hcon
      have haeq : a = dx := by omega
      subst haeq
      have h1 : (0 : Int) ≤ ((dy : Int) - b - 1) * a :=
        Int.mul_nonneg (by omega) (by omega)
      have h2 : ((dy : Int) - b - 1) * a = (a : Int) * dy - b * a - a := by ring
      omega
    have e1a : toInt16 (e - dy) = e - dy := toInt16_of_range _ (by omega) (by omega)
    have e1b : toInt16 (e - dy + dx) = e - dy + dx := toInt16_of_range _ (by omega) (by omega)
    have hxn : ((toUint8 ((x : Int) + sx) : Nat) : Int) = X1 + sx * (((a + 1 : Nat) : Nat) : Int) := by
      rw [toUint8_of_range]
      · rw [hx]; push_cast; ring
      · rcases hsx with rfl | rfl <;> omega
      · rcases hsx with rfl | rfl <;> omega
    simp only [c1, if_true, e1a, e1b]
    refine ⟨a + 1, D - dy + dx, by omega, by omega, by omega, ?_, by omega, by omega,
      hxn, hyn, by omega⟩
    rw [hD]; push_cast; ring
  · have e1b : toInt16 (e + dx) = e + dx := toInt16_of_range _ (by omega) (by omega)
    simp only [c1, if_false, e1b]
    refine ⟨a, D + dx, by omega, by omega, ha, ?_, by omega, by omega, hx, hyn, by omega⟩
    rw [hD]; ring

/-- At the end point the loop test fails, whatever fuel is left. -/
theorem DrawLine_states_done (x2 y2 dx dy : Nat) (sx sy : Int) (fuel : Nat) (e : Int) :
    DrawLine_states x2 y2 dx dy sx sy fuel x2 y2 e = some [] := by
  cases fuel <;> simp [DrawLine_states]

/-- The loop when `delta_y <= delta_x`, from `a` steps along x on: it runs
`delta_x - a` more iterations, one step along x each. -/
theorem DrawLine_states_xmajor (X1 Y1 X2 Y2 dx dy : Nat) (sx sy : Int)
    (hsx : sx = 1 ∨ sx = -1) (hsy : sy = 1 ∨ sy = -1)
    (hX2 : (X2 : Int) = X1 + sx * dx) (hY2 : (Y2 : Int) = Y1 + sy * dy)
    (hX1 : X1 < 256) (hY1 : Y1 < 256) (hX2r : X2 < 256) (hY2r : Y2 < 256)
    (hdx : dx < 256) (hdy : dy < 256) (hmaj : dy ≤ dx) (n : Nat) :
    ∀ (fuel x y a b : Nat) (e D : Int),
      (x : Int) = X1 + sx * a → (y : Int) = Y1 + sy * b →
      D = (b : Int) * dx - (a : Int) * dy → e = (dx : Int) - dy + D →
      a + n = dx → b ≤ dy → b ≤ a → 0 < dx →
      -(dx : Int) ≤ 2 * D → 2 * D < dx → (dx = dy → D = 0) → n ≤ fuel →
      ∃ L, DrawLine_states X2 Y2 dx dy sx sy fuel x y e = some L ∧ L.length = n ∧
        ∀ i s, L[i]? = some s → LineState X1 Y1 dx dy sx sy (a + i) s := by
  induction n with
  | zero =>
    intro fuel x y a b e D hx hy hD he han hb hba hpos hD1 hD2 hdiag hfuel
    have haeq : a = dx := by omega
    subst haeq
    have hbeq : b = dy := by
      by_contra hcon
      have h1 : (0 : Int) ≤ ((dy : Int) - b - 1) * a := Int.mul_nonneg (by omega) (by omega)
      have h2 : ((dy : Int) - b - 1) * a = (a : Int) * dy - b * a - a := by ring
      omega
    subst hbeq
    have hxe : x = X2 := by omega
    have hye : y = Y2 := by omega
    subst hxe hye
    exact ⟨[], DrawLine_states_done _ _ _ _ _ _ _ _, rfl, fun i s h => by simp at h⟩
  | succ m ih =>
    intro fuel x y a b e D hx hy hD he han hb hba hpos hD1 hD2 hdiag hfuel
    obtain ⟨f, rfl⟩ : ∃ f, fuel = f + 1 := ⟨fuel - 1, by omega⟩
    have hcond : x ≠ X2 ∨ y ≠ Y2 := by
      left
      intro hc
      subst hc
      have : sx * (a : Int) = sx * dx := by omega
      rcases hsx with rfl | rfl <;> omega
    obtain ⟨b1, D1, hb1a, hb1b, hb1c, hD1eq, hD1a, hD1b, hdiag1, hxn, hyn, hen⟩ :=
      DrawLine_next_xmajor X1 Y1 dx dy sx sy x y a b e D hsx hsy (by omega) (by omega)
        (by omega) (by omega) hX1 hY1 hdx hdy hx hy hD he (by omega) hb hmaj hD1 hD2 hdiag
    obtain ⟨L, hL, hlen, hstates⟩ := ih f _ _ (a + 1) b1 _ D1
      (by rw [hxn]; push_cast; ring) hyn (by rw [hD1eq]; push_cast; ring) hen
      (by omega) hb1c (by omega) hpos hD1a hD1b hdiag1 (by omega)
    refine ⟨(x, y, e) :: L, ?_, by simp [hlen], ?_⟩
    · simp only [DrawLine_states, if_pos hcond, hL]
    · intro i s hs
      cases i with
      | zero =>
        simp only [List.getElem?_cons_zero, Option.some.injEq] at hs
        subst hs
        exact ⟨a, b, by omega, hb, by omega, hx, hy, by rw [he, hD]; ring⟩
      | succ j =>
        simp only [List.getElem?_cons_succ] at hs
        have := hstates j s hs
        rw [show a + (j + 1) = a + 1 + j by omega]
        exact this

/-- The loop when `delta_x < delta_y`, from `b` steps along y on: it runs
`delta_y - b` more iterations, one step along y each. -/
theorem DrawLine_states_ymajor (X1 Y1 X2 Y2 dx dy : Nat) (sx sy : Int)
    (hsx : sx = 1 ∨ sx = -1) (hsy : sy = 1 ∨ sy = -1)
    (hX2 : (X2 : Int) = X1 + sx * dx) (hY2 : (Y2 : Int) = Y1 + sy * dy)
    (hX1 : X1 < 256) (hY1 : Y1 < 256) (hX2r : X2 < 256) (hY2r : Y2 < 256)
    (hdx : dx < 256) (hdy : dy < 256) (hmaj : dx < dy) (n : Nat) :
    ∀ (fuel x y a b : Nat) (e D : Int),
      (x : Int) = X1 + sx * a → (y : Int) = Y1 + sy * b →
      D = (b : Int) * dx - (a : Int) * dy → e = (dx : Int) - dy + D →
      b + n = dy → a ≤ dx → a ≤ b →
      -(dy : Int) < 2 * D → 2 * D ≤ dy → n ≤ fuel →
      ∃ L, DrawLine_states X2 Y2 dx dy sx sy fuel x y e = some L ∧ L.length = n ∧
        ∀ i s, L[i]? = some s → LineState X1 Y1 dx dy sx sy (b + i) s := by
  induction n with
  | zero =>
    intro fuel x y a b e D hx hy hD he hbn ha hab hD1 hD2 hfuel
    have hbeq : b = dy := by omega
    subst hbeq
    have haeq : a = dx := by
      by_contra hcon
      have h1 : (0 : Int) ≤ ((dx : Int) - a - 1) * b := Int.mul_nonneg (by omega) (by omega)
      have h2 : ((dx : Int) - a - 1) * b = (b : Int) * dx - a * b - b := by ring
      omega
    subst haeq
    have hxe : x = X2 := by omega
    have hye : y = Y2 := by omega
    subst hxe hye
    exact ⟨[], DrawLine_states_done _ _ _ _ _ _ _ _, rfl, fun i s h => by simp at h⟩
  | succ m ih =>
    intro fuel x y a b e D hx hy hD he hbn ha hab hD1 hD2 hfuel
    obtain ⟨f, rfl⟩ : ∃ f, fuel = f + 1 := ⟨fuel - 1, by omega⟩
    have hcond : x ≠ X2 ∨ y ≠ Y2 := by
      right
      intro hc
      subst hc
      have : sy * (b : Int) = sy * dy := by omega
      rcases hsy with rfl | rfl <;> omega
    obtain ⟨a1, D1, ha1a, ha1b, ha1c, hD1eq, hD1a, hD1b, hxn, hyn, hen⟩ :=
      DrawLine_next_ymajor X1 Y1 dx dy sx sy x y a b e D hsx hsy (by omega) (by omega)
        (by omega) (by omega) hX1 hY1 hdx hdy hx hy hD he ha (by omega) hmaj hD1 hD2
    obtain ⟨L, hL, hlen, hstates⟩ := ih f _ _ a1 (b + 1) _ D1
      hxn (by rw [hyn]; push_cast; ring) (by rw [hD1eq]; push_cast; ring) hen
      (by omega) ha1c (by omega) hD1a hD1b (by omega)
    refine ⟨(x, y, e) :: L, ?_, by simp [hlen], ?_⟩
    · simp only [DrawLine_states, if_pos hcond, hL]
    · intro i s hs
      cases i with
      | zero =>
        simp only [List.getElem?_cons_zero, Option.some.injEq] at hs
        subst hs
        exact ⟨a, b, ha, by omega, by omega, hx, hy, by rw [he, hD]; ring⟩
      | succ j =>
        simp only [List.getElem?_cons_succ] at hs
        have := hstates j s hs
        rw [show b + (j + 1) = b + 1 + j by omega]
        exact this

/-- The line loop for `uint8_t` end points, with fuel for
`max (delta_x, delta_y)` iterations: it runs exactly that many iterations,
and the state of iteration `i` is the unwrapped `LineState`. -/
theorem DrawLine_states_spec (x1 y1 x2 y2 : Nat) (hx1 : x1 < 256) (hy1 : y1 < 256)
    (hx2 : x2 < 256) (hy2 : y2 < 256) (fuel : Nat)
    (hfuel : max (DrawLine_delta x1 x2) (DrawLine_delta y1 y2) ≤ fuel) :
    ∃ L, DrawLine_states x2 y2 (DrawLine_delta x1 x2) (DrawLine_delta y1 y2)
        (DrawLine_sign x1 x2) (DrawLine_sign y1 y2) fuel x1 y1
        (toInt16 ((DrawLine_delta x1 x2 : Int) - DrawLine_delta y1 y2)) = some L ∧
      L.length = max (DrawLine_delta x1 x2) (DrawLine_delta y1 y2) ∧
      ∀ i s, L[i]? = some s →
        LineState x1 y1 (DrawLine_delta x1 x2) (DrawLine_delta y1 y2)
          (DrawLine_sign x1 x2) (DrawLine_sign y1 y2) i s := by
  obtain ⟨hdx, hsx, hX2⟩ := DrawLine_delta_sign x1 x2 hx1 hx2
  obtain ⟨hdy, hsy, hY2⟩ := DrawLine_delta_sign y1 y2 hy1 hy2
  have hdxr : DrawLine_delta x1 x2 < 256 := by omega
  have hdyr : DrawLine_delta y1 y2 < 256 := by omega
  have he0 : toInt16 ((DrawLine_delta x1 x2 : Int) - DrawLine_delta y1 y2) =
      (DrawLine_delta x1 x2 : Int) - DrawLine_delta y1 y2 :=
    toInt16_of_range _ (by omega) (by omega)
  rw [he0]
  by_cases hmaj : DrawLine_delta y1 y2 ≤ DrawLine_delta x1 x2
  · by_cases hpos : 0 < DrawLine_delta x1 x2
    · obtain ⟨L, hL, hlen, hstates⟩ := DrawLine_states_xmajor x1 y1 x2 y2 _ _ _ _ hsx hsy hX2 hY2
        hx1 hy1 hx2 hy2 hdxr hdyr hmaj (DrawLine_delta x1 x2) fuel x1 y1 0 0
        ((DrawLine_delta x1 x2 : Int) - DrawLine_delta y1 y2) 0
        (by simp) (by simp) (by simp) (by simp) (by simp) (by omega) (by omega) hpos
        (by omega) (by omega) (fun _ => rfl) (by omega)
      refine ⟨L, hL, by rw [hlen]; omega, ?_⟩
      intro i s hs
      have := hstates i s hs
      rwa [Nat.zero_add] at this
    · have h0 : DrawLine_delta x1 x2 = 0 := by omega
      have h1 : DrawLine_delta y1 y2 = 0 := by omega
      have hxe : x1 = x2 := by omega
      have hye : y1 = y2 := by omega
      subst hxe hye
      exact ⟨[], DrawLine_states_done _ _ _ _ _ _ _ _, by rw [h0, h1]; rfl,
        fun i s h => by simp at h⟩
  · obtain ⟨L, hL, hlen, hstates⟩ := DrawLine_states_ymajor x1 y1 x2 y2 _ _ _ _ hsx hsy hX2 hY2
      hx1 hy1 hx2 hy2 hdxr hdyr (by omega) (DrawLine_delta y1 y2) fuel x1 y1 0 0
      ((DrawLine_delta x1 x2 : Int) - DrawLine_delta y1 y2) 0
      (by simp) (by simp) (by simp) (by simp) (by simp) (by omega) (by omega)
      (by omega) (by omega) (by omega)
    refine ⟨L, hL, by rw [hlen]; omega, ?_⟩
    intro i s hs
    have := hstates i s hs
    rwa [Nat.zero_add] at this

/-- Every iteration of the line loop uses up one unit of fuel. -/
theorem DrawLine_states_length_le (x2 y2 dx dy : Nat) (sx sy : Int) (fuel : Nat) :
    ∀ (x y : Nat) (e : Int) (L : List (Nat × Nat × Int)),
      DrawLine_states x2 y2 dx dy sx sy fuel x y e = some L → L.length ≤ fuel := by
  induction fuel with
  | zero =>
    intro x y e L h
    simp only [DrawLine_states] at h
    split at h
    · exact absurd h (by simp)
    · simp only [Option.some.injEq] at h
      subst h
      simp
  | succ f ih =>
    intro x y e L h
    simp only [DrawLine_states] at h
    split at h
    · split at h
      · exact absurd h (by simp)
      · next L1 hL1 =>
        simp only [Option.some.injEq] at h
        subst h
        have := ih _ _ _ L1 hL1
        simp only [List.length_cons]
        omega
    · simp only [Option.some.injEq] at h
      subst h
      simp

/-- More fuel does not change the result of a line loop that returned. -/
theorem DrawLine_states_mono (x2 y2 dx dy : Nat) (sx sy : Int) (fuel : Nat) :
    ∀ (x y : Nat) (e : Int) (L : List (Nat × Nat × Int)) (k : Nat),
      DrawLine_states x2 y2 dx dy sx sy fuel x y e = some L →
      DrawLine_states x2 y2 dx dy sx sy (fuel + k) x y e = some L := by
  induction fuel with
  | zero =>
    intro x y e L k h
    simp only [DrawLine_states] at h
    split at h
    · exact absurd h (by simp)
    · next hc =>
      simp only [Option.some.injEq] at h
      subst h
      cases k <;> simp [DrawLine_states, hc]
  | succ f ih =>
    intro x y e L k h
    rw [show f + 1 + k = (f + k) + 1 by omega]
    simp only [DrawLine_states] at h ⊢
    split at h
    · next hc =>
      rw [if_pos hc]
      split at h
      · exact absurd h (by simp)
      · next L1 hL1 =>
        rw [ih _ _ _ L1 k hL1]
        exact h
    · next hc =>
      rw [if_neg hc]
      exact h

/-- C20: for `uint8_t` end points the loop of `SSD1306_DrawLine` terminates.
With fuel for `n = max (|x2 - x1|, |y2 - y1|)` iterations it runs exactly
`n` iterations (with less fuel it does not finish) and then stands at
`(x2, y2)`.  In iteration `i` the running point is `a` steps along x and `b`
steps along y from `(x1, y1)` with `a <= |x2 - x1|`, `b <= |y2 - y1|` and
`max a b = i`, so it lies in the bounding box of the end points and no
`uint8_t` update has wrapped, and `error_1` is the integer
`delta_x - delta_y - a * delta_y + b * delta_x`, so no `int16_t` value has
overflowed.  The plotted points are `(x2, y2)` and the running points;
`(x1, y1)` is one of them.  On a well sized handle `SSD1306_DrawLine`
returns. -/
theorem C20_DrawLine_terminates (x1 y1 x2 y2 : Nat) (hx1 : x1 < 256) (hy1 : y1 < 256)
    (hx2 : x2 < 256) (hy2 : y2 < 256) (fuel : Nat) :
    (DrawLine_delta x1 x2 = Int.natAbs ((x2 : Int) - x1) ∧
      DrawLine_delta y1 y2 = Int.natAbs ((y2 : Int) - y1)) ∧
    (max (Int.natAbs ((x2 : Int) - x1)) (Int.natAbs ((y2 : Int) - y1)) ≤ fuel →
      ∃ L, DrawLine_states x2 y2 (DrawLine_delta x1 x2) (DrawLine_delta y1 y2)
          (DrawLine_sign x1 x2) (DrawLine_sign y1 y2) fuel x1 y1
          (toInt16 ((DrawLine_delta x1 x2 : Int) - DrawLine_delta y1 y2)) = some L ∧
        L.length = max (Int.natAbs ((x2 : Int) - x1)) (Int.natAbs ((y2 : Int) - y1)) ∧
        (∀ i s, L[i]? = some s →
          LineState x1 y1 (DrawLine_delta x1 x2) (DrawLine_delta y1 y2)
            (DrawLine_sign x1 x2) (DrawLine_sign y1 y2) i s ∧
          min x1 x2 ≤ s.1 ∧ s.1 ≤ max x1 x2 ∧ min y1 y2 ≤ s.2.1 ∧ s.2.1 ≤ max y1 y2) ∧
        DrawLine_points fuel x1 y1 x2 y2 =
          some ((x2, y2) :: L.map (fun s => (s.1, s.2.1))) ∧
        (x1, y1) ∈ (x2, y2) :: L.map (fun s => (s.1, s.2.1)) ∧
        ∀ (dev : SSD1306_t) (color : SSD1306_Color_t), dev.height % 8 = 0 →
          dev.buffer.length = dev.width * dev.height / 8 →
          ∃ d, SSD1306_DrawLine fuel dev x1 y1 x2 y2 color = some d) ∧
    (fuel < max (Int.natAbs ((x2 : Int) - x1)) (Int.natAbs ((y2 : Int) - y1)) →
      DrawLine_states x2 y2 (DrawLine_delta x1 x2) (DrawLine_delta y1 y2)
        (DrawLine_sign x1 x2) (DrawLine_sign y1 y2) fuel x1 y1
        (toInt16 ((DrawLine_delta x1 x2 : Int) - DrawLine_delta y1 y2)) = none) := by
  obtain ⟨hdx, hsx, hX2⟩ := DrawLine_delta_sign x1 x2 hx1 hx2
  obtain ⟨hdy, hsy, hY2⟩ := DrawLine_delta_sign y1 y2 hy1 hy2
  have hax : DrawLine_delta x1 x2 = Int.natAbs ((x2 : Int) - x1) := by omega
  have hay : DrawLine_delta y1 y2 = Int.natAbs ((y2 : Int) - y1) := by omega
  refine ⟨⟨hax, hay⟩, ?_, ?_⟩
  · intro hfuel
    rw [← hax, ← hay] at hfuel ⊢
    obtain ⟨L, hL, hlen, hstates⟩ := DrawLine_states_spec x1 y1 x2 y2 hx1 hy1 hx2 hy2 fuel hfuel
    have hpoints : DrawLine_points fuel x1 y1 x2 y2 =
        some ((x2, y2) :: L.map (fun s => (s.1, s.2.1))) := by
      unfold DrawLine_points
      rw [hL]
    refine ⟨L, hL, hlen, ?_, hpoints, ?_, ?_⟩
    · intro i s hs
      have hst := hstates i s hs
      refine ⟨hst, ?_⟩
      obtain ⟨a, b, ha, hb, _, hsx1, hsy1, _⟩ := hst
      constructor
      · rcases hsx with h | h <;> rw [h] at hX2 hsx1 <;> omega
      constructor
      · rcases hsx with h | h <;> rw [h] at hX2 hsx1 <;> omega
      constructor
      · rcases hsy with h | h <;> rw [h] at hY2 hsy1 <;> omega
      · rcases hsy with h | h <;> rw [h] at hY2 hsy1 <;> omega
    · by_cases hzero : max (DrawLine_delta x1 x2) (DrawLine_delta y1 y2) = 0
      · have hxe : x1 = x2 := by omega
        have hye : y1 = y2 := by omega
        subst hxe hye
        exact List.mem_cons_self _ _
      · obtain ⟨s, hs⟩ : ∃ s, L[0]? = some s :=
          ⟨_, List.getElem?_eq_getElem (show 0 < L.length by omega)⟩
        obtain ⟨a, b, _, _, hmax, hsx1, hsy1, _⟩ := hstates 0 s hs
        have ha0 : a = 0 := by omega
        have hb0 : b = 0 := by omega
        subst ha0 hb0
        have h1 : s.1 = x1 := by simp at hsx1; omega
        have h2 : s.2.1 = y1 := by simp at hsy1; omega
        refine List.mem_cons_of_mem _ (List.mem_map.2 ⟨s, ?_, by rw [h1, h2]⟩)
        exact List.getElem?_mem hs
    · intro dev color h8 hbuf
      rw [DrawLine_eq_plotAll, hpoints]
      exact plotAll_total color _ dev h8 hbuf
  · intro hfuel
    rw [← hax, ← hay] at hfuel
    cases hres : DrawLine_states x2 y2 (DrawLine_delta x1 x2) (DrawLine_delta y1 y2)
        (DrawLine_sign x1 x2) (DrawLine_sign y1 y2) fuel x1 y1
        (toInt16 ((DrawLine_delta x1 x2 : Int) - DrawLine_delta y1 y2)) with
    | none => rfl
    | some L1 =>
      exfalso
      have hle := DrawLine_states_length_le _ _ _ _ _ _ _ _ _ _ L1 hres
      have hmono := DrawLine_states_mono _ _ _ _ _ _ _ _ _ _ L1
        (max (DrawLine_delta x1 x2) (DrawLine_delta y1 y2)) hres
      obtain ⟨L, hL, hlen, _⟩ := DrawLine_states_spec x1 y1 x2 y2 hx1 hy1 hx2 hy2
        (fuel + max (DrawLine_delta x1 x2) (DrawLine_delta y1 y2)) (by omega)
      rw [hmono] at hL
      have : L1 = L := Option.some.inj hL
      subst this
      omega

/-- C20 on the line from `(1, 1)` to `(6, 14)`: 13 iterations, not 12. -/
theorem C20_DrawLine_terminates_witness :
    (∃ L : List (Nat × Nat × Int),
      DrawLine_points 13 1 1 6 14 = some ((6, 14) :: L.map (fun s => (s.1, s.2.1))) ∧
      L.length = 13 ∧ (1, 1) ∈ (6, 14) :: L.map (fun s => (s.1, s.2.1))) ∧
    DrawLine_states 6 14 (DrawLine_delta 1 6) (DrawLine_delta 1 14) (DrawLine_sign 1 6)
      (DrawLine_sign 1 14) 12 1 1
      (toInt16 ((DrawLine_delta 1 6 : Int) - DrawLine_delta 1 14)) = none := by
  constructor
  · obtain ⟨L, _, hlen, _, hpts, hmem, _⟩ :=
      (C20_DrawLine_terminates 1 1 6 14 (by decide) (by decide) (by decide) (by decide) 13).2.1
        (by decide)
    exact ⟨L, hpts, hlen, hmem⟩
  · exact (C20_DrawLine_terminates 1 1 6 14 (by decide) (by decide) (by decide) (by decide)
      12).2.2 (by decide)

/-! ## Axis-aligned lines and rectangles -/

/-- A horizontal `SSD1306_DrawLine` with in-bounds end points on a well sized
handle returns; the pixels of row `y` between the end points read as the
colour drawn, all others as before. -/
theorem DrawLine_horizontal (fuel : Nat) (dev : SSD1306_t) (x1 x2 y : Nat)
    (color : SSD1306_Color_t) (hx1 : x1 < dev.width) (hx2 : x2 < dev.width)
    (hy : y < dev.height) (hw : dev.width < 256) (hh : dev.height < 256)
    (h8 : dev.height % 8 = 0) (hlen : dev.buffer.length = dev.width * dev.height / 8)
    (hfuel : (x1 - x2) + (x2 - x1) ≤ fuel) :
    ∃ d, SSD1306_DrawLine fuel dev x1 y x2 y color = some d ∧ Paints dev d ∧
      ∀ x0 y0, x0 < dev.width → y0 < dev.height →
        pixelAt d x0 y0 =
          if y0 = y ∧ min x1 x2 ≤ x0 ∧ x0 ≤ max x1 x2 then some color else pixelAt dev x0 y0 := by
  obtain ⟨hdx, hsx, hX2⟩ := DrawLine_delta_sign x1 x2 (by omega) (by omega)
  obtain ⟨hdy, hsy, hY2⟩ := DrawLine_delta_sign y y (by omega) (by omega)
  have hdy0 : DrawLine_delta y y = 0 := by omega
  obtain ⟨L, hL, hlenL, hstates⟩ := DrawLine_states_spec x1 y x2 y (by omega) (by omega)
    (by omega) (by omega) fuel (by rw [hdx, hdy0]; omega)
  have hpoints : DrawLine_points fuel x1 y x2 y =
      some ((x2, y) :: L.map (fun s => (s.1, s.2.1))) := by
    unfold DrawLine_points
    rw [hL]
  obtain ⟨d, hd⟩ := plotAll_total color ((x2, y) :: L.map (fun s => (s.1, s.2.1))) dev h8 hlen
  refine ⟨d, by rw [DrawLine_eq_plotAll, hpoints]; exact hd, plotAll_paints _ _ _ _ hd, ?_⟩
  intro x0 y0 hx0 hy0
  rw [plotAll_pixelAt color _ dev d hd x0 y0 hx0 hy0]
  have hiff : (x0, y0) ∈ (x2, y) :: L.map (fun s => (s.1, s.2.1)) ↔
      (y0 = y ∧ min x1 x2 ≤ x0 ∧ x0 ≤ max x1 x2) := by
    constructor
    · intro hmem
      rcases List.mem_cons.1 hmem with h | h
      · simp only [Prod.mk.injEq] at h
        omega
      · obtain ⟨s, hs, hcoord⟩ := List.mem_map.1 h
        obtain ⟨i, hi⟩ := List.getElem?_of_mem hs
        obtain ⟨a, b, ha, hb, _, hsx1, hsy1, _⟩ := hstates i s hi
        simp only [Prod.mk.injEq] at hcoord
        have hb0 : b = 0 := by omega
        subst hb0
        simp only [Nat.cast_zero, mul_zero, add_zero] at hsy1
        rcases hsx with h1 | h1 <;> rw [h1] at hX2 hsx1 <;> omega
    · rintro ⟨rfl, hmin, hmax⟩
      by_cases hend : x0 = x2
      · subst hend
        exact List.mem_cons_self _ _
      · obtain ⟨s, hs⟩ : ∃ s, L[(x1 - x0) + (x0 - x1)]? = some s :=
          ⟨_, List.getElem?_eq_getElem (show (x1 - x0) + (x0 - x1) < L.length by
            rw [hlenL, hdx, hdy0]; omega)⟩
        obtain ⟨a, b, ha, hb, hmaxab, hsx1, hsy1, _⟩ := hstates _ s hs
        have hb0 : b = 0 := by omega
        subst hb0
        simp only [Nat.cast_zero, mul_zero, add_zero] at hsy1
        have h1 : s.1 = x0 := by
          rcases hsx with h1 | h1 <;> rw [h1] at hX2 hsx1 <;> omega
        have h2 : s.2.1 = y0 := by omega
        exact List.mem_cons_of_mem _ (List.mem_map.2 ⟨s, List.getElem?_mem hs, by rw [h1, h2]⟩)
  by_cases hon : y0 = y ∧ min x1 x2 ≤ x0 ∧ x0 ≤ max x1 x2
  · rw [if_pos (hiff.2 hon), if_pos hon]
  · rw [if_neg (fun hc => hon (hiff.1 hc)), if_neg hon]

/-- A vertical `SSD1306_DrawLine` with in-bounds end points on a well sized
handle returns; the pixels of column `x` between the end points read as the
colour drawn, all others as before. -/
theorem DrawLine_vertical (fuel : Nat) (dev : SSD1306_t) (x y1 y2 : Nat)
    (color : SSD1306_Color_t) (hx : x < dev.width) (hy1 : y1 < dev.height)
    (hy2 : y2 < dev.height) (hw : dev.width < 256) (hh : dev.height < 256)
    (h8 : dev.height % 8 = 0) (hlen : dev.buffer.length = dev.width * dev.height / 8)
    (hfuel : (y1 - y2) + (y2 - y1) ≤ fuel) :
    ∃ d, SSD1306_DrawLine fuel dev x y1 x y2 color = some d ∧ Paints dev d ∧
      ∀ x0 y0, x0 < dev.width → y0 < dev.height →
        pixelAt d x0 y0 =
          if x0 = x ∧ min y1 y2 ≤ y0 ∧ y0 ≤ max y1 y2 then some color else pixelAt dev x0 y0 := by
  obtain ⟨hdx, hsx, hX2⟩ := DrawLine_delta_sign x x (by omega) (by omega)
  obtain ⟨hdy, hsy, hY2⟩ := DrawLine_delta_sign y1 y2 (by omega) (by omega)
  have hdx0 : DrawLine_delta x x = 0 := by omega
  obtain ⟨L, hL, hlenL, hstates⟩ := DrawLine_states_spec x y1 x y2 (by omega) (by omega)
    (by omega) (by omega) fuel (by rw [hdy, hdx0]; omega)
  have hpoints : DrawLine_points fuel x y1 x y2 =
      some ((x, y2) :: L.map (fun s => (s.1, s.2.1))) := by
    unfold DrawLine_points
    rw [hL]
  obtain ⟨d, hd⟩ := plotAll_total color ((x, y2) :: L.map (fun s => (s.1, s.2.1))) dev h8 hlen
  refine ⟨d, by rw [DrawLine_eq_plotAll, hpoints]; exact hd, plotAll_paints _ _ _ _ hd, ?_⟩
  intro x0 y0 hx0 hy0
  rw [plotAll_pixelAt color _ dev d hd x0 y0 hx0 hy0]
  have hiff : (x0, y0) ∈ (x, y2) :: L.map (fun s => (s.1, s.2.1)) ↔
      (x0 = x ∧ min y1 y2 ≤ y0 ∧ y0 ≤ max y1 y2) := by
    constructor
    · intro hmem
      rcases List.mem_cons.1 hmem with h | h
      · simp only [Prod.mk.injEq] at h
        omega
      · obtain ⟨s, hs, hcoord⟩ := List.mem_map.1 h
        obtain ⟨i, hi⟩ := List.getElem?_of_mem hs
        obtain ⟨a, b, ha, hb, _, hsx1, hsy1, _⟩ := hstates i s hi
        simp only [Prod.mk.injEq] at hcoord
        have ha0 : a = 0 := by omega
        subst ha0
        simp only [Nat.cast_zero, mul_zero, add_zero] at hsx1
        rcases hsy with h1 | h1 <;> rw [h1] at hY2 hsy1 <;> omega
    · rintro ⟨rfl, hmin, hmax⟩
      by_cases hend : y0 = y2
      · subst hend
        exact List.mem_cons_self _ _
      · obtain ⟨s, hs⟩ : ∃ s, L[(y1 - y0) + (y0 - y1)]? = some s :=
          ⟨_, List.getElem?_eq_getElem (show (y1 - y0) + (y0 - y1) < L.length by
            rw [hlenL, hdy, hdx0]; omega)⟩
        obtain ⟨a, b, ha, hb, hmaxab, hsx1, hsy1, _⟩ := hstates _ s hs
        have ha0 : a = 0 := by omega
        subst ha0
        simp only [Nat.cast_zero, mul_zero, add_zero] at hsx1
        have h1 : s.2.1 = y0 := by
          rcases hsy with h1 | h1 <;> rw [h1] at hY2 hsy1 <;> omega
        have h2 : s.1 = x0 := by omega
        exact List.mem_cons_of_mem _ (List.mem_map.2 ⟨s, List.getElem?_mem hs, by rw [h1, h2]⟩)
  by_cases hon : x0 = x ∧ min y1 y2 ≤ y0 ∧ y0 ≤ max y1 y2
  · rw [if_pos (hiff.2 hon), if_pos hon]
  · rw [if_neg (fun hc => hon (hiff.1 hc)), if_neg hon]

/-- On a well sized handle with an all-zero buffer every pixel is off. -/
theorem pixelAt_zero_buffer (dev : SSD1306_t) (h8 : dev.height % 8 = 0)
    (hlen : dev.buffer.length = dev.width * dev.height / 8) (hz : ∀ b ∈ dev.buffer, b = 0)
    (x y : Nat) (hx : x < dev.width) (hy : y < dev.height) :
    pixelAt dev x y = some SSD1306_COLOR_BLACK := by
  have hidx : x + (y / 8) * dev.width < dev.buffer.length := by
    rw [hlen]; exact index_lt _ _ _ _ h8 hx hy
  have hget : dev.buffer[x + (y / 8) * dev.width]? = some (dev.buffer[x + (y / 8) * dev.width]) :=
    List.getElem?_eq_getElem hidx
  have hzero : dev.buffer[x + (y / 8) * dev.width] = 0 := hz _ (List.getElem_mem _)
  unfold pixelAt
  rw [hget, hzero]
  simp

/-- C14: on a well sized handle with all pixels off and in-bounds end points
(fuel for the longer side), a horizontal `SSD1306_DrawLine` in WHITE returns
and leaves on exactly the pixels `(x, y1)` with
`min x1 x2 <= x <= max x1 x2`; a vertical one exactly the pixels `(x1, y)`
with `min y1 y2 <= y <= max y1 y2`; with `x1 = x2` and `y1 = y2` exactly
the pixel `(x1, y1)`. -/
theorem C14_axis_aligned_lines (fuel : Nat) (dev : SSD1306_t) (x1 y1 x2 y2 : Nat)
    (hx1 : x1 < dev.width) (hy1 : y1 < dev.height) (hx2 : x2 < dev.width)
    (hy2 : y2 < dev.height) (hw : dev.width < 256) (hh : dev.height < 256)
    (h8 : dev.height % 8 = 0) (hlen : dev.buffer.length = dev.width * dev.height / 8)
    (hoff : ∀ x y, x < dev.width → y < dev.height → pixelAt dev x y = some SSD1306_COLOR_BLACK)
    (hfuelx : (x1 - x2) + (x2 - x1) ≤ fuel) (hfuely : (y1 - y2) + (y2 - y1) ≤ fuel) :
    (y1 = y2 → ∃ d, SSD1306_DrawLine fuel dev x1 y1 x2 y2 SSD1306_COLOR_WHITE = some d ∧
      ∀ x y, x < dev.width → y < dev.height →
        pixelAt d x y = some (if y = y1 ∧ min x1 x2 ≤ x ∧ x ≤ max x1 x2
          then SSD1306_COLOR_WHITE else SSD1306_COLOR_BLACK)) ∧
    (x1 = x2 → ∃ d, SSD1306_DrawLine fuel dev x1 y1 x2 y2 SSD1306_COLOR_WHITE = some d ∧
      ∀ x y, x < dev.width → y < dev.height →
        pixelAt d x y = some (if x = x1 ∧ min y1 y2 ≤ y ∧ y ≤ max y1 y2
          then SSD1306_COLOR_WHITE else SSD1306_COLOR_BLACK)) ∧
    (x1 = x2 → y1 = y2 →
      ∃ d, SSD1306_DrawLine fuel dev x1 y1 x2 y2 SSD1306_COLOR_WHITE = some d ∧
      ∀ x y, x < dev.width → y < dev.height →
        pixelAt d x y = some (if x = x1 ∧ y = y1
          then SSD1306_COLOR_WHITE else SSD1306_COLOR_BLACK)) := by
  have hhor : y1 = y2 → ∃ d, SSD1306_DrawLine fuel dev x1 y1 x2 y2 SSD1306_COLOR_WHITE = some d ∧
      ∀ x y, x < dev.width → y < dev.height →
        pixelAt d x y = some (if y = y1 ∧ min x1 x2 ≤ x ∧ x ≤ max x1 x2
          then SSD1306_COLOR_WHITE else SSD1306_COLOR_BLACK) := by
    intro hy
    subst hy
    obtain ⟨d, hd, _, hpix⟩ := DrawLine_horizontal fuel dev x1 x2 y1 SSD1306_COLOR_WHITE hx1 hx2
      hy1 hw hh h8 hlen hfuelx
    refine ⟨d, hd, ?_⟩
    intro x y hx hy
    rw [hpix x y hx hy, hoff x y hx hy]
    split <;> rfl
  refine ⟨hhor, ?_, ?_⟩
  · intro hx
    subst hx
    obtain ⟨d, hd, _, hpix⟩ := DrawLine_vertical fuel dev x1 y1 y2 SSD1306_COLOR_WHITE hx1 hy1
      hy2 hw hh h8 hlen hfuely
    refine ⟨d, hd, ?_⟩
    intro x y hx hy
    rw [hpix x y hx hy, hoff x y hx hy]
    split <;> rfl
  · intro hx hy
    obtain ⟨d, hd, hpix⟩ := hhor hy
    refine ⟨d, hd, ?_⟩
    intro x y hx0 hy0
    rw [hpix x y hx0 hy0]
    subst hx
    have hiff : (y = y1 ∧ min x1 x1 ≤ x ∧ x ≤ max x1 x1) ↔ (x = x1 ∧ y = y1) := by
      constructor
      · rintro ⟨h1, h2, h3⟩
        exact ⟨by omega, h1⟩
      · rintro ⟨h1, h2⟩
        exact ⟨h2, by omega, by omega⟩
    simp only [hiff]

/-- C14 on an 8 x 8 handle with all pixels off: `line (0, 0, 5, 0, WHITE)`
sets exactly `(0, 0) .. (5, 0)`. -/
theorem C14_axis_aligned_lines_witness :
    ∃ d, SSD1306_DrawLine 5 sampleDev8x8 0 0 5 0 SSD1306_COLOR_WHITE = some d ∧
      ∀ x y, x < 8 → y < 8 →
        pixelAt d x y = some (if y = 0 ∧ x ≤ 5
          then SSD1306_COLOR_WHITE else SSD1306_COLOR_BLACK) := by
  obtain ⟨d, hd, hpix⟩ := (C14_axis_aligned_lines 5 sampleDev8x8 0 0 5 0 (by decide) (by decide)
    (by decide) (by decide) (by decide) (by decide) (by decide) (by decide)
    (pixelAt_zero_buffer sampleDev8x8 (by decide) (by decide) (by decide))
    (by decide) (by decide)).1 rfl
  refine ⟨d, hd, ?_⟩
  intro x y hx hy
  rw [hpix x y hx hy]
  have hiff : (y = 0 ∧ min 0 5 ≤ x ∧ x ≤ max 0 5) ↔ (y = 0 ∧ x ≤ 5) := by
    constructor
    · rintro ⟨h1, _, h3⟩
      exact ⟨h1, by simpa using h3⟩
    · rintro ⟨h1, h2⟩
      exact ⟨h1, by simp, by simpa using h2⟩
  simp only [hiff]

/-- C17: on a well sized handle with all pixels off and in-bounds corners in
any order (fuel for the longer side), `SSD1306_DrawRectangle` in WHITE
returns and leaves on exactly the border: pixel `(x, y)` is on when
`min x1 x2 <= x <= max x1 x2`, `min y1 y2 <= y <= max y1 y2` and `x` is `x1`
or `x2` or `y` is `y1` or `y2`, and off otherwise. -/
theorem C17_rectangle_border (fuel : Nat) (dev : SSD1306_t) (x1 y1 x2 y2 : Nat)
    (hx1 : x1 < dev.width) (hy1 : y1 < dev.height) (hx2 : x2 < dev.width)
    (hy2 : y2 < dev.height) (hw : dev.width < 256) (hh : dev.height < 256)
    (h8 : dev.height % 8 = 0) (hlen : dev.buffer.length = dev.width * dev.height / 8)
    (hoff : ∀ x y, x < dev.width → y < dev.height → pixelAt dev x y = some SSD1306_COLOR_BLACK)
    (hfuelx : (x1 - x2) + (x2 - x1) ≤ fuel) (hfuely : (y1 - y2) + (y2 - y1) ≤ fuel) :
    ∃ d, SSD1306_DrawRectangle fuel dev x1 y1 x2 y2 SSD1306_COLOR_WHITE = some d ∧
      ∀ x y, x < dev.width → y < dev.height →
        pixelAt d x y = some (if min x1 x2 ≤ x ∧ x ≤ max x1 x2 ∧ min y1 y2 ≤ y ∧ y ≤ max y1 y2 ∧
            (x = x1 ∨ x = x2 ∨ y = y1 ∨ y = y2)
          then SSD1306_COLOR_WHITE else SSD1306_COLOR_BLACK) := by
  obtain ⟨d1, hd1, hp1, hpix1⟩ := DrawLine_horizontal fuel dev x1 x2 y1 SSD1306_COLOR_WHITE
    hx1 hx2 hy1 hw hh h8 hlen hfuelx
  have m1 := hp1.mutates
  obtain ⟨d2, hd2, hp2, hpix2⟩ := DrawLine_vertical fuel d1 x2 y1 y2 SSD1306_COLOR_WHITE
    (by rw [m1.width]; exact hx2) (by rw [m1.height]; exact hy1) (by rw [m1.height]; exact hy2)
    (by rw [m1.width]; exact hw) (by rw [m1.height]; exact hh) (by rw [m1.height]; exact h8)
    (by rw [m1.length, m1.width, m1.height]; exact hlen) hfuely
  have m2 := m1.followedBy hp2.mutates
  obtain ⟨d3, hd3, hp3, hpix3⟩ := DrawLine_horizontal fuel d2 x2 x1 y2 SSD1306_COLOR_WHITE
    (by rw [m2.width]; exact hx2) (by rw [m2.width]; exact hx1) (by rw [m2.height]; exact hy2)
    (by rw [m2.width]; exact hw) (by rw [m2.height]; exact hh) (by rw [m2.height]; exact h8)
    (by rw [m2.length, m2.width, m2.height]; exact hlen) (by omega)
  have m3 := m2.followedBy hp3.mutates
  obtain ⟨d4, hd4, hp4, hpix4⟩ := DrawLine_vertical fuel d3 x1 y2 y1 SSD1306_COLOR_WHITE
    (by rw [m3.width]; exact hx1) (by rw [m3.height]; exact hy2) (by rw [m3.height]; exact hy1)
    (by rw [m3.width]; exact hw) (by rw [m3.height]; exact hh) (by rw [m3.height]; exact h8)
    (by rw [m3.length, m3.width, m3.height]; exact hlen) (by omega)
  refine ⟨d4, ?_, ?_⟩
  · unfold SSD1306_DrawRectangle
    rw [hd1]
    dsimp only
    rw [hd2]
    dsimp only
    rw [hd3]
    dsimp only
    exact hd4
  · intro x y hx hy
    rw [hpix4 x y (by rw [m3.width]; exact hx) (by rw [m3.height]; exact hy),
      hpix3 x y (by rw [m2.width]; exact hx) (by rw [m2.height]; exact hy),
      hpix2 x y (by rw [m1.width]; exact hx) (by rw [m1.height]; exact hy),
      hpix1 x y hx hy, hoff x y hx hy]
    by_cases hon : min x1 x2 ≤ x ∧ x ≤ max x1 x2 ∧ min y1 y2 ≤ y ∧ y ≤ max y1 y2 ∧
        (x = x1 ∨ x = x2 ∨ y = y1 ∨ y = y2)
    · rw [if_pos hon]
      split_ifs <;> first | rfl | (exfalso; omega)
    · rw [if_neg hon]
      split_ifs <;> first | rfl | (exfalso; omega)

/-- C17 on an 8 x 8 handle with all pixels off: the rectangle with the
corners `(5, 6)` and `(1, 2)`, given in that order. -/
theorem C17_rectangle_border_witness :
    ∃ d, SSD1306_DrawRectangle 4 sampleDev8x8 5 6 1 2 SSD1306_COLOR_WHITE = some d ∧
      pixelAt d 1 2 = some SSD1306_COLOR_WHITE ∧ pixelAt d 5 6 = some SSD1306_COLOR_WHITE ∧
      pixelAt d 3 2 = some SSD1306_COLOR_WHITE ∧ pixelAt d 1 4 = some SSD1306_COLOR_WHITE ∧
      pixelAt d 3 4 = some SSD1306_COLOR_BLACK ∧ pixelAt d 0 2 = some SSD1306_COLOR_BLACK ∧
      pixelAt d 6 6 = some SSD1306_COLOR_BLACK := by
  obtain ⟨d, hd, hpix⟩ := C17_rectangle_border 4 sampleDev8x8 5 6 1 2 (by decide) (by decide)
    (by decide) (by decide) (by decide) (by decide) (by decide) (by decide)
    (pixelAt_zero_buffer sampleDev8x8 (by decide) (by decide) (by decide))
    (by decide) (by decide)
  exact ⟨d, hd, hpix 1 2 (by decide) (by decide), hpix 5 6 (by decide) (by decide),
    hpix 3 2 (by decide) (by decide), hpix 1 4 (by decide) (by decide),
    hpix 3 4 (by decide) (by decide), hpix 0 2 (by decide) (by decide),
    hpix 6 6 (by decide) (by decide)⟩

/-! ## The circle loop as a sequence of pixel writes -/

theorem DrawCircle_states_bind (color : SSD1306_Color_t) (d : SSD1306_t) (x y : Nat) (n : Nat)
    (delta_x delta_y error_1 : Int) :
    ((DrawCircle_states (n + 1) delta_x delta_y error_1).bind
        fun a => plotAll color d (a.flatMap (DrawCircle_four x y))) =
      (plotAll color d (DrawCircle_four x y (delta_x, delta_y))).bind fun t =>
        if (DrawCircle_next delta_x delta_y error_1).1 ≤ 0 then
          (DrawCircle_states n (DrawCircle_next delta_x delta_y error_1).1
            (DrawCircle_next delta_x delta_y error_1).2.1
            (DrawCircle_next delta_x delta_y error_1).2.2).bind
            fun a => plotAll color t (a.flatMap (DrawCircle_four x y))
        else some t := by
  simp only [DrawCircle_states]
  by_cases hc : (DrawCircle_next delta_x delta_y error_1).1 ≤ 0
  · simp only [hc, if_true]
    cases DrawCircle_states n (DrawCircle_next delta_x delta_y error_1).1
        (DrawCircle_next delta_x delta_y error_1).2.1
        (DrawCircle_next delta_x delta_y error_1).2.2 with
    | none =>
      cases plotAll color d (DrawCircle_four x y (delta_x, delta_y)) <;> rfl
    | some L =>
      simp only [Option.some_bind, List.flatMap_cons, plotAll_append]
  · simp only [hc, if_false, Option.some_bind, List.flatMap_cons, List.flatMap_nil,
      List.append_nil]
    cases plotAll color d (DrawCircle_four x y (delta_x, delta_y)) <;> rfl

/-- The loop of `SSD1306_DrawCircle` writes the four pixels of every state of
`DrawCircle_states`, in order. -/
theorem DrawCircle_loop_eq (x y : Nat) (color : SSD1306_Color_t) (fuel : Nat) (d : SSD1306_t)
    (delta_x delta_y error_1 : Int) :
    SSD1306_DrawCircle_loop x y color fuel d delta_x delta_y error_1 =
      (DrawCircle_states fuel delta_x delta_y error_1).bind
        (fun states => plotAll color d (states.flatMap (DrawCircle_four x y))) := by
  induction fuel generalizing d delta_x delta_y error_1 with
  | zero => rfl
  | succ n ih =>
    rw [DrawCircle_states_bind]
    simp only [SSD1306_DrawCircle_loop, DrawCircle_four, plotAll]
    cases SSD1306_DrawPixel d (toUint8 (x - delta_x)) (toUint8 (y + delta_y)) color with
    | none => rfl
    | some d1 =>
      simp only []
      cases SSD1306_DrawPixel d1 (toUint8 (x + delta_x)) (toUint8 (y + delta_y)) color with
      | none => rfl
      | some d2 =>
        simp only []
        cases SSD1306_DrawPixel d2 (toUint8 (x + delta_x)) (toUint8 (y - delta_y)) color with
        | none => rfl
        | some d3 =>
          simp only []
          cases SSD1306_DrawPixel d3 (toUint8 (x - delta_x)) (toUint8 (y - delta_y)) color with
          | none => rfl
          | some d4 =>
            simp only [Option.some_bind, ih]
            rfl
/-! ## The circle loop: invariant and termination -/

theorem CircleInv_dy_lt (R dx dy e : Int) (h : CircleInv R dx dy e) (hy : e ≤ dy) : dy < R := by
  obtain ⟨_, _, h0, hR, he, _⟩ := h
  by_contra hc
  have hdy : dy = R := by omega
  subst hdy
  nlinarith [mul_self_nonneg (dx + 1)]

theorem DrawCircle_next_eq (R dx dy e : Int) (hR : R ≤ 255) (h : CircleInv R dx dy e)
    (hx : dx ≤ 0) :
    DrawCircle_next dx dy e =
      if e ≤ dy then
        (if (-dx = dy + 1 ∧ e ≤ dx) ∨ dx < e then (dx + 1, dy + 1, e + 2 * dy + 2 * dx + 6)
         else (dx, dy + 1, e + 2 * dy + 3))
      else (dx + 1, dy, e + 2 * dx + 3) := by
  have hlt := CircleInv_dy_lt R dx dy e h
  obtain ⟨h1, h2, h3, h4, -, h6, h7, h8, h9⟩ := h
  unfold DrawCircle_next toInt16
  by_cases c1 : e ≤ dy
  · have := hlt c1
    simp only [c1, if_true]
    have e1 : (dy + 1 + 32768) % 65536 - 32768 = dy + 1 := by omega
    simp only [e1]
    have e2 : (e + ((dy + 1) * 2 + 1) + 32768) % 65536 - 32768 = e + 2 * dy + 3 := by omega
    simp only [e2]
    by_cases c2 : -dx = dy + 1 ∧ e ≤ dx
    · have c3 : (0 : Int) > dx := by omega
      simp only [c2, and_self, if_true, c3, true_or]
      have e3 : (dx + 1 + 32768) % 65536 - 32768 = dx + 1 := by omega
      simp only [e3]
      have e4 : (e + 2 * dy + 3 + ((dx + 1) * 2 + 1) + 32768) % 65536 - 32768 =
          e + 2 * dy + 2 * dx + 6 := by omega
      simp only [e4]
    · simp only [c2, if_false, false_or]
      by_cases c3 : dx < e
      · have c3' : e > dx := c3
        simp only [c3, c3', if_true]
        have e3 : (dx + 1 + 32768) % 65536 - 32768 = dx + 1 := by omega
        simp only [e3]
        have e4 : (e + 2 * dy + 3 + ((dx + 1) * 2 + 1) + 32768) % 65536 - 32768 =
            e + 2 * dy + 2 * dx + 6 := by omega
        simp only [e4]
      · have c3' : ¬ e > dx := c3
        simp only [c3, c3', if_false]
  · have c3 : e > dx := by omega
    simp only [c1, if_false, c3, if_true]
    have e3 : (dx + 1 + 32768) % 65536 - 32768 = dx + 1 := by omega
    simp only [e3]
    have e4 : (e + ((dx + 1) * 2 + 1) + 32768) % 65536 - 32768 = e + 2 * dx + 3 := by omega
    simp only [e4]

/-- One iteration keeps the invariant and advances at least one of the two
offsets by one, neither of them going back. -/
theorem DrawCircle_next_inv (R dx dy e : Int) (hR : R ≤ 255) (h : CircleInv R dx dy e)
    (hx : dx ≤ 0) :
    CircleInv R (DrawCircle_next dx dy e).1 (DrawCircle_next dx dy e).2.1
        (DrawCircle_next dx dy e).2.2 ∧
      dx ≤ (DrawCircle_next dx dy e).1 ∧ dy ≤ (DrawCircle_next dx dy e).2.1 ∧
      dx + dy + 1 ≤ (DrawCircle_next dx dy e).1 + (DrawCircle_next dx dy e).2.1 ∧
      (e ≤ dy → (DrawCircle_next dx dy e).2.1 = dy + 1) := by
  rw [DrawCircle_next_eq R dx dy e hR h hx]
  have hlt := CircleInv_dy_lt R dx dy e h
  obtain ⟨h1, h2, h3, h4, h5, h6, h7, h8, h9⟩ := h
  by_cases c1 : e ≤ dy
  · have := hlt c1
    simp only [c1, if_true]
    by_cases c2 : (-dx = dy + 1 ∧ e ≤ dx) ∨ dx < e
    · simp only [c2, if_true]
      refine ⟨⟨by omega, by omega, by omega, by omega, ?_, by omega, by omega, by omega,
        by omega⟩, by omega, by omega, by omega, by simp⟩
      rw [h5]; ring
    · simp only [c2, if_false]
      refine ⟨⟨by omega, by omega, by omega, by omega, ?_, by omega, by omega, by omega,
        by omega⟩, by omega, by omega, by omega, by simp⟩
      rw [h5]; ring
  · simp only [c1, if_false]
    refine ⟨⟨by omega, by omega, by omega, by omega, ?_, by omega, by omega, by omega,
      by omega⟩, by omega, by omega, by omega, by simp⟩
    rw [h5]; ring
/-- With enough fuel the loop of `SSD1306_DrawCircle` ends; it starts with the
given offsets and every later state lies between the offsets after the first
iteration and the box of the radius. -/
theorem DrawCircle_states_spec (R : Int) (hR : R ≤ 255) :
    ∀ (fuel : Nat) (dx dy e : Int), CircleInv R dx dy e → dx ≤ 0 →
      R - dy - dx + 1 ≤ fuel →
      ∃ rest : List (Int × Int), DrawCircle_states fuel dx dy e = some ((dx, dy) :: rest) ∧
        ∀ s ∈ rest, (DrawCircle_next dx dy e).1 ≤ s.1 ∧ s.1 ≤ 0 ∧
          (DrawCircle_next dx dy e).2.1 ≤ s.2 ∧ s.2 ≤ R := by
  intro fuel
  induction fuel with
  | zero =>
    intro dx dy e h hx hf
    obtain ⟨h1, h2, h3, h4, -⟩ := h
    omega
  | succ n ih =>
    intro dx dy e h hx hf
    obtain ⟨hinv, hmx, hmy, hprog, -⟩ := DrawCircle_next_inv R dx dy e hR h hx
    simp only [DrawCircle_states]
    by_cases hc : (DrawCircle_next dx dy e).1 ≤ 0
    · simp only [hc, if_true]
      obtain ⟨rest, hrest, hall⟩ := ih _ _ _ hinv hc (by push_cast at hf ⊢; omega)
      rw [hrest]
      refine ⟨_, rfl, ?_⟩
      intro s hs
      rcases List.mem_cons.1 hs with rfl | hs
      · exact ⟨le_refl _, hc, le_refl _, hinv.2.2.2.1⟩
      · obtain ⟨a, b, c, d⟩ := hall s hs
        obtain ⟨_, hmx', hmy', _, _⟩ := DrawCircle_next_inv R _ _ _ hR hinv hc
        exact ⟨le_trans hmx' a, b, le_trans hmy' c, d⟩
    · simp only [hc, if_false]
      exact ⟨[], rfl, fun s hs => absurd hs (List.not_mem_nil s)⟩

theorem CircleInv_init (R : Int) (h0 : 0 ≤ R) (hR : R ≤ 255) :
    CircleInv R (toInt16 (-R)) 0 (toInt16 (2 - 2 * R)) := by
  have e1 : toInt16 (-R) = -R := by unfold toInt16; omega
  have e2 : toInt16 (2 - 2 * R) = 2 - 2 * R := by unfold toInt16; omega
  rw [e1, e2]
  refine ⟨by omega, by omega, by omega, by omega, ?_, by omega, by omega, by omega, by omega⟩
  ring

/-- The states of a whole call of `SSD1306_DrawCircle` with radius at most
255: the loop ends within `2 * radius + 1` iterations, starts at
`(-radius, 0)`, and all its offsets stay within the radius. -/
theorem DrawCircle_states_init (radius fuel : Nat) (hR : radius ≤ 255)
    (hf : 2 * radius + 1 ≤ fuel) :
    ∃ rest : List (Int × Int),
      DrawCircle_states fuel (toInt16 (-(radius : Int))) 0 (toInt16 (2 - 2 * (radius : Int))) =
        some ((-(radius : Int), 0) :: rest) ∧
      (∀ s ∈ rest, -(radius : Int) ≤ s.1 ∧ s.1 ≤ 0 ∧ 1 ≤ s.2 ∧ s.2 ≤ radius) := by
  have hinv := CircleInv_init radius (by omega) (by omega)
  have e1 : toInt16 (-(radius : Int)) = -(radius : Int) := by unfold toInt16; omega
  have e2 : toInt16 (2 - 2 * (radius : Int)) = 2 - 2 * (radius : Int) := by unfold toInt16; omega
  rw [e1, e2] at hinv ⊢
  obtain ⟨rest, hrest, hall⟩ := DrawCircle_states_spec radius (by omega) fuel _ _ _ hinv
    (by omega) (by omega)
  refine ⟨rest, hrest, ?_⟩
  intro s hs
  obtain ⟨a, b, c, d⟩ := hall s hs
  obtain ⟨_, hmx, _, _, hy⟩ := DrawCircle_next_inv radius _ _ _ (by omega) hinv (by omega)
  have := hy (by omega)
  exact ⟨le_trans hmx a, b, by omega, d⟩
/-- A call of `SSD1306_DrawCircle` with the centre inside the display is the
sequence of pixel writes of its loop states. -/
theorem DrawCircle_eq_plotAll (fuel : Nat) (dev : SSD1306_t) (x y radius : Nat)
    (color : SSD1306_Color_t) (hx : x < dev.width) (hy : y < dev.height) :
    SSD1306_DrawCircle fuel dev x y radius color =
      (DrawCircle_states fuel (toInt16 (-(radius : Int))) 0
          (toInt16 (2 - 2 * (radius : Int)))).bind
        (fun states => plotAll color dev (states.flatMap (DrawCircle_four x y))) := by
  unfold SSD1306_DrawCircle
  rw [if_neg (by omega), DrawCircle_loop_eq]

/-- On an all-off display that contains the whole circle, the pixels that are
on after `SSD1306_DrawCircle` are the four reflections of the loop states. -/
theorem DrawCircle_on_iff (fuel : Nat) (dev : SSD1306_t) (cx cy r : Nat)
    (h8 : dev.height % 8 = 0) (hlen : dev.buffer.length = dev.width * dev.height / 8)
    (hz : ∀ b ∈ dev.buffer, b = 0) (hw : dev.width < 256) (hh : dev.height < 256)
    (hrx : r ≤ cx) (hry : r ≤ cy) (hxr : cx + r < dev.width) (hyr : cy + r < dev.height)
    (hf : 2 * r + 1 ≤ fuel) :
    ∃ (d : SSD1306_t) (states : List (Int × Int)),
      SSD1306_DrawCircle fuel dev cx cy r SSD1306_COLOR_WHITE = some d ∧
      (-(r : Int), (0 : Int)) ∈ states ∧
      ∀ a b : Int, pixelOn d (cx + a) (cy + b) ↔
        ∃ s ∈ states, (a = s.1 ∨ a = -s.1) ∧ (b = s.2 ∨ b = -s.2) := by
  obtain ⟨rest, hst, hall⟩ := DrawCircle_states_init r fuel (by omega) hf
  have hL : ∀ s ∈ (-(r : Int), (0 : Int)) :: rest,
      -(r : Int) ≤ s.1 ∧ s.1 ≤ 0 ∧ 0 ≤ s.2 ∧ s.2 ≤ r := by
    intro s hs
    rcases List.mem_cons.1 hs with rfl | hs
    · exact ⟨le_refl _, by simp, le_refl _, by simp⟩
    · obtain ⟨a, b, c, d⟩ := hall s hs
      exact ⟨a, b, by omega, d⟩
  obtain ⟨d, hd⟩ := plotAll_total SSD1306_COLOR_WHITE
    (((-(r : Int), (0 : Int)) :: rest).flatMap (DrawCircle_four cx cy)) dev h8 hlen
  have hm := (plotAll_paints _ _ _ _ hd).mutates
  refine ⟨d, (-(r : Int), (0 : Int)) :: rest, ?_, List.mem_cons_self _ _, ?_⟩
  · rw [DrawCircle_eq_plotAll fuel dev cx cy r _ (by omega) (by omega), hst]
    exact hd
  · intro a b
    unfold pixelOn
    rw [hm.width, hm.height]
    constructor
    · rintro ⟨hX0, hXw, hY0, hYh, hpix⟩
      rw [plotAll_pixelAt _ _ dev d hd _ _ (by omega) (by omega)] at hpix
      by_cases hmem : (((cx : Int) + a).toNat, ((cy : Int) + b).toNat) ∈
          ((-(r : Int), (0 : Int)) :: rest).flatMap (DrawCircle_four cx cy)
      · obtain ⟨s, hs, hfour⟩ := List.mem_flatMap.1 hmem
        obtain ⟨b1, b2, b3, b4⟩ := hL s hs
        refine ⟨s, hs, ?_⟩
        simp only [DrawCircle_four, List.mem_cons, Prod.mk.injEq, List.mem_singleton,
          List.not_mem_nil, or_false, toUint8] at hfour
        omega
      · rw [if_neg hmem, pixelAt_zero_buffer dev h8 hlen hz _ _ (by omega) (by omega)] at hpix
        exact absurd hpix (by simp)
    · rintro ⟨s, hs, ha, hb⟩
      obtain ⟨b1, b2, b3, b4⟩ := hL s hs
      refine ⟨by omega, by omega, by omega, by omega, ?_⟩
      rw [plotAll_pixelAt _ _ dev d hd _ _ (by omega) (by omega), if_pos]
      refine List.mem_flatMap.2 ⟨s, hs, ?_⟩
      have hx1 : toUint8 ((cx : Int) - s.1) = ((cx : Int) - s.1).toNat := by
        unfold toUint8; congr 1; omega
      have hx2 : toUint8 ((cx : Int) + s.1) = ((cx : Int) + s.1).toNat := by
        unfold toUint8; congr 1; omega
      have hy1 : toUint8 ((cy : Int) - s.2) = ((cy : Int) - s.2).toNat := by
        unfold toUint8; congr 1; omega
      have hy2 : toUint8 ((cy : Int) + s.2) = ((cy : Int) + s.2).toNat := by
        unfold toUint8; congr 1; omega
      simp only [DrawCircle_four, List.mem_cons, Prod.mk.injEq, List.mem_singleton,
        List.not_mem_nil, or_false, hx1, hx2, hy1, hy2]
      rcases ha with rfl | rfl <;> rcases hb with rfl | rfl
      · exact Or.inr (Or.inl ⟨rfl, rfl⟩)
      · exact Or.inr (Or.inr (Or.inl ⟨rfl, by rw [sub_eq_add_neg]⟩))
      · exact Or.inl ⟨by rw [sub_eq_add_neg], rfl⟩
      · exact Or.inr (Or.inr (Or.inr ⟨by rw [sub_eq_add_neg], by rw [sub_eq_add_neg]⟩))

/-- C16: on an all-off buffer of a well-formed handle, for a centre
`(cx, cy)` and radius `r` with `r <= cx`, `r <= cy`, `cx + r < width` and
`cy + r < height`, `SSD1306_DrawCircle (cx, cy, r, WHITE)` returns, and the
set of pixels that are on afterwards is symmetric under horizontal and under
vertical reflection about the centre: for all integer offsets `a`, `b`, pixel
`(cx + a, cy + b)` is on iff `(cx - a, cy + b)` is on iff `(cx + a, cy - b)`
is on.  The set is not empty: pixel `(cx + r, cy)` is on. -/
theorem C16_DrawCircle_symmetric (fuel : Nat) (dev : SSD1306_t) (cx cy r : Nat)
    (h8 : dev.height % 8 = 0) (hlen : dev.buffer.length = dev.width * dev.height / 8)
    (hz : ∀ b ∈ dev.buffer, b = 0) (hw : dev.width < 256) (hh : dev.height < 256)
    (hrx : r ≤ cx) (hry : r ≤ cy) (hxr : cx + r < dev.width) (hyr : cy + r < dev.height)
    (hf : 2 * r + 1 ≤ fuel) :
    ∃ d : SSD1306_t, SSD1306_DrawCircle fuel dev cx cy r SSD1306_COLOR_WHITE = some d ∧
      pixelOn d ((cx : Int) + r) cy ∧
      ∀ a b : Int,
        (pixelOn d (cx + a) (cy + b) ↔ pixelOn d (cx - a) (cy + b)) ∧
        (pixelOn d (cx - a) (cy + b) ↔ pixelOn d (cx + a) (cy - b)) := by
  obtain ⟨d, states, hd, hhead, hon⟩ :=
    DrawCircle_on_iff fuel dev cx cy r h8 hlen hz hw hh hrx hry hxr hyr hf
  refine ⟨d, hd, ?_, ?_⟩
  · have h0 := (hon r 0).2 ⟨_, hhead, Or.inr (by simp), Or.inl rfl⟩
    rwa [add_zero] at h0
  intro a b
  have e1 : (cx : Int) - a = cx + -a := by ring
  have e2 : (cy : Int) - b = cy + -b := by ring
  rw [e1, e2, hon a b, hon (-a) b, hon a (-b)]
  constructor
  · constructor
    · rintro ⟨s, hs, ha, hb⟩
      exact ⟨s, hs, by omega, hb⟩
    · rintro ⟨s, hs, ha, hb⟩
      exact ⟨s, hs, by omega, hb⟩
  · constructor
    · rintro ⟨s, hs, ha, hb⟩
      exact ⟨s, hs, by omega, by omega⟩
    · rintro ⟨s, hs, ha, hb⟩
      exact ⟨s, hs, by omega, by omega⟩

theorem C16_DrawCircle_symmetric_witness :
    ∃ d : SSD1306_t, SSD1306_DrawCircle 7 sampleDev24x24 10 10 3 SSD1306_COLOR_WHITE = some d ∧
      pixelOn d (((10 : Nat) : Int) + (3 : Nat)) (10 : Nat) ∧
      ∀ a b : Int,
        (pixelOn d ((10 : Nat) + a) ((10 : Nat) + b) ↔
          pixelOn d ((10 : Nat) - a) ((10 : Nat) + b)) ∧
        (pixelOn d ((10 : Nat) - a) ((10 : Nat) + b) ↔
          pixelOn d ((10 : Nat) + a) ((10 : Nat) - b)) :=
  C16_DrawCircle_symmetric 7 sampleDev24x24 10 10 3 (by decide)
    (by show (List.replicate 72 0).length = 24 * 24 / 8; rw [List.length_replicate])
    (fun b hb => List.eq_of_mem_replicate hb) (by decide) (by decide) (by decide) (by decide)
    (by decide) (by decide) (by decide)
/-- C15: what `SSD1306_DrawCircle` does on an all-off 128 x 64 display for
centre `(0, 0)` and radius 130.  The call returns; the first iteration
generates the integer point `(0 + delta_x, 0 + delta_y) = (-130, 0)`, which
lies left of the buffer; no iteration generates the integer point `(126, 0)`;
yet pixel `(126, 0)`, off before the call, is on after it: the coordinate
`-130` is converted to the `uint8_t` parameter of `SSD1306_DrawPixel` as 126
and passes the bounds check there. -/
theorem C15_circle_wraps :
    ∃ (d : SSD1306_t) (states : List (Int × Int)),
      DrawCircle_states 261 (toInt16 (-((130 : Nat) : Int))) 0
          (toInt16 (2 - 2 * ((130 : Nat) : Int))) = some states ∧
      SSD1306_DrawCircle 261 sampleDev128x64 0 0 130 SSD1306_COLOR_WHITE = some d ∧
      (-130, 0) ∈ states ∧
      (∀ s ∈ states, ((126 : Int), (0 : Int)) ∉ DrawCircle_four_int 0 0 s) ∧
      pixelAt sampleDev128x64 126 0 = some SSD1306_COLOR_BLACK ∧
      pixelAt d 126 0 = some SSD1306_COLOR_WHITE := by
  have h8 : sampleDev128x64.height % 8 = 0 := by decide
  have hlen : sampleDev128x64.buffer.length =
      sampleDev128x64.width * sampleDev128x64.height / 8 := by
    show (List.replicate 1024 0).length = 128 * 64 / 8
    rw [List.length_replicate]
  have hz : ∀ b ∈ sampleDev128x64.buffer, b = 0 := fun b hb => List.eq_of_mem_replicate hb
  obtain ⟨rest, hst, hall⟩ := DrawCircle_states_init 130 261 (by decide) (by decide)
  obtain ⟨d, hd⟩ := plotAll_total SSD1306_COLOR_WHITE
    (((-((130 : Nat) : Int), (0 : Int)) :: rest).flatMap (DrawCircle_four 0 0))
    sampleDev128x64 h8 hlen
  refine ⟨d, _, hst, ?_, List.mem_cons_self _ _, ?_,
    pixelAt_zero_buffer _ h8 hlen hz 126 0 (by decide) (by decide), ?_⟩
  · rw [DrawCircle_eq_plotAll 261 sampleDev128x64 0 0 130 _ (by decide) (by decide), hst,
      Option.some_bind]
    exact hd
  · intro s hs
    rcases List.mem_cons.1 hs with rfl | hs
    · decide
    · obtain ⟨_, _, h1, _⟩ := hall s hs
      simp only [DrawCircle_four_int, List.mem_cons, Prod.mk.injEq, List.mem_singleton,
        List.not_mem_nil, or_false]
      push_cast
      omega
  · rw [plotAll_pixelAt _ _ _ d hd 126 0 (by decide) (by decide), if_pos]
    exact List.mem_flatMap.2 ⟨_, List.mem_cons_self _ _, by decide⟩

/-! ## Drawing a bitmap -/

/-- The test `byte & 0x80` on the running byte, the loaded byte shifted left
`m` times as `uint8_t`, reads bit `7 - m` of the loaded byte. -/
theorem bitmap_test (v m : Nat) (hm : m ≤ 7) :
    ((((v % 256) <<< m) % 256) &&& 0x80 ≠ 0) ↔ v.testBit (7 - m) = true := by
  have h1 : (0x80 : Nat) = 2 ^ 7 := by norm_num
  have h2 : (256 : Nat) = 2 ^ 8 := by norm_num
  rw [h1, h2, Nat.and_two_pow, Nat.testBit_mod_two_pow, Nat.testBit_shiftLeft,
    Nat.testBit_mod_two_pow]
  have h3 : 7 - m < 8 := by omega
  simp [hm, h3]

/-- One more `byte <<= 1` on the running byte. -/
theorem bitmap_shift (v m : Nat) :
    (((v <<< m) % 256) <<< 1) % 256 = (v <<< (m + 1)) % 256 := by
  have e1 : v <<< (m + 1) = 2 * (v <<< m) := Nat.shiftLeft_succ v m
  have e2 : ((v <<< m) % 256) <<< 1 = 2 * ((v <<< m) % 256) := by
    rw [Nat.shiftLeft_succ, Nat.shiftLeft_zero]
  rw [e1, e2]
  omega

theorem and_seven (i : Nat) : i &&& 7 = i % 8 := by
  have h := Nat.and_pow_two_sub_one_eq_mod i 3
  simpa using h
/-- The colour test on the running byte agrees with direct bit extraction. -/
theorem bitmap_color (data : List Nat) (bpr j i v : Nat) (color : SSD1306_Color_t)
    (hv : data[j * bpr + i / 8]? = some v) :
    (if (((v % 256) <<< (i % 8)) % 256) &&& 0x80 ≠ 0 then color else color.not) =
      bitmapColor data bpr j i color := by
  have hm : i % 8 ≤ 7 := by omega
  unfold bitmapColor
  rw [hv, Option.getD_some]
  by_cases h : (((v % 256) <<< (i % 8)) % 256) &&& 0x80 ≠ 0
  · rw [if_pos h, if_pos ((bitmap_test v (i % 8) hm).1 h)]
  · rw [if_neg h, if_neg (fun h1 => h ((bitmap_test v (i % 8) hm).2 h1))]

/-- One column of `SSD1306_DrawBitmap`: when the running byte is the loaded
byte of column `i - 1` shifted `(i - 1) % 8` times, the body loads or shifts
to the byte of column `i` shifted `i % 8` times and writes the pixel in the
colour of direct bit extraction. -/
theorem DrawBitmap_column (data : List Nat) (bpr j i : Nat) (color : SSD1306_Color_t)
    (t t1 : SSD1306_t) (X Y byte byte1 : Nat)
    (hprev : i % 8 ≠ 0 → ∃ v, data[j * bpr + (i - 1) / 8]? = some v ∧
      byte = ((v % 256) <<< ((i - 1) % 8)) % 256)
    (h : (match (if i &&& 7 ≠ 0 then some ((byte <<< 1) % 256)
                 else (data[j * bpr + i / 8]?).map (fun v => v % 256)) with
          | none => none
          | some b =>
            match SSD1306_DrawPixel t X Y (if b &&& 0x80 ≠ 0 then color else color.not) with
            | none => none
            | some d => some (d, b)) = some (t1, byte1)) :
    ∃ v, data[j * bpr + i / 8]? = some v ∧ byte1 = ((v % 256) <<< (i % 8)) % 256 ∧
      SSD1306_DrawPixel t X Y (bitmapColor data bpr j i color) = some t1 := by
  rw [and_seven] at h
  have hfin : ∀ v, data[j * bpr + i / 8]? = some v →
      (match SSD1306_DrawPixel t X Y
          (if (((v % 256) <<< (i % 8)) % 256) &&& 0x80 ≠ 0 then color else color.not) with
        | none => none
        | some d => some (d, ((v % 256) <<< (i % 8)) % 256)) = some (t1, byte1) →
      ∃ v, data[j * bpr + i / 8]? = some v ∧ byte1 = ((v % 256) <<< (i % 8)) % 256 ∧
        SSD1306_DrawPixel t X Y (bitmapColor data bpr j i color) = some t1 := by
    intro v hv hm
    rw [bitmap_color data bpr j i v color hv] at hm
    cases hp : SSD1306_DrawPixel t X Y (bitmapColor data bpr j i color) with
    | none => rw [hp] at hm; exact absurd hm (by simp)
    | some d =>
      rw [hp] at hm
      simp only [Option.some.injEq, Prod.mk.injEq] at hm
      exact ⟨v, hv, hm.2.symm, by rw [hm.1]⟩
  by_cases hi : i % 8 ≠ 0
  · obtain ⟨v, hv, hbyte⟩ := hprev hi
    have e1 : (i - 1) / 8 = i / 8 := by omega
    have e2 : (i - 1) % 8 + 1 = i % 8 := by omega
    rw [if_pos hi] at h
    dsimp only at h
    rw [hbyte, bitmap_shift, e2] at h
    rw [e1] at hv
    exact hfin v hv h
  · rw [if_neg hi] at h
    cases hv : data[j * bpr + i / 8]? with
    | none => rw [hv] at h; exact absurd h (by simp)
    | some v =>
      rw [hv] at h
      have e0 : i % 8 = 0 := by omega
      have e3 : v % 256 = ((v % 256) <<< (i % 8)) % 256 := by
        rw [e0, Nat.shiftLeft_zero, Nat.mod_mod]
      simp only [Option.map_some'] at h
      rw [e3] at h
      have hres := hfin v hv h
      rw [hv] at hres
      exact hres
/-- The column loop of `SSD1306_DrawBitmap` on row `j`, when it returns: it
only paints, the pixels of row `cur_y + j` in the columns
`cur_x .. cur_x + W - 1` read as `bitmapColor`, all others as before, and
every byte of the row that a column uses lies inside the data. -/
theorem DrawBitmap_row (d0 : SSD1306_t) (data : List Nat) (bpr j W : Nat)
    (color : SSD1306_Color_t) (s1 s2 : SSD1306_t × Nat) (hp0 : Paints d0 s1.1)
    (hfx : d0.cur_x + W ≤ d0.width) (hfy : d0.cur_y + j < d0.height)
    (hw : d0.width ≤ 256) (hh : d0.height ≤ 256)
    (h : forLoop (fun i (s : SSD1306_t × Nat) =>
        match (if i &&& 7 ≠ 0 then some ((s.2 <<< 1) % 256)
               else (data[j * bpr + i / 8]?).map (fun v => v % 256)) with
        | none => none
        | some byte =>
          match SSD1306_DrawPixel s.1 ((s.1.cur_x + i) % 256) ((s.1.cur_y + j) % 256)
              (if byte &&& 0x80 ≠ 0 then color else color.not) with
          | none => none
          | some d => some (d, byte)) W 0 s1 = some s2) :
    Paints d0 s2.1 ∧
      (∀ x1 y1, x1 < d0.width → y1 < d0.height →
        pixelAt s2.1 x1 y1 =
          if y1 = d0.cur_y + j ∧ d0.cur_x ≤ x1 ∧ x1 < d0.cur_x + W then
            some (bitmapColor data bpr j (x1 - d0.cur_x) color)
          else pixelAt s1.1 x1 y1) ∧
      (∀ c, c < W → ∃ v, data[j * bpr + c / 8]? = some v) := by
  have key := forLoop_invariant _
    (fun i (s : SSD1306_t × Nat) => Paints d0 s.1 ∧
      (∀ x1 y1, x1 < d0.width → y1 < d0.height →
        pixelAt s.1 x1 y1 =
          if y1 = d0.cur_y + j ∧ d0.cur_x ≤ x1 ∧ x1 < d0.cur_x + i then
            some (bitmapColor data bpr j (x1 - d0.cur_x) color)
          else pixelAt s1.1 x1 y1) ∧
      (∀ c, c < i → ∃ v, data[j * bpr + c / 8]? = some v) ∧
      (i % 8 ≠ 0 → ∃ v, data[j * bpr + (i - 1) / 8]? = some v ∧
        s.2 = ((v % 256) <<< ((i - 1) % 8)) % 256)) W 0 s1 s2 ?_ ?_ h
  · simp only [Nat.zero_add] at key
    exact ⟨key.1, key.2.1, key.2.2.1⟩
  · refine ⟨hp0, ?_, ?_, ?_⟩
    · intro x1 y1 _ _
      rw [if_neg (by omega)]
    · intro c hc
      omega
    · intro h0
      exact absurd rfl h0
  · intro i t t1 _ hi hP hbody
    obtain ⟨hp, hpix, hdata, hbyte⟩ := hP
    obtain ⟨v, hv, hb1, hdraw⟩ := DrawBitmap_column data bpr j i color t.1 t1.1
      ((t.1.cur_x + i) % 256) ((t.1.cur_y + j) % 256) t.2 t1.2 hbyte hbody
    rw [hp.cur_x, hp.cur_y, Nat.mod_eq_of_lt (by omega), Nat.mod_eq_of_lt (by omega)] at hdraw
    refine ⟨hp.andThen (DrawPixel_paints _ _ _ _ _ hdraw), ?_, ?_, ?_⟩
    · intro x1 y1 hx1 hy1
      rw [DrawPixel_pixelAt t.1 t1.1 _ _ _ hdraw x1 y1 (by rw [hp.mutates.width]; exact hx1)
        (by rw [hp.mutates.height]; exact hy1), hpix x1 y1 hx1 hy1]
      by_cases hnew : x1 = d0.cur_x + i ∧ y1 = d0.cur_y + j
      · obtain ⟨rfl, rfl⟩ := hnew
        rw [if_pos ⟨rfl, rfl⟩, if_pos ⟨rfl, by omega, by omega⟩]
        simp
      · rw [if_neg hnew]
        by_cases hold : y1 = d0.cur_y + j ∧ d0.cur_x ≤ x1 ∧ x1 < d0.cur_x + i
        · rw [if_pos hold, if_pos ⟨hold.1, hold.2.1, by omega⟩]
        · rw [if_neg hold, if_neg]
          rintro ⟨h1, h2, h3⟩
          have : x1 ≠ d0.cur_x + i := fun hx => hnew ⟨hx, h1⟩
          exact hold ⟨h1, h2, by omega⟩
    · intro c hc
      by_cases hci : c = i
      · subst hci
        exact ⟨v, hv⟩
      · exact hdata c (by omega)
    · intro _
      refine ⟨v, ?_, ?_⟩
      · simpa using hv
      · simpa using hb1
/-- The two loops of `SSD1306_DrawBitmap`, when they return: they only paint,
the pixels of the rectangle read as `bitmapColor`, all others as before, and
every byte that a pixel uses lies inside the data. -/
theorem DrawBitmap_image (d0 : SSD1306_t) (data : List Nat) (bpr W H : Nat)
    (color : SSD1306_Color_t) (s2 : SSD1306_t × Nat)
    (hfx : d0.cur_x + W ≤ d0.width) (hfy : d0.cur_y + H ≤ d0.height)
    (hw : d0.width ≤ 256) (hh : d0.height ≤ 256)
    (h : forLoop (fun j (s1 : SSD1306_t × Nat) =>
        forLoop (fun i (s : SSD1306_t × Nat) =>
          match (if i &&& 7 ≠ 0 then some ((s.2 <<< 1) % 256)
                 else (data[j * bpr + i / 8]?).map (fun v => v % 256)) with
          | none => none
          | some byte =>
            match SSD1306_DrawPixel s.1 ((s.1.cur_x + i) % 256) ((s.1.cur_y + j) % 256)
                (if byte &&& 0x80 ≠ 0 then color else color.not) with
            | none => none
            | some d => some (d, byte)) W 0 s1) H 0 (d0, 0) = some s2) :
    Paints d0 s2.1 ∧
      (∀ x1 y1, x1 < d0.width → y1 < d0.height →
        pixelAt s2.1 x1 y1 =
          if d0.cur_y ≤ y1 ∧ y1 < d0.cur_y + H ∧ d0.cur_x ≤ x1 ∧ x1 < d0.cur_x + W then
            some (bitmapColor data bpr (y1 - d0.cur_y) (x1 - d0.cur_x) color)
          else pixelAt d0 x1 y1) ∧
      (∀ r c, r < H → c < W → ∃ v, data[r * bpr + c / 8]? = some v) := by
  have key := forLoop_invariant _
    (fun j (s : SSD1306_t × Nat) => Paints d0 s.1 ∧
      (∀ x1 y1, x1 < d0.width → y1 < d0.height →
        pixelAt s.1 x1 y1 =
          if d0.cur_y ≤ y1 ∧ y1 < d0.cur_y + j ∧ d0.cur_x ≤ x1 ∧ x1 < d0.cur_x + W then
            some (bitmapColor data bpr (y1 - d0.cur_y) (x1 - d0.cur_x) color)
          else pixelAt d0 x1 y1) ∧
      (∀ r c, r < j → c < W → ∃ v, data[r * bpr + c / 8]? = some v)) H 0 (d0, 0) s2 ?_ ?_ h
  · simp only [Nat.zero_add] at key
    exact key
  · refine ⟨Paints.unchanged d0, ?_, ?_⟩
    · intro x1 y1 _ _
      rw [if_neg (by omega)]
    · intro r c hr
      omega
  · intro j t t1 _ hj hP hbody
    obtain ⟨hp, hpix, hdata⟩ := hP
    obtain ⟨hp1, hrow, hdrow⟩ := DrawBitmap_row d0 data bpr j W color t t1 hp hfx (by omega)
      hw hh hbody
    refine ⟨hp1, ?_, ?_⟩
    · intro x1 y1 hx1 hy1
      rw [hrow x1 y1 hx1 hy1, hpix x1 y1 hx1 hy1]
      by_cases hnew : y1 = d0.cur_y + j ∧ d0.cur_x ≤ x1 ∧ x1 < d0.cur_x + W
      · obtain ⟨rfl, h2, h3⟩ := hnew
        rw [if_pos ⟨rfl, h2, h3⟩, if_pos ⟨by omega, by omega, h2, h3⟩, Nat.add_sub_cancel_left]
      · rw [if_neg hnew]
        by_cases hold : d0.cur_y ≤ y1 ∧ y1 < d0.cur_y + j ∧ d0.cur_x ≤ x1 ∧ x1 < d0.cur_x + W
        · rw [if_pos hold, if_pos ⟨hold.1, by omega, hold.2.2.1, hold.2.2.2⟩]
        · rw [if_neg hold, if_neg]
          rintro ⟨h1, h2, h3, h4⟩
          by_cases hy : y1 = d0.cur_y + j
          · exact hnew ⟨hy, h3, h4⟩
          · exact hold ⟨h1, by omega, h3, h4⟩
    · intro r c hr hc
      by_cases hrj : r = j
      · subst hrj
        exact hdrow c hc
      · exact hdata r c (by omega) hc

/-- The column loop of `SSD1306_DrawBitmap` returns on a well sized handle
when every byte it loads lies inside the data. -/
theorem DrawBitmap_row_total (d0 : SSD1306_t) (data : List Nat) (bpr j W : Nat)
    (color : SSD1306_Color_t) (s1 : SSD1306_t × Nat) (h8 : d0.height % 8 = 0)
    (hlen : d0.buffer.length = d0.width * d0.height / 8) (hp : Paints d0 s1.1)
    (hrow : ∀ c, c < W → j * bpr + c / 8 < data.length) :
    ∃ s2, forLoop (fun i (s : SSD1306_t × Nat) =>
        match (if i &&& 7 ≠ 0 then some ((s.2 <<< 1) % 256)
               else (data[j * bpr + i / 8]?).map (fun v => v % 256)) with
        | none => none
        | some byte =>
          match SSD1306_DrawPixel s.1 ((s.1.cur_x + i) % 256) ((s.1.cur_y + j) % 256)
              (if byte &&& 0x80 ≠ 0 then color else color.not) with
          | none => none
          | some d => some (d, byte)) W 0 s1 = some s2 ∧ Paints d0 s2.1 := by
  have hpixel : ∀ (t : SSD1306_t) (x y : Nat) (c : SSD1306_Color_t), Paints d0 t →
      ∃ t1, SSD1306_DrawPixel t x y c = some t1 ∧ Paints d0 t1 := by
    intro t x y c hp
    obtain ⟨t1, ht1⟩ := DrawPixel_total t x y c (by rw [hp.mutates.height]; exact h8)
      (by rw [hp.mutates.length, hp.mutates.width, hp.mutates.height]; exact hlen)
    exact ⟨t1, ht1, hp.andThen (DrawPixel_paints _ _ _ _ _ ht1)⟩
  have hstep : ∀ i (u : SSD1306_t × Nat), 0 ≤ i → i < 0 + W → Paints d0 u.1 →
      ∃ u1, (match (if i &&& 7 ≠ 0 then some ((u.2 <<< 1) % 256)
               else (data[j * bpr + i / 8]?).map (fun v => v % 256)) with
        | none => none
        | some byte =>
          match SSD1306_DrawPixel u.1 ((u.1.cur_x + i) % 256) ((u.1.cur_y + j) % 256)
              (if byte &&& 0x80 ≠ 0 then color else color.not) with
          | none => none
          | some d => some (d, byte)) = some u1 ∧ Paints d0 u1.1 := by
    intro i u _ hi hpu
    by_cases hc : i &&& 7 ≠ 0
    · obtain ⟨t1, ht1, hp1⟩ := hpixel u.1 ((u.1.cur_x + i) % 256) ((u.1.cur_y + j) % 256)
        (if ((u.2 <<< 1) % 256) &&& 0x80 ≠ 0 then color else color.not) hpu
      refine ⟨(t1, (u.2 <<< 1) % 256), ?_, hp1⟩
      rw [if_pos hc]
      dsimp only
      rw [ht1]
    · obtain ⟨v, hv⟩ : ∃ v, data[j * bpr + i / 8]? = some v :=
        ⟨_, List.getElem?_eq_getElem (hrow i (by omega))⟩
      obtain ⟨t1, ht1, hp1⟩ := hpixel u.1 ((u.1.cur_x + i) % 256) ((u.1.cur_y + j) % 256)
        (if (v % 256) &&& 0x80 ≠ 0 then color else color.not) hpu
      refine ⟨(t1, v % 256), ?_, hp1⟩
      rw [if_neg hc, hv]
      dsimp only [Option.map_some']
      rw [ht1]
  exact forLoop_total _ (fun _ (s : SSD1306_t × Nat) => Paints d0 s.1) W 0 s1 hp hstep

/-- The two loops of `SSD1306_DrawBitmap` return on a well sized handle when
every byte they load lies inside the data. -/
theorem DrawBitmap_image_total (d0 : SSD1306_t) (data : List Nat) (bpr W H : Nat)
    (color : SSD1306_Color_t) (h8 : d0.height % 8 = 0)
    (hlen : d0.buffer.length = d0.width * d0.height / 8)
    (hrows : ∀ r c, r < H → c < W → r * bpr + c / 8 < data.length) :
    ∃ s2, forLoop (fun j (s1 : SSD1306_t × Nat) =>
        forLoop (fun i (s : SSD1306_t × Nat) =>
          match (if i &&& 7 ≠ 0 then some ((s.2 <<< 1) % 256)
                 else (data[j * bpr + i / 8]?).map (fun v => v % 256)) with
          | none => none
          | some byte =>
            match SSD1306_DrawPixel s.1 ((s.1.cur_x + i) % 256) ((s.1.cur_y + j) % 256)
                (if byte &&& 0x80 ≠ 0 then color else color.not) with
            | none => none
            | some d => some (d, byte)) W 0 s1) H 0 (d0, 0) = some s2 := by
  have hstep : ∀ j (t : SSD1306_t × Nat), 0 ≤ j → j < 0 + H → Paints d0 t.1 →
      ∃ t1, forLoop (fun i (s : SSD1306_t × Nat) =>
          match (if i &&& 7 ≠ 0 then some ((s.2 <<< 1) % 256)
                 else (data[j * bpr + i / 8]?).map (fun v => v % 256)) with
          | none => none
          | some byte =>
            match SSD1306_DrawPixel s.1 ((s.1.cur_x + i) % 256) ((s.1.cur_y + j) % 256)
                (if byte &&& 0x80 ≠ 0 then color else color.not) with
            | none => none
            | some d => some (d, byte)) W 0 t = some t1 ∧ Paints d0 t1.1 := by
    intro j t _ hj hp
    exact DrawBitmap_row_total d0 data bpr j W color t h8 hlen hp
      (fun c hc => hrows j c (by omega) hc)
  obtain ⟨s2, hs2, _⟩ := forLoop_total _ (fun _ (s : SSD1306_t × Nat) => Paints d0 s.1)
    H 0 (d0, 0) (Paints.unchanged d0) hstep
  exact ⟨s2, hs2⟩
/-- C13: for a handle with `width`, `height` in their `uint8_t` range, a
colour and a bitmap of width `bw` and height `bh`.  When the bitmap fits at
the cursor (`cur_x + bw <= width`, `cur_y + bh <= height`), every returning
`SSD1306_DrawBitmap` call advances `cur_x` by exactly `bw`, keeps `cur_y` and
the geometry; for every row `r < bh` and column `col < bw` the byte
`data[r * ((bw + 7) / 8) + col / 8]` exists and pixel
`(cur_x + col, cur_y + r)` reads as the requested colour when bit
`7 - col % 8` of that byte is set and as the inverse colour otherwise (the
running left shift of the code agrees with direct bit extraction); every
pixel outside the rectangle reads as before.  The call returns when the
handle is well sized (height a multiple of 8, buffer of `width * height / 8`
bytes) and the data holds `bh * ((bw + 7) / 8)` bytes.  When the bitmap does
not fit, the call returns the handle unchanged. -/
theorem C13_DrawBitmap_bits (dev : SSD1306_t) (bitmap : SSD1306_Bitmap_t)
    (c : SSD1306_Color_t) (hw : dev.width < 256) (hh : dev.height < 256) :
    (dev.cur_x + bitmap.width ≤ dev.width → dev.cur_y + bitmap.height ≤ dev.height →
      (∀ d, SSD1306_DrawBitmap dev bitmap c = some d →
        d.cur_x = dev.cur_x + bitmap.width ∧ d.cur_y = dev.cur_y ∧
        d.width = dev.width ∧ d.height = dev.height ∧
        (∀ r col, r < bitmap.height → col < bitmap.width →
          ∃ v, bitmap.data[r * ((bitmap.width + 7) / 8) + col / 8]? = some v ∧
            pixelAt d (dev.cur_x + col) (dev.cur_y + r) =
              some (if v.testBit (7 - col % 8) then c else c.not)) ∧
        (∀ x y, x < dev.width → y < dev.height →
          ¬ (dev.cur_x ≤ x ∧ x < dev.cur_x + bitmap.width ∧
              dev.cur_y ≤ y ∧ y < dev.cur_y + bitmap.height) →
          pixelAt d x y = pixelAt dev x y)) ∧
      (dev.height % 8 = 0 → dev.buffer.length = dev.width * dev.height / 8 →
        bitmap.height * ((bitmap.width + 7) / 8) ≤ bitmap.data.length →
        ∃ d, SSD1306_DrawBitmap dev bitmap c = some d)) ∧
    ((dev.width < dev.cur_x + bitmap.width ∨ dev.height < dev.cur_y + bitmap.height) →
      SSD1306_DrawBitmap dev bitmap c = some dev) := by
  constructor
  · intro hfx hfy
    have hfit : ¬ (dev.width < dev.cur_x + bitmap.width ∨
        dev.height < dev.cur_y + bitmap.height) := by omega
    have hbpr : ((bitmap.width + 7) / 8) % 256 = (bitmap.width + 7) / 8 := by omega
    constructor
    · intro d h
      unfold SSD1306_DrawBitmap at h
      rw [if_neg hfit] at h
      dsimp only at h
      split at h
      · exact absurd h (by simp)
      · next t byte ht =>
        simp only [Option.some.injEq] at h
        subst h
        obtain ⟨hp, hpix, hdata⟩ := DrawBitmap_image dev bitmap.data _ bitmap.width
          bitmap.height c (t, byte) hfx hfy (by omega) (by omega) ht
        rw [hbpr] at hpix hdata
        refine ⟨?_, hp.cur_y, hp.mutates.width, hp.mutates.height, ?_, ?_⟩
        · show (t.cur_x + bitmap.width) % 256 = dev.cur_x + bitmap.width
          rw [hp.cur_x]
          exact Nat.mod_eq_of_lt (by omega)
        · intro r col hr hcol
          obtain ⟨v, hv⟩ := hdata r col hr hcol
          refine ⟨v, hv, ?_⟩
          have hpx := hpix (dev.cur_x + col) (dev.cur_y + r) (by omega) (by omega)
          rw [if_pos ⟨by omega, by omega, by omega, by omega⟩, Nat.add_sub_cancel_left,
            Nat.add_sub_cancel_left] at hpx
          unfold bitmapColor at hpx
          rw [hv, Option.getD_some] at hpx
          simpa [pixelAt] using hpx
        · intro x y hx hy hout
          have hpx := hpix x y hx hy
          rw [if_neg (by intro hc; exact hout ⟨hc.2.2.1, hc.2.2.2, hc.1, hc.2.1⟩)] at hpx
          simpa [pixelAt] using hpx
    · intro h8 hlen hrows
      have hidx : ∀ r col, r < bitmap.height → col < bitmap.width →
          r * (((bitmap.width + 7) / 8) % 256) + col / 8 < bitmap.data.length := by
        intro r col hr hcol
        rw [hbpr]
        have h1 : (r + 1) * ((bitmap.width + 7) / 8) ≤ bitmap.height * ((bitmap.width + 7) / 8) :=
          Nat.mul_le_mul_right _ (by omega)
        have h2 : (r + 1) * ((bitmap.width + 7) / 8) =
            r * ((bitmap.width + 7) / 8) + (bitmap.width + 7) / 8 := by ring
        have h3 : col / 8 < (bitmap.width + 7) / 8 := by omega
        omega
      obtain ⟨s2, hs2⟩ := DrawBitmap_image_total dev bitmap.data _ bitmap.width bitmap.height c
        h8 hlen hidx
      unfold SSD1306_DrawBitmap
      rw [if_neg hfit]
      dsimp only
      split
      · next hnone => exact absurd (hnone.symm.trans hs2) (by simp)
      · exact ⟨_, rfl⟩
  · intro hno
    unfold SSD1306_DrawBitmap
    rw [if_pos hno]

/-- C13 on `sampleDev12x8` and `sampleBitmap`: the rows `1010010110` and
`0000111101` drawn WHITE at the origin. -/
theorem C13_DrawBitmap_bits_witness :
    ∃ d, SSD1306_DrawBitmap sampleDev12x8 sampleBitmap SSD1306_COLOR_WHITE = some d ∧
      d.cur_x = 10 ∧ d.cur_y = 0 ∧
      pixelAt d 0 0 = some SSD1306_COLOR_WHITE ∧ pixelAt d 1 0 = some SSD1306_COLOR_BLACK ∧
      pixelAt d 7 0 = some SSD1306_COLOR_WHITE ∧ pixelAt d 8 0 = some SSD1306_COLOR_WHITE ∧
      pixelAt d 9 0 = some SSD1306_COLOR_BLACK ∧ pixelAt d 4 1 = some SSD1306_COLOR_WHITE ∧
      pixelAt d 8 1 = some SSD1306_COLOR_BLACK ∧ pixelAt d 9 1 = some SSD1306_COLOR_WHITE ∧
      pixelAt d 10 0 = pixelAt sampleDev12x8 10 0 ∧ pixelAt d 0 2 = pixelAt sampleDev12x8 0 2 := by
  have hthm := (C13_DrawBitmap_bits sampleDev12x8 sampleBitmap SSD1306_COLOR_WHITE
    (by decide) (by decide)).1 (by decide) (by decide)
  obtain ⟨d, hd⟩ := hthm.2 (by decide) (by decide) (by decide)
  obtain ⟨hx, hy, _, _, hin, hout⟩ := hthm.1 d hd
  have bits : ∀ r col, r < 2 → col < 10 → ∀ v,
      sampleBitmap.data[r * ((10 + 7) / 8) + col / 8]? = some v →
      pixelAt d (0 + col) (0 + r) =
        some (if v.testBit (7 - col % 8) then SSD1306_COLOR_WHITE else SSD1306_COLOR_BLACK) := by
    intro r col hr hcol v hv
    obtain ⟨b, hb, hpx⟩ := hin r col hr hcol
    have hbv : b = v := Option.some.inj (hb.symm.trans hv)
    rw [← hbv]
    exact hpx
  refine ⟨d, hd, hx, hy, ?_, ?_, ?_, ?_, ?_, ?_, ?_, ?_,
    hout 10 0 (by decide) (by decide) (by decide), hout 0 2 (by decide) (by decide) (by decide)⟩
  · exact bits 0 0 (by decide) (by decide) 0xA5 rfl
  · exact bits 0 1 (by decide) (by decide) 0xA5 rfl
  · exact bits 0 7 (by decide) (by decide) 0xA5 rfl
  · exact bits 0 8 (by decide) (by decide) 0x80 rfl
  · exact bits 0 9 (by decide) (by decide) 0x80 rfl
  · exact bits 1 4 (by decide) (by decide) 0x0F rfl
  · exact bits 1 8 (by decide) (by decide) 0x40 rfl
  · exact bits 1 9 (by decide) (by decide) 0x40 rfl

/-! ## Buffer indexing stays in range -/

/-- Every page slice `[width * i, width * i + width)` for `i < height / 8`
lies inside a buffer of `width * height / 8` bytes. -/
theorem page_le (w h i : Nat) (hi : i < h / 8) : w * i + w ≤ w * h / 8 := by
  have h1 : w * (i + 1) ≤ w * (h / 8) := Nat.mul_le_mul_left w (by omega)
  have h2 : w * (h / 8) ≤ w * h / 8 := by
    rw [Nat.le_div_iff_mul_le (by norm_num), Nat.mul_assoc]
    exact Nat.mul_le_mul_left w (Nat.div_mul_le_self h 8)
  have h3 : w * (i + 1) = w * i + w := by ring
  omega

/-- The function `SSD1306_UpdateScreen` returns when the buffer holds
`width * height / 8` bytes, and keeps geometry and buffer. -/
theorem UpdateScreen_total (dev : SSD1306_t)
    (hlen : dev.buffer.length = dev.width * dev.height / 8) :
    ∃ r, SSD1306_UpdateScreen dev = some r ∧ r.1.width = dev.width ∧
      r.1.height = dev.height ∧ r.1.buffer_size = dev.buffer_size ∧
      r.1.buffer = dev.buffer := by
  unfold SSD1306_UpdateScreen
  by_cases hd : dev.is_dirty = 0
  · rw [if_pos hd]
    exact ⟨_, rfl, rfl, rfl, rfl, rfl⟩
  · rw [if_neg hd]
    have hstep : ∀ i (t : List Transport), 0 ≤ i → i < 0 + dev.height / 8 → True →
        ∃ t1, (if dev.width * i + dev.width ≤ dev.buffer.length then
            some (t ++ [Transport.command ((0xB0 + i) % 256), Transport.command 0x00,
              Transport.command 0x10,
              Transport.data ((dev.buffer.drop (dev.width * i)).take dev.width)])
          else none) = some t1 ∧ True := by
      intro i t _ hi _
      rw [if_pos (by rw [hlen]; exact page_le _ _ _ (by omega))]
      exact ⟨_, rfl, trivial⟩
    obtain ⟨trace, htrace, _⟩ := forLoop_total _ (fun _ (_ : List Transport) => True)
      (dev.height / 8) 0 [] trivial hstep
    rw [htrace]
    exact ⟨_, rfl, rfl, rfl, rfl, rfl⟩

/-- The function `SSD1306_FillBuffer` returns when the source holds `len`
bytes and the buffer holds `buffer_size` bytes. -/
theorem FillBuffer_total (dev : SSD1306_t) (buf : List Nat) (len : Nat)
    (hbuf : len ≤ buf.length) (hlen : dev.buffer.length = dev.buffer_size) :
    ∃ d, SSD1306_FillBuffer dev buf len = some d := by
  unfold SSD1306_FillBuffer
  by_cases h : len ≤ dev.buffer_size
  · rw [if_pos h, if_pos ⟨hbuf, by omega⟩]
    exact ⟨_, rfl⟩
  · rw [if_neg h]
    exact ⟨_, rfl⟩

/-- The function `SSD1306_DrawString` returns on a well sized handle when the
glyph of every character lies inside its bank. -/
theorem DrawString_total (START : Nat) (font : SSD1306_Font_t) (color : SSD1306_Color_t)
    (str : List Nat) :
    ∀ (dev : SSD1306_t), dev.height % 8 = 0 →
      dev.buffer.length = dev.width * dev.height / 8 →
      (∀ c ∈ str, ∀ bank off, char_start START c font = some (bank, off) →
        off + font.char_height ≤ bank.length) →
      ∃ r, SSD1306_DrawString START font color dev str = some r := by
  induction str with
  | nil => intro dev _ _ _; exact ⟨_, rfl⟩
  | cons c rest ih =>
    intro dev h8 hlen hrows
    unfold SSD1306_DrawString
    by_cases hc : c = 0
    · rw [if_pos hc]; exact ⟨_, rfl⟩
    · rw [if_neg hc]
      obtain ⟨d, r, hdr⟩ := DrawChar_total START dev c font color h8 hlen
        (hrows c (List.mem_cons_self _ _))
      have hm := DrawChar_mutates _ _ _ _ _ _ _ hdr
      rw [hdr]
      dsimp only
      by_cases hr : r ≠ c
      · rw [if_pos hr]; exact ⟨_, rfl⟩
      · rw [if_neg hr]
        exact ih d (by rw [hm.height]; exact h8)
          (by rw [hm.length, hm.width, hm.height]; exact hlen)
          (fun c1 hc1 => hrows c1 (List.mem_cons_of_mem _ hc1))

/-- The function `SSD1306_DrawBitmap` returns on a well sized handle when the
data holds the bytes of every row. -/
theorem DrawBitmap_total (dev : SSD1306_t) (bitmap : SSD1306_Bitmap_t)
    (color : SSD1306_Color_t) (h8 : dev.height % 8 = 0)
    (hlen : dev.buffer.length = dev.width * dev.height / 8) (hbw : bitmap.width < 256)
    (hrows : bitmap.height * ((bitmap.width + 7) / 8) ≤ bitmap.data.length) :
    ∃ d, SSD1306_DrawBitmap dev bitmap color = some d := by
  have hbpr : ((bitmap.width + 7) / 8) % 256 = (bitmap.width + 7) / 8 := by omega
  have hidx : ∀ r col, r < bitmap.height → col < bitmap.width →
      r * (((bitmap.width + 7) / 8) % 256) + col / 8 < bitmap.data.length := by
    intro r col hr hcol
    rw [hbpr]
    have h1 : (r + 1) * ((bitmap.width + 7) / 8) ≤ bitmap.height * ((bitmap.width + 7) / 8) :=
      Nat.mul_le_mul_right _ (by omega)
    have h2 : (r + 1) * ((bitmap.width + 7) / 8) =
        r * ((bitmap.width + 7) / 8) + (bitmap.width + 7) / 8 := by ring
    have h3 : col / 8 < (bitmap.width + 7) / 8 := by omega
    omega
  obtain ⟨s2, hs2⟩ := DrawBitmap_image_total dev bitmap.data _ bitmap.width bitmap.height color
    h8 hlen hidx
  unfold SSD1306_DrawBitmap
  split
  · exact ⟨_, rfl⟩
  · dsimp only
    split
    · next hnone => exact absurd (hnone.symm.trans hs2) (by simp)
    · exact ⟨_, rfl⟩
/-- The function `SSD1306_DrawLine` returns on a well sized handle for
`uint8_t` coordinates and fuel for 255 iterations. -/
theorem DrawLine_total (fuel : Nat) (dev : SSD1306_t) (x1 y1 x2 y2 : Nat)
    (color : SSD1306_Color_t) (h8 : dev.height % 8 = 0)
    (hlen : dev.buffer.length = dev.width * dev.height / 8)
    (hx1 : x1 < 256) (hy1 : y1 < 256) (hx2 : x2 < 256) (hy2 : y2 < 256) (hfuel : 255 ≤ fuel) :
    ∃ d, SSD1306_DrawLine fuel dev x1 y1 x2 y2 color = some d ∧ Paints dev d := by
  have hdx := (DrawLine_delta_sign x1 x2 hx1 hx2).1
  have hdy := (DrawLine_delta_sign y1 y2 hy1 hy2).1
  obtain ⟨L, hL, _, _⟩ := DrawLine_states_spec x1 y1 x2 y2 hx1 hy1 hx2 hy2 fuel (by omega)
  have hpoints : DrawLine_points fuel x1 y1 x2 y2 =
      some ((x2, y2) :: L.map (fun s => (s.1, s.2.1))) := by
    unfold DrawLine_points
    rw [hL]
  obtain ⟨d, hd⟩ := plotAll_total color ((x2, y2) :: L.map (fun s => (s.1, s.2.1))) dev h8 hlen
  have hline : SSD1306_DrawLine fuel dev x1 y1 x2 y2 color = some d := by
    rw [DrawLine_eq_plotAll, hpoints]
    exact hd
  exact ⟨d, hline, DrawLine_paints _ _ _ _ _ _ _ _ hline⟩

/-- The function `SSD1306_DrawRectangle` returns on a well sized handle. -/
theorem DrawRectangle_total (fuel : Nat) (dev : SSD1306_t) (x1 y1 x2 y2 : Nat)
    (color : SSD1306_Color_t) (h8 : dev.height % 8 = 0)
    (hlen : dev.buffer.length = dev.width * dev.height / 8)
    (hx1 : x1 < 256) (hy1 : y1 < 256) (hx2 : x2 < 256) (hy2 : y2 < 256) (hfuel : 255 ≤ fuel) :
    ∃ d, SSD1306_DrawRectangle fuel dev x1 y1 x2 y2 color = some d := by
  have hsized : ∀ t, Paints dev t → t.height % 8 = 0 ∧
      t.buffer.length = t.width * t.height / 8 := by
    intro t hp
    exact ⟨by rw [hp.mutates.height]; exact h8,
      by rw [hp.mutates.length, hp.mutates.width, hp.mutates.height]; exact hlen⟩
  obtain ⟨d1, h1, p1⟩ := DrawLine_total fuel dev x1 y1 x2 y1 color h8 hlen hx1 hy1 hx2 hy1 hfuel
  obtain ⟨d2, h2, p2⟩ := DrawLine_total fuel d1 x2 y1 x2 y2 color (hsized d1 p1).1
    (hsized d1 p1).2 hx2 hy1 hx2 hy2 hfuel
  have p12 := p1.andThen p2
  obtain ⟨d3, h3, p3⟩ := DrawLine_total fuel d2 x2 y2 x1 y2 color (hsized d2 p12).1
    (hsized d2 p12).2 hx2 hy2 hx1 hy2 hfuel
  have p123 := p12.andThen p3
  obtain ⟨d4, h4, _⟩ := DrawLine_total fuel d3 x1 y2 x1 y1 color (hsized d3 p123).1
    (hsized d3 p123).2 hx1 hy2 hx1 hy1 hfuel
  unfold SSD1306_DrawRectangle
  rw [h1]
  dsimp only
  rw [h2]
  dsimp only
  rw [h3]
  exact ⟨d4, h4⟩

/-- The function `SSD1306_DrawPolyline` returns on a well sized handle when
the array holds `par_size` vertices with `uint8_t` coordinates. -/
theorem DrawPolyline_total (fuel : Nat) (dev : SSD1306_t)
    (par_vertex : Option (List SSD1306_Vertex_t)) (par_size : Nat) (color : SSD1306_Color_t)
    (h8 : dev.height % 8 = 0) (hlen : dev.buffer.length = dev.width * dev.height / 8)
    (hok : ∀ vs, par_vertex = some vs →
      par_size ≤ vs.length ∧ (∀ v ∈ vs, v.x < 256 ∧ v.y < 256) ∧ 255 ≤ fuel) :
    ∃ d, SSD1306_DrawPolyline fuel dev par_vertex par_size color = some d := by
  unfold SSD1306_DrawPolyline
  cases par_vertex with
  | none => exact ⟨_, rfl⟩
  | some vs =>
    obtain ⟨hsize, hcoord, hfuel⟩ := hok vs rfl
    dsimp only
    have hstep : ∀ i (t : SSD1306_t), 1 ≤ i → i < 1 + (par_size - 1) → Paints dev t →
        ∃ t1, (match vs[i - 1]?, vs[i]? with
          | some a, some b => SSD1306_DrawLine fuel t a.x a.y b.x b.y color
          | _, _ => none) = some t1 ∧ Paints dev t1 := by
      intro i t hi1 hi2 hp
      obtain ⟨a, ha⟩ : ∃ a, vs[i - 1]? = some a :=
        ⟨_, List.getElem?_eq_getElem (show i - 1 < vs.length by omega)⟩
      obtain ⟨b, hb⟩ : ∃ b, vs[i]? = some b :=
        ⟨_, List.getElem?_eq_getElem (show i < vs.length by omega)⟩
      have hca := hcoord a (List.getElem?_mem ha)
      have hcb := hcoord b (List.getElem?_mem hb)
      obtain ⟨t1, ht1, hp1⟩ := DrawLine_total fuel t a.x a.y b.x b.y color
        (by rw [hp.mutates.height]; exact h8)
        (by rw [hp.mutates.length, hp.mutates.width, hp.mutates.height]; exact hlen)
        hca.1 hca.2 hcb.1 hcb.2 hfuel
      refine ⟨t1, ?_, hp.andThen hp1⟩
      rw [ha, hb]
      exact ht1
    obtain ⟨d, hd, _⟩ := forLoop_total _ (fun _ (t : SSD1306_t) => Paints dev t)
      (par_size - 1) 1 dev (Paints.unchanged dev) hstep
    exact ⟨d, hd⟩

/-- The function `SSD1306_DrawCircle` returns on a well sized handle for a
`uint8_t` radius and fuel for `2 * radius + 1` iterations. -/
theorem DrawCircle_total (fuel : Nat) (dev : SSD1306_t) (x y radius : Nat)
    (color : SSD1306_Color_t) (h8 : dev.height % 8 = 0)
    (hlen : dev.buffer.length = dev.width * dev.height / 8)
    (hr : radius < 256) (hfuel : 2 * radius + 1 ≤ fuel) :
    ∃ d, SSD1306_DrawCircle fuel dev x y radius color = some d := by
  by_cases hc : x ≥ dev.width ∨ y ≥ dev.height
  · unfold SSD1306_DrawCircle
    rw [if_pos hc]
    exact ⟨_, rfl⟩
  · obtain ⟨rest, hst, _⟩ := DrawCircle_states_init radius fuel (by omega) hfuel
    obtain ⟨d, hd⟩ := plotAll_total color
      (((-(radius : Int), (0 : Int)) :: rest).flatMap (DrawCircle_four x y)) dev h8 hlen
    refine ⟨d, ?_⟩
    rw [DrawCircle_eq_plotAll fuel dev x y radius color (by omega) (by omega), hst,
      Option.some_bind]
    exact hd
/-- Every public operation returns on a handle whose buffer has
`buffer_size = width * height / 8` bytes with `height` a multiple of 8, when
the caller's arguments are in order; the handle it returns is of that kind
again. -/
theorem Op_draw_total (op : Op) (dev : SSD1306_t) (h8 : dev.height % 8 = 0)
    (hsize : dev.buffer_size = dev.width * dev.height / 8)
    (hlen : dev.buffer.length = dev.buffer_size) (hok : op.callerOk) :
    ∃ d, op.draw dev = some d ∧ d.height % 8 = 0 ∧
      d.buffer_size = d.width * d.height / 8 ∧ d.buffer.length = d.buffer_size := by
  have hbuf : dev.buffer.length = dev.width * dev.height / 8 := by rw [hlen, hsize]
  have hkeep : ∀ d, Mutates dev d → d.height % 8 = 0 ∧
      d.buffer_size = d.width * d.height / 8 ∧ d.buffer.length = d.buffer_size := by
    intro d hm
    exact ⟨by rw [hm.height]; exact h8,
      by rw [hm.buffer_size, hm.width, hm.height]; exact hsize,
      by rw [hm.length, hm.buffer_size]; exact hlen⟩
  by_cases hup : op = Op.UpdateScreen
  · subst hup
    obtain ⟨r, hr, hw, hh, hs, hb⟩ := UpdateScreen_total dev hbuf
    refine ⟨r.1, ?_, by rw [hh]; exact h8, by rw [hs, hw, hh]; exact hsize,
      by rw [hb, hs]; exact hlen⟩
    show (SSD1306_UpdateScreen dev).map Prod.fst = some r.1
    rw [hr]
    rfl
  · have hres : ∃ d, op.draw dev = some d := by
      cases op with
      | DrawPixel x y color => exact DrawPixel_total dev x y color h8 hbuf
      | Fill color => exact ⟨_, Fill_eq dev color hlen⟩
      | FillBuffer buf len => exact FillBuffer_total dev buf len hok hlen
      | DrawChar START ch font color =>
        obtain ⟨d, r, hdr⟩ := DrawChar_total START dev ch font color h8 hbuf hok
        exact ⟨d, by show (SSD1306_DrawChar START dev ch font color).map Prod.fst = some d
                     rw [hdr]; rfl⟩
      | DrawString START str font color =>
        obtain ⟨r, hr⟩ := DrawString_total START font color str dev h8 hbuf hok
        exact ⟨r.1, by show (SSD1306_DrawString START font color dev str).map Prod.fst = some r.1
                       rw [hr]; rfl⟩
      | DrawBitmap bitmap color => exact DrawBitmap_total dev bitmap color h8 hbuf hok.1 hok.2
      | SetCursor x y => exact ⟨_, rfl⟩
      | DrawLine fuel x1 y1 x2 y2 color =>
        obtain ⟨d, hd, _⟩ := DrawLine_total fuel dev x1 y1 x2 y2 color h8 hbuf hok.1 hok.2.1
          hok.2.2.1 hok.2.2.2.1 hok.2.2.2.2
        exact ⟨d, hd⟩
      | DrawPolyline fuel par_vertex par_size color =>
        exact DrawPolyline_total fuel dev par_vertex par_size color h8 hbuf hok
      | DrawCircle fuel x y radius color =>
        exact DrawCircle_total fuel dev x y radius color h8 hbuf hok.1 hok.2
      | DrawRectangle fuel x1 y1 x2 y2 color =>
        exact DrawRectangle_total fuel dev x1 y1 x2 y2 color h8 hbuf hok.1 hok.2.1
          hok.2.2.1 hok.2.2.2.1 hok.2.2.2.2
      | UpdateScreen => exact absurd rfl hup
    obtain ⟨d, hd⟩ := hres
    exact ⟨d, hd, hkeep d (Op_draw_mutates op dev d hup hd)⟩

/-- One step of the system returns under the conditions of `Op_draw_total`,
with the handle `Op.draw` returns. -/
theorem System_step_total (s : System) (op : Op) (h8 : s.dev.height % 8 = 0)
    (hsize : s.dev.buffer_size = s.dev.width * s.dev.height / 8)
    (hlen : s.dev.buffer.length = s.dev.buffer_size) (hok : op.callerOk) :
    ∃ s1, s.step op = some s1 ∧ s1.dev.height % 8 = 0 ∧
      s1.dev.buffer_size = s1.dev.width * s1.dev.height / 8 ∧
      s1.dev.buffer.length = s1.dev.buffer_size := by
  obtain ⟨d, hd, hwf⟩ := Op_draw_total op s.dev h8 hsize hlen hok
  cases op with
  | UpdateScreen =>
    have hd1 : (SSD1306_UpdateScreen s.dev).map Prod.fst = some d := hd
    cases hu : SSD1306_UpdateScreen s.dev with
    | none => rw [hu] at hd1; exact absurd hd1 (by simp)
    | some r =>
      rw [hu] at hd1
      simp only [Option.map_some', Option.some.injEq] at hd1
      refine ⟨{ dev := r.1, shown := if s.dev.is_dirty = 0 then s.shown else payload r.2 }, ?_,
        by rw [hd1]; exact hwf⟩
      simp only [System.step, hu]
  | DrawPixel x y color => exact ⟨{ dev := d, shown := s.shown }, by simp only [System.step, hd], hwf⟩
  | Fill color => exact ⟨{ dev := d, shown := s.shown }, by simp only [System.step, hd], hwf⟩
  | FillBuffer buf len => exact ⟨{ dev := d, shown := s.shown }, by simp only [System.step, hd], hwf⟩
  | DrawChar START ch font color => exact ⟨{ dev := d, shown := s.shown }, by simp only [System.step, hd], hwf⟩
  | DrawString START str font color => exact ⟨{ dev := d, shown := s.shown }, by simp only [System.step, hd], hwf⟩
  | DrawBitmap bitmap color => exact ⟨{ dev := d, shown := s.shown }, by simp only [System.step, hd], hwf⟩
  | SetCursor x y => exact ⟨{ dev := d, shown := s.shown }, by simp only [System.step, hd], hwf⟩
  | DrawLine fuel x1 y1 x2 y2 color => exact ⟨{ dev := d, shown := s.shown }, by simp only [System.step, hd], hwf⟩
  | DrawPolyline fuel par_vertex par_size color =>
    exact ⟨{ dev := d, shown := s.shown }, by simp only [System.step, hd], hwf⟩
  | DrawCircle fuel x y radius color => exact ⟨{ dev := d, shown := s.shown }, by simp only [System.step, hd], hwf⟩
  | DrawRectangle fuel x1 y1 x2 y2 color => exact ⟨{ dev := d, shown := s.shown }, by simp only [System.step, hd], hwf⟩

/-- Every sequence of public operations runs to the end under the conditions
of `Op_draw_total`. -/
theorem System_run_total (ops : List Op) :
    ∀ (s : System), s.dev.height % 8 = 0 →
      s.dev.buffer_size = s.dev.width * s.dev.height / 8 →
      s.dev.buffer.length = s.dev.buffer_size → (∀ op ∈ ops, op.callerOk) →
      ∃ s1, s.run ops = some s1 ∧ s1.dev.height % 8 = 0 ∧
        s1.dev.buffer_size = s1.dev.width * s1.dev.height / 8 ∧
        s1.dev.buffer.length = s1.dev.buffer_size := by
  induction ops with
  | nil => intro s h8 hsize hlen _; exact ⟨s, rfl, h8, hsize, hlen⟩
  | cons op rest ih =>
    intro s h8 hsize hlen hok
    obtain ⟨s1, hs1, h8a, hsizea, hlena⟩ := System_step_total s op h8 hsize hlen
      (hok op (List.mem_cons_self _ _))
    obtain ⟨s2, hs2, hwf⟩ := ih s1 h8a hsizea hlena
      (fun o ho => hok o (List.mem_cons_of_mem _ ho))
    refine ⟨s2, ?_, hwf⟩
    simp only [System.run, hs1]
    exact hs2

/-- The handle that `SSD1306_Initialize` sets up for a geometry in the
`uint8_t` range: the call returns, `buffer_size = width * height / 8`, and the
buffer holds `buffer_size` bytes. -/
theorem Initialize_sized (address width height offset_x should_mirrror_vertical
    should_mirrror_horizontal should_inverse_color : Nat)
    (hw : width < 256) (hh : height < 256) :
    ∃ d trace, SSD1306_Initialize address width height offset_x should_mirrror_vertical
        should_mirrror_horizontal should_inverse_color = some (d, trace) ∧
      d.width = width ∧ d.height = height ∧
      d.buffer_size = width * height / 8 ∧ d.buffer.length = d.buffer_size := by
  have hprod : width * height < 255 * 256 + 1 := by
    have h1 : width * height ≤ 255 * 255 := Nat.mul_le_mul (by omega) (by omega)
    omega
  have hmod : (width * height / 8) % 65536 = width * height / 8 := by omega
  have hfill := Fill_eq (SSD1306_Initialize_fields address width height offset_x
    should_mirrror_vertical should_mirrror_horizontal should_inverse_color)
    SSD1306_COLOR_BLACK (by simp [SSD1306_Initialize_fields])
  obtain ⟨r, hr, hrw, hrh, hrs, hrb⟩ := UpdateScreen_total _
    (show ({ SSD1306_Initialize_fields address width height offset_x
        should_mirrror_vertical should_mirrror_horizontal should_inverse_color with
        buffer := List.replicate (SSD1306_Initialize_fields address width height offset_x
          should_mirrror_vertical should_mirrror_horizontal should_inverse_color).buffer_size
          (if SSD1306_COLOR_BLACK = SSD1306_COLOR_BLACK then 0x00 else 0xFF),
        is_dirty := 1 } : SSD1306_t).buffer.length = _ by
      simp [SSD1306_Initialize_fields, hmod])
  refine ⟨{ r.1 with cur_x := 0, cur_y := 0, is_initialized := 1 },
    SSD1306_Initialize_script height should_mirrror_vertical should_mirrror_horizontal
      should_inverse_color ++ r.2, ?_, ?_, ?_, ?_, ?_⟩
  · unfold SSD1306_Initialize
    rw [hfill]
    dsimp only
    rw [hr]
  · show r.1.width = width
    rw [hrw]
    rfl
  · show r.1.height = height
    rw [hrh]
    rfl
  · show r.1.buffer_size = width * height / 8
    rw [hrs]
    exact hmod
  · show r.1.buffer.length = r.1.buffer_size
    rw [hrb, hrs]
    simp [SSD1306_Initialize_fields]
/-- C21: for a handle with `height` a multiple of 8 whose buffer has
`buffer_size = width * height / 8` bytes.  For every `x < width` and
`y < height` the index `x + (y / 8) * width` that `SSD1306_DrawPixel` uses is
below `buffer_size` and the byte exists; every page slice
`[width * i, width * i + width)` for `i < height / 8` that
`SSD1306_UpdateScreen` reads lies inside the buffer and has `width` bytes;
`SSD1306_DrawPixel` returns for all arguments and `SSD1306_UpdateScreen`
returns; every public operation whose caller-side arguments are in order
(`Op.callerOk`) returns a handle of the same kind, and so does every sequence
of such operations: the out-of-range branch of the buffer accesses is never
taken.  `SSD1306_Initialize` with this geometry, when it is in the `uint8_t`
range, returns a handle with `buffer_size = width * height / 8` and a buffer
of that many bytes. -/
theorem C21_buffer_indexing_in_range (dev : SSD1306_t) (h8 : dev.height % 8 = 0)
    (hsize : dev.buffer_size = dev.width * dev.height / 8)
    (hlen : dev.buffer.length = dev.buffer_size) :
    (∀ x y, x < dev.width → y < dev.height →
      x + (y / 8) * dev.width < dev.buffer_size ∧
      ∃ b, dev.buffer[x + (y / 8) * dev.width]? = some b) ∧
    (∀ i, i < dev.height / 8 →
      dev.width * i + dev.width ≤ dev.buffer_size ∧
      ((dev.buffer.drop (dev.width * i)).take dev.width).length = dev.width) ∧
    (∀ x y color, ∃ d, SSD1306_DrawPixel dev x y color = some d) ∧
    (∃ r, SSD1306_UpdateScreen dev = some r) ∧
    (∀ op : Op, op.callerOk →
      ∃ d, op.draw dev = some d ∧ d.height % 8 = 0 ∧
        d.buffer_size = d.width * d.height / 8 ∧ d.buffer.length = d.buffer_size) ∧
    (∀ (shown : List Nat) (ops : List Op), (∀ op ∈ ops, op.callerOk) →
      ∃ s1, System.run { dev := dev, shown := shown } ops = some s1 ∧
        s1.dev.height % 8 = 0 ∧ s1.dev.buffer_size = s1.dev.width * s1.dev.height / 8 ∧
        s1.dev.buffer.length = s1.dev.buffer_size) ∧
    (∀ address offset_x should_mirrror_vertical should_mirrror_horizontal should_inverse_color,
      dev.width < 256 → dev.height < 256 →
      ∃ d trace, SSD1306_Initialize address dev.width dev.height offset_x
          should_mirrror_vertical should_mirrror_horizontal should_inverse_color =
          some (d, trace) ∧
        d.width = dev.width ∧ d.height = dev.height ∧
        d.buffer_size = dev.width * dev.height / 8 ∧ d.buffer.length = d.buffer_size) := by
  have hbuf : dev.buffer.length = dev.width * dev.height / 8 := by rw [hlen, hsize]
  refine ⟨?_, ?_, ?_, ?_, ?_, ?_, ?_⟩
  · intro x y hx hy
    have hidx : x + (y / 8) * dev.width < dev.width * dev.height / 8 :=
      index_lt _ _ _ _ h8 hx hy
    exact ⟨by rw [hsize]; exact hidx,
      _, List.getElem?_eq_getElem (show x + (y / 8) * dev.width < dev.buffer.length by
        rw [hbuf]; exact hidx)⟩
  · intro i hi
    have hpage := page_le dev.width dev.height i hi
    refine ⟨by rw [hsize]; exact hpage, ?_⟩
    rw [List.length_take, List.length_drop, hbuf]
    omega
  · intro x y color
    exact DrawPixel_total dev x y color h8 hbuf
  · obtain ⟨r, hr, _⟩ := UpdateScreen_total dev hbuf
    exact ⟨r, hr⟩
  · intro op hok
    exact Op_draw_total op dev h8 hsize hlen hok
  · intro shown ops hok
    exact System_run_total ops { dev := dev, shown := shown } h8 hsize hlen hok
  · intro address offset_x mv mh ic hw hh
    exact Initialize_sized address dev.width dev.height offset_x mv mh ic hw hh

/-- C21 on the handle that `SSD1306_Initialize (0x3C, 4, 16, 0, 0, 0, 0)`
returns: the pixel indices are below 8, the two page slices end at or before
byte 8, and a fill, a circle that leaves the display, a diagonal line, a
glyph and a flush run to the end. -/
theorem C21_buffer_indexing_in_range_witness :
    (∀ x y, x < 4 → y < 16 → x + (y / 8) * 4 < 8) ∧
    (∀ i, i < 2 → 4 * i + 4 ≤ 8) ∧
    ∃ s1, sampleInit.run [Op.Fill SSD1306_COLOR_WHITE,
      Op.DrawCircle 7 1 1 3 SSD1306_COLOR_BLACK,
      Op.DrawLine 255 0 0 3 15 SSD1306_COLOR_WHITE,
      Op.DrawChar 1 33 sampleFont SSD1306_COLOR_WHITE, Op.UpdateScreen] = some s1 := by
  have hthm := C21_buffer_indexing_in_range sampleInit.dev (by decide) (by decide) (by decide)
  refine ⟨fun x y hx hy => (hthm.1 x y hx hy).1, fun i hi => (hthm.2.1 i hi).1, ?_⟩
  obtain ⟨s1, hs1, _⟩ := hthm.2.2.2.2.2.1 sampleInit.shown
    [Op.Fill SSD1306_COLOR_WHITE, Op.DrawCircle 7 1 1 3 SSD1306_COLOR_BLACK,
      Op.DrawLine 255 0 0 3 15 SSD1306_COLOR_WHITE,
      Op.DrawChar 1 33 sampleFont SSD1306_COLOR_WHITE, Op.UpdateScreen] (by
    intro op hop
    simp only [List.mem_cons, List.mem_singleton, List.not_mem_nil, or_false] at hop
    rcases hop with rfl | rfl | rfl | rfl | rfl
    · exact trivial
    · show 3 < 256 ∧ 2 * 3 + 1 ≤ 7
      decide
    · show 0 < 256 ∧ 0 < 256 ∧ 3 < 256 ∧ 15 < 256 ∧ 255 ≤ 255
      decide
    · intro bank off h
      have hstart : char_start 1 33 sampleFont = some (sampleFont.data, 2) := by decide
      rw [hstart] at h
      simp only [Option.some.injEq, Prod.mk.injEq] at h
      rw [← h.1, ← h.2]
      decide
    · exact trivial)
  exact ⟨s1, hs1⟩
